import Mathlib

/-!
# NIXMLEdgesHandler: a shallow embedding

Embedding of `src/netimport/NIXMLEdgesHandler.cpp` (SUMO): the importer of
network edges stored in XML.  The handler's methods `addEdge`, `addLane`,
`addSplit`, `setNodes`, `insertNodeChecking`, `tryGetShape`,
`tryGetLaneSpread`, `deleteEdge` and `myEndElement` are translated statement by
statement into functions over an explicit handler state.

Conventions of the embedding:

* `SUMOReal` is the field of rationals: arithmetic is exact, rounding of the
  machine type is not modelled.
* `int` values are `Int`; `unsigned int` values are `Nat`, reduced modulo `2^32`
  at the places where the source converts or subtracts unsigned values.
* Pointers to edges are identifiers resolved through the edge container
  (`EdgeRef.registered`) or, for an edge built by `addEdge` and not yet
  inserted, the edge value itself (`EdgeRef.pending`).
* The collaborators that are not part of the translated file (attribute
  accessors, the node, edge and type containers, `NBEdge`, geometry) are
  modelled by small definitions, each marked as such; pure helper routines of
  which only the signature is known are fields of `Env`.
* Diagnostics written with `WRITE_ERROR`, `WRITE_WARNING` and `WRITE_MESSAGE`
  appear as the outcome value returned by each method.
-/

namespace NIXMLEdgesHandler

/-! ## Basic values -/

abbrev SUMOReal := ℚ

/-- Vehicle-class permission bitset. -/
abbrev SVCPermissions := Nat

/-- Conversion of an `int` to `unsigned int`. -/
def toUnsigned (i : Int) : Nat := (i % 4294967296).toNat

/-- Conversion `(int) x` of a real: truncation towards zero.  The result is not
reduced to 32 bits: for a value outside the range of `int` the conversion of the
source is undefined, and the value here is the exact truncation. -/
def truncToInt (x : SUMOReal) : Int := x.num.tdiv x.den

/-- The source's `fabs`. -/
def fabs (x : SUMOReal) : SUMOReal := if x < 0 then -x else x

/-- The constant `SUMOXML_INVALID_POSITION` of the translated file. -/
def SUMOXML_INVALID_POSITION : SUMOReal := -999999

structure Position where
  x : SUMOReal
  y : SUMOReal
deriving DecidableEq

/-- Modelled from the spec: `PositionVector`, the shape of an edge ("ordered
sequence of 2D points, possibly empty").  Beside the points the model keeps the
two quantities the handler observes through the geometry library: the length
along the polyline and the accumulated lateral shift applied by `move2side`. -/
structure PositionVector where
  pts : List Position
  len : SUMOReal
  side : SUMOReal
deriving DecidableEq

/-- The empty vector `PositionVector()`. -/
def PositionVector.empty : PositionVector := ⟨[], 0, 0⟩

def PositionVector.size (g : PositionVector) : Nat := g.pts.length

def PositionVector.length (g : PositionVector) : SUMOReal := g.len

/-- Modelled from the spec: `PositionVector::move2side`, the lateral shift of a
geometry ("laterally shift that edge's geometry"). -/
def PositionVector.move2side (g : PositionVector) (amount : SUMOReal) : PositionVector :=
  { g with side := g.side + amount }

/-- Modelled from the spec: `PositionVector::splitAt`, the two parts of a
geometry cut at a longitudinal offset; the first has the offset as its length,
the second the remaining length.  `p` is the point of the cut. -/
def PositionVector.splitAt (g : PositionVector) (offset : SUMOReal) (p : Position) :
    PositionVector × PositionVector :=
  (⟨(g.pts.head?.toList) ++ [p], offset, g.side⟩,
   ⟨p :: (g.pts.getLast?.toList), g.len - offset, g.side⟩)

inductive LaneSpreadFunction where
  | LANESPREAD_RIGHT
  | LANESPREAD_CENTER
deriving DecidableEq

/-- Modelled from the spec: the string table `SUMOXMLDefinitions::LaneSpreadFunctions`
("lane-spread mode (enum: right-aligned or center-aligned)"). -/
def LaneSpreadFunctions : List (String × LaneSpreadFunction) :=
  [("right", .LANESPREAD_RIGHT), ("center", .LANESPREAD_CENTER)]

def LaneSpreadFunction.toString : LaneSpreadFunction → String
  | .LANESPREAD_RIGHT => "right"
  | .LANESPREAD_CENTER => "center"

/-- Modelled from the spec: `SUMO_const_laneWidthAndOffset`, the lateral extent
of one lane used when the geometry of a split chain is shifted. -/
def SUMO_const_laneWidthAndOffset : SUMOReal := 33 / 10

/-! ## Attribute records

A record delivers typed, already decoded field values.  A field is absent,
present with a value the typed accessor cannot decode, or present with a
value. -/

inductive Field (α : Type) where
  | absent
  | malformed
  | value (a : α)
deriving DecidableEq

namespace Field

def hasAttribute {α : Type} : Field α → Bool
  | absent => false
  | _ => true

/-- Modelled from the spec: the required typed accessors
(`getStringReporting`, `getIntReporting`, `getSUMORealReporting`): the value
and the success flag; a missing or undecodable field clears the flag and
yields the accessor's failure value `fail`. -/
def getReporting {α : Type} (f : Field α) (fail : α) (ok : Bool) : α × Bool :=
  match f with
  | value a => (a, ok)
  | _ => (fail, false)

/-- Modelled from the spec: the optional typed accessors
(`getOptStringReporting`, `getOptBoolReporting`, `getOptSUMORealReporting`): an
absent field yields the default and leaves the flag alone. -/
def getOptReporting {α : Type} (f : Field α) (fail dflt : α) (ok : Bool) : α × Bool :=
  match f with
  | value a => (a, ok)
  | absent => (dflt, ok)
  | malformed => (fail, false)

/-- The pattern `if (attrs.hasAttribute(A)) { x = attrs.getReporting(A, id, ok); }`
of the handler: the new value of `x` (before: `cur`) and of `ok`. -/
def readIfPresent {α : Type} (f : Field α) (fail cur : α) (ok : Bool) : α × Bool :=
  if f.hasAttribute then f.getReporting fail ok else (cur, ok)

/-- Modelled from the spec: `getStringSecure`, which never fails. -/
def getStringSecure (f : Field String) (dflt : String) : String :=
  match f with
  | value a => a
  | _ => dflt

end Field

/-- The fields of an `edge` element read by `addEdge` and its helpers. -/
structure EdgeAttrs where
  id : Field String
  type : Field String := .absent
  remove : Field Bool := .absent
  speed : Field SUMOReal := .absent
  nolanesDeprecated : Field Int := .absent
  numLanes : Field Int := .absent
  priority : Field Int := .absent
  width : Field SUMOReal := .absent
  endOffset : Field SUMOReal := .absent
  name : Field String := .absent
  allow : Field String := .absent
  disallow : Field String := .absent
  fromNodeDeprecated : Field String := .absent
  toNodeDeprecated : Field String := .absent
  fromNode : Field String := .absent
  toNode : Field String := .absent
  xfrom : Field SUMOReal := .absent
  yfrom : Field SUMOReal := .absent
  xto : Field SUMOReal := .absent
  yto : Field SUMOReal := .absent
  shape : Field String := .absent
  spreadFuncDeprecated : Field String := .absent
  spreadType : Field String := .absent
  length : Field SUMOReal := .absent

/-- The fields of a `lane` element read by `addLane`. -/
structure LaneAttrs where
  idDeprecated : Field Int := .absent
  index : Field Int := .absent
  allow : Field String := .absent
  disallow : Field String := .absent
  prefer : Field String := .absent
  width : Field SUMOReal := .absent
  endOffset : Field SUMOReal := .absent
  speed : Field SUMOReal := .absent

/-- The fields of a `split` element read by `addSplit`. -/
structure SplitAttrs where
  pos : Field SUMOReal
  lanes : Field String := .absent

/-! ## Nodes and the node container -/

structure NBNode where
  id : String
  position : Position
deriving DecidableEq

/-- Modelled from the spec: the node registry `NBNodeCont`, nodes keyed by
identifier. -/
abbrev NBNodeCont := List NBNode

namespace NBNodeCont

/-- Modelled from the spec: `retrieveByName`. -/
def retrieve (nc : NBNodeCont) (name : String) : Option NBNode :=
  nc.find? (fun n => n.id == name)

/-- Modelled from the spec: `retrieveByPosition` ("a node already at that exact
position"). -/
def retrieveAt (nc : NBNodeCont) (pos : Position) : Option NBNode :=
  nc.find? (fun n => decide (n.position = pos))

/-- Modelled from the spec: `insert(node)`; fails when the identifier is
taken ("Edge and Node identifiers are unique within their respective
registries"). -/
def insert (nc : NBNodeCont) (n : NBNode) : NBNodeCont × Bool :=
  match nc.retrieve n.id with
  | some _ => (nc, false)
  | none => (nc ++ [n], true)

/-- Modelled from the spec: `insertPositionForName(name, pos) -> bool`
("register the position under that name (fails ... if the name already maps to
a different position)"). -/
def insertNamed (nc : NBNodeCont) (name : String) (pos : Position) : NBNodeCont × Bool :=
  match nc.retrieve name with
  | some n => (nc, decide (n.position = pos))
  | none => (nc ++ [⟨name, pos⟩], true)

end NBNodeCont

/-! ## Types -/

/-- Modelled from the spec: a type, a "named bundle of defaults". -/
structure TypeDefinition where
  speed : SUMOReal
  priority : Int
  numLanes : Int
  permissions : SVCPermissions
  width : SUMOReal
deriving DecidableEq

/-- Modelled from the spec: the type registry `NBTypeCont`; "the empty-string
identifier yields hard-coded system defaults", as does every unknown name. -/
structure NBTypeCont where
  defaultType : TypeDefinition
  types : List (String × TypeDefinition)

namespace NBTypeCont

def knows (tc : NBTypeCont) (name : String) : Bool :=
  tc.types.any (fun p => p.1 == name)

def getType (tc : NBTypeCont) (name : String) : TypeDefinition :=
  match tc.types.find? (fun p => p.1 == name) with
  | some p => p.2
  | none => tc.defaultType

def getSpeed (tc : NBTypeCont) (name : String) : SUMOReal := (tc.getType name).speed
def getPriority (tc : NBTypeCont) (name : String) : Int := (tc.getType name).priority
def getNumLanes (tc : NBTypeCont) (name : String) : Int := (tc.getType name).numLanes
def getPermissions (tc : NBTypeCont) (name : String) : SVCPermissions :=
  (tc.getType name).permissions
def getWidth (tc : NBTypeCont) (name : String) : SUMOReal := (tc.getType name).width

end NBTypeCont

/-! ## Edges and the edge container -/

/-- Modelled from the spec: the per-lane attributes of an edge ("Lane":
permissions, preferred classes, width, end offset, speed). -/
structure Lane where
  permissions : SVCPermissions
  preferred : SVCPermissions
  width : SUMOReal
  offset : SUMOReal
  speed : SUMOReal
deriving DecidableEq

/-- A lane-to-lane connection `(fromLane, destination edge, toLane)` as passed
to `addLane2LaneConnection`; both lane indices are `unsigned int`. -/
structure Connection where
  fromLane : Nat
  toEdge : String
  toLane : Nat
deriving DecidableEq

/-- Modelled from the spec: `NBEdge`, the attributes of an edge listed in the
data model, the lanes and the lane-to-lane connections to following edges. -/
structure NBEdge where
  id : String
  myFrom : NBNode
  myTo : NBNode
  typeID : String
  speed : SUMOReal
  priority : Int
  width : SUMOReal
  offset : SUMOReal
  streetName : String
  laneSpread : LaneSpreadFunction
  geom : PositionVector
  loadedLength : SUMOReal
  lanes : List Lane
  connections : List Connection
deriving DecidableEq

/-- The arguments handed to the `NBEdge` constructor, respectively to
`NBEdge::reinit`, in the order of the data model.  `shape` is the explicit
geometry (empty for the constructor without geometry), `keepShape` the value of
the option `plain.keep-edge-shape`. -/
structure EdgeArgs where
  id : String
  fromNode : NBNode
  toNode : NBNode
  typeID : String
  speed : SUMOReal
  numLanes : Int
  priority : Int
  width : SUMOReal
  offset : SUMOReal
  shape : PositionVector
  streetName : String
  laneSpread : LaneSpreadFunction
  keepShape : Bool
deriving DecidableEq

/-- Routines of the collaborators of which the translated file shows only the
call.  They are parameters of the embedding. -/
structure Env where
  /-- The two-argument `parseVehicleClasses(allow, disallow)`. -/
  parseVehicleClasses : String → String → SVCPermissions
  /-- The one-argument `parseVehicleClasses(classes)`. -/
  parseVehicleClasses1 : String → SVCPermissions
  /-- The permissions of a newly built lane. -/
  SVCFreeForAll : SVCPermissions
  /-- The method `NBNodeCont::getFreeID`. -/
  getFreeID : NBNodeCont → String
  /-- The method `NILoader::transformCoordinates` on a position. -/
  transformCoordinates : Position → Position
  /-- The shape read from a shape definition: `GeomConvHelper::parseShapeReporting`
  followed by `NILoader::transformCoordinates`. -/
  parseShape : String → PositionVector
  /-- The geometry an `NBEdge` derives from its end nodes, the explicit shape
  and the keep-shape flag. -/
  initGeometry : NBNode → NBNode → PositionVector → Bool → PositionVector
  /-- The method `PositionVector::positionAtLengthPosition`. -/
  positionAtLengthPosition : PositionVector → SUMOReal → Position
  /-- The routine `SUMOSAXAttributes::parseStringVector`. -/
  parseStringVector : String → List String
  /-- The routine `TplConvert<char>::_2int`; `none` stands for the exceptions
  `NumberFormatException` and `EmptyData`. -/
  toInt : String → Option Int

namespace NBEdge

/-- The constant `NBEdge::UNSPECIFIED_OFFSET`. -/
def UNSPECIFIED_OFFSET : SUMOReal := 0

/-- The constant `NBEdge::UNSPECIFIED_LOADED_LENGTH`. -/
def UNSPECIFIED_LOADED_LENGTH : SUMOReal := -1

def getNumLanes (e : NBEdge) : Nat := e.lanes.length

def getGeometry (e : NBEdge) : PositionVector := e.geom

/-- Modelled from the spec: the permission set of the edge as a whole, the
union of the permissions of its lanes. -/
def getPermissions (e : NBEdge) : SVCPermissions :=
  e.lanes.foldl (fun acc l => acc ||| l.permissions) 0

/-- Modelled from the spec: `hasDefaultGeometry`, the geometry is the straight
line between the two end nodes (shape "derive from endpoints"). -/
def hasDefaultGeometry (e : NBEdge) : Bool :=
  decide (e.geom.pts = [e.myFrom.position, e.myTo.position])

/-- Modelled from the spec: `hasLoadedLength` (loaded length "real or
unspecified"). -/
def hasLoadedLength (e : NBEdge) : Bool := decide (0 < e.loadedLength)

/-- A lane as the constructor builds it: it inherits the edge's values. -/
def freshLane (env : Env) (a : EdgeArgs) : Lane :=
  ⟨env.SVCFreeForAll, 0, a.width, a.offset, a.speed⟩

/-- Modelled from the spec: the `NBEdge` constructors; the edge takes the
attributes handed over and gets `numLanes` lanes. -/
def construct (env : Env) (a : EdgeArgs) : NBEdge :=
  { id := a.id, myFrom := a.fromNode, myTo := a.toNode, typeID := a.typeID,
    speed := a.speed, priority := a.priority, width := a.width, offset := a.offset,
    streetName := a.streetName, laneSpread := a.laneSpread,
    geom := env.initGeometry a.fromNode a.toNode a.shape a.keepShape,
    loadedLength := UNSPECIFIED_LOADED_LENGTH,
    lanes := List.replicate (toUnsigned a.numLanes) (freshLane env a),
    connections := [] }

/-- Modelled from the spec: `NBEdge::reinit`; the edge keeps its identifier
and takes the attributes handed over, lanes that persist keep their
lane-specific settings. -/
def reinit (env : Env) (e : NBEdge) (a : EdgeArgs) : NBEdge :=
  { id := e.id, myFrom := a.fromNode, myTo := a.toNode, typeID := a.typeID,
    speed := a.speed, priority := a.priority, width := a.width, offset := a.offset,
    streetName := a.streetName, laneSpread := a.laneSpread,
    geom := env.initGeometry a.fromNode a.toNode a.shape a.keepShape,
    loadedLength := UNSPECIFIED_LOADED_LENGTH,
    lanes := (e.lanes.take (toUnsigned a.numLanes)) ++
      List.replicate (toUnsigned a.numLanes - e.lanes.length) (freshLane env a),
    connections := e.connections }

def setLoadedLength (e : NBEdge) (l : SUMOReal) : NBEdge := { e with loadedLength := l }

def setGeometry (e : NBEdge) (g : PositionVector) : NBEdge := { e with geom := g }

/-- Apply `f` to the lane addressed by the `int` index `lane`.  Modelled from
the spec: the per-lane setters of `NBEdge`; a negative index addresses all
lanes, an index beyond the last lane none. -/
def modifyLane (e : NBEdge) (lane : Int) (f : Lane → Lane) : NBEdge :=
  if lane < 0 then { e with lanes := e.lanes.map f }
  else { e with lanes := e.lanes.modify f lane.toNat }

def setPermissions (e : NBEdge) (p : SVCPermissions) (lane : Int) : NBEdge :=
  e.modifyLane lane (fun l => { l with permissions := p })

def setPreferredVehicleClass (e : NBEdge) (p : SVCPermissions) (lane : Int) : NBEdge :=
  e.modifyLane lane (fun l => { l with preferred := p })

def setWidth (e : NBEdge) (lane : Int) (w : SUMOReal) : NBEdge :=
  e.modifyLane lane (fun l => { l with width := w })

def setOffset (e : NBEdge) (lane : Int) (o : SUMOReal) : NBEdge :=
  e.modifyLane lane (fun l => { l with offset := o })

def setSpeed (e : NBEdge) (lane : Int) (s : SUMOReal) : NBEdge :=
  e.modifyLane lane (fun l => { l with speed := s })

/-- The lane appended by `incLaneNo`: the edge's own values. -/
def defaultLane (env : Env) (e : NBEdge) : Lane :=
  ⟨env.SVCFreeForAll, 0, e.width, e.offset, e.speed⟩

/-- Modelled from the spec: `incLaneNo(by)`, "grow ... lane count in place". -/
def incLaneNo (env : Env) (e : NBEdge) (by_ : Nat) : NBEdge :=
  { e with lanes := e.lanes ++ List.replicate by_ (defaultLane env e) }

/-- Modelled from the spec: `decLaneNo(by)`, "shrink ... lane count in place". -/
def decLaneNo (e : NBEdge) (by_ : Nat) : NBEdge :=
  { e with lanes := e.lanes.take (e.lanes.length - by_) }

/-- Modelled from the spec: `invalidateConnections(true)`, "clear `pe`'s existing
downstream connections". -/
def invalidateConnections (e : NBEdge) : NBEdge := { e with connections := [] }

/-- Modelled from the spec: `addLane2LaneConnection(from, dest, toLane, L2L_VALIDATED,
true)`; the connection is recorded in the order of the calls. -/
def addLane2LaneConnection (e : NBEdge) (fromLane : Nat) (dest : String) (toLane : Nat) :
    NBEdge :=
  { e with connections := e.connections ++ [⟨fromLane, dest, toLane⟩] }

end NBEdge

/-- Modelled from the spec: the edge registry `NBEdgeCont`, edges keyed by
identifier. -/
abbrev NBEdgeCont := List NBEdge

namespace NBEdgeCont

/-- Modelled from the spec: `retrieve(id)`. -/
def retrieve (ec : NBEdgeCont) (id : String) : Option NBEdge :=
  ec.find? (fun e => e.id == id)

/-- Modelled from the spec: `insert(edge) -> bool`; fails on a duplicate
identifier. -/
def insert (ec : NBEdgeCont) (e : NBEdge) : NBEdgeCont × Bool :=
  match ec.retrieve e.id with
  | some _ => (ec, false)
  | none => (ec ++ [e], true)

/-- Modelled from the spec: `erase(edge)` and `extract(edge)`; the edge leaves
the registry. -/
def erase (ec : NBEdgeCont) (id : String) : NBEdgeCont :=
  ec.filter (fun e => e.id != id)

/-- Replace the registered edge `id` by `f` of it (a write through a pointer
to a registered edge). -/
def update (ec : NBEdgeCont) (id : String) (f : NBEdge → NBEdge) : NBEdgeCont :=
  ec.map (fun e => if e.id == id then f e else e)

/-- The outgoing edges of a node, `NBNode::getOutgoingEdges`, read off the
registry. -/
def outgoing (ec : NBEdgeCont) (n : NBNode) : List NBEdge :=
  ec.filter (fun e => e.myFrom.id == n.id)

/-- One half produced by `splitAt`: the attributes of the split edge, a new
identifier, end nodes, geometry and number of lanes. -/
def splitHalf (env : Env) (e : NBEdge) (id : String) (a b : NBNode) (g : PositionVector)
    (noLanes : Nat) : NBEdge :=
  { e with id := id, myFrom := a, myTo := b, geom := g,
           loadedLength := NBEdge.UNSPECIFIED_LOADED_LENGTH,
           lanes := List.replicate noLanes (NBEdge.defaultLane env e),
           connections := [] }

/-- Modelled from the spec: the split primitive `splitAt(edge, offset, node,
predId, succId, laneCountPred, laneCountSucc)`: "splitting removes the original
key and inserts two fresh entries", the predecessor from the edge's start to
`node`, the successor from `node` to the edge's end.  An edge registered before
under one of the two identifiers is replaced, identifiers staying unique. -/
def splitAt (env : Env) (ec : NBEdgeCont) (e : NBEdge) (pos : SUMOReal) (node : NBNode)
    (firstEdgeName secondEdgeName : String) (noLanesFirstEdge noLanesSecondEdge : Nat) :
    NBEdgeCont :=
  let geoms := e.geom.splitAt pos node.position
  let one := splitHalf env e firstEdgeName e.myFrom node geoms.1 noLanesFirstEdge
  let two := splitHalf env e secondEdgeName node e.myTo geoms.2 noLanesSecondEdge
  ((((ec.erase e.id).erase firstEdgeName).erase secondEdgeName) ++ [one]) ++ [two]

end NBEdgeCont

/-! ## The handler state -/

/-- The options the handler reads. -/
structure OptionsCont where
  speedInKmh : Bool
  keepEdgeShape : Bool
  removeEdgesExplicit : List String

/-- The value of the pointer `myCurrentEdge` when it is not null. -/
inductive EdgeRef where
  | registered (id : String)
  | pending (e : NBEdge)
deriving DecidableEq

/-- One staged split (`struct Split` of the handler). -/
structure Split where
  lanes : List Int
  pos : SUMOReal
  nameid : Int
  gpos : Position
deriving DecidableEq

/-- The members of `NIXMLEdgesHandler` that live across calls.  The members
`myCurrentSpeed`, `myCurrentPriority`, ... which `addEdge` initialises before
every use are the fields of `Scratch`. -/
structure Handler where
  myOptions : OptionsCont
  myNodeCont : NBNodeCont
  myEdgeCont : NBEdgeCont
  myTypeCont : NBTypeCont
  myCurrentEdge : Option EdgeRef
  myCurrentID : String
  myIsUpdate : Bool
  mySplits : List Split
  myHaveReportedAboutOverwriting : Bool
  myHaveWarnedAboutDeprecatedSpreadType : Bool
  myHaveWarnedAboutDeprecatedFromTo : Bool
  myHaveWarnedAboutDeprecatedNoLanes : Bool
  myHaveWarnedAboutDeprecatedLaneId : Bool

/-- The state after the constructor of the handler. -/
def Handler.init (o : OptionsCont) (nc : NBNodeCont) (ec : NBEdgeCont) (tc : NBTypeCont) :
    Handler :=
  { myOptions := o, myNodeCont := nc, myEdgeCont := ec, myTypeCont := tc,
    myCurrentEdge := none, myCurrentID := "", myIsUpdate := false, mySplits := [],
    myHaveReportedAboutOverwriting := false,
    myHaveWarnedAboutDeprecatedSpreadType := false,
    myHaveWarnedAboutDeprecatedFromTo := false,
    myHaveWarnedAboutDeprecatedNoLanes := false,
    myHaveWarnedAboutDeprecatedLaneId := false }

/-- The edge `myCurrentEdge` points to.  A pointer to a registered edge that has
left the registry in between (the source would then read a stale object) is
treated like the null pointer. -/
def Handler.currentEdge (h : Handler) : Option NBEdge :=
  match h.myCurrentEdge with
  | none => none
  | some (.pending e) => some e
  | some (.registered id) => h.myEdgeCont.retrieve id

/-- A write through the pointer `myCurrentEdge`. -/
def Handler.modifyCurrent (h : Handler) (f : NBEdge → NBEdge) : Handler :=
  match h.myCurrentEdge with
  | none => h
  | some (.pending e) => { h with myCurrentEdge := some (.pending (f e)) }
  | some (.registered id) => { h with myEdgeCont := h.myEdgeCont.update id f }

/-- The members written by `addEdge` for the edge being read. -/
structure Scratch where
  myCurrentSpeed : SUMOReal
  myCurrentPriority : Int
  myCurrentLaneNo : Int
  myPermissions : SVCPermissions
  myCurrentWidth : SUMOReal
  myCurrentOffset : SUMOReal
  myCurrentType : String
  myShape : PositionVector
  myLanesSpread : LaneSpreadFunction
  myLength : SUMOReal
  myCurrentStreetName : String

/-! ## Resolution of the end nodes -/

/-- The method `NIXMLEdgesHandler::tryGetPosition`: its success flag is local
and dropped. -/
def tryGetPosition (f : Field SUMOReal) : SUMOReal :=
  (f.getOptReporting (-1) SUMOXML_INVALID_POSITION true).1

/-- The method `NIXMLEdgesHandler::insertNodeChecking`: the node container after
the call and the node returned (`none` for the null pointer). -/
def insertNodeChecking (env : Env) (nc : NBNodeCont) (pos : Position) (name : String) :
    NBNodeCont × Option NBNode :=
  if name == "" && (decide (pos.x = SUMOXML_INVALID_POSITION) ||
      decide (pos.y = SUMOXML_INVALID_POSITION)) then
    (nc, none)
  else if name != "" then
    if decide (pos.x ≠ SUMOXML_INVALID_POSITION) && decide (pos.y ≠ SUMOXML_INVALID_POSITION) then
      match nc.insertNamed name pos with
      | (nc1, false) => (nc1, none)
      | (nc1, true) => (nc1, nc1.retrieve name)
    else
      (nc, nc.retrieve name)
  else
    match nc.retrieveAt pos with
    | some n => (nc, some n)
    | none =>
      match nc.insert ⟨env.getFreeID nc, pos⟩ with
      | (nc1, false) => (nc1, none)
      | (nc1, true) => (nc1, some ⟨env.getFreeID nc, pos⟩)

/-- The position of an end node after the coordinate transformation, which
`setNodes` applies only when both coordinates are given. -/
def transformIfGiven (env : Env) (x y : SUMOReal) : Position :=
  if decide (x ≠ SUMOXML_INVALID_POSITION) && decide (y ≠ SUMOXML_INVALID_POSITION) then
    env.transformCoordinates ⟨x, y⟩
  else ⟨x, y⟩

/-- The method `NIXMLEdgesHandler::setNodes`.  Returns the handler (node
container and warning flag updated), the shape member (emptied when an update
changes an end node) and the two nodes, `none` when the method returns
`false`. -/
def setNodes (env : Env) (h : Handler) (myShape : PositionVector) (attrs : EdgeAttrs) :
    Handler × PositionVector × Option (NBNode × NBNode) :=
  let cur := h.currentEdge
  let oldBegID := if h.myIsUpdate then (cur.map (fun e => e.myFrom.id)).getD "" else ""
  let oldEndID := if h.myIsUpdate then (cur.map (fun e => e.myTo.id)).getD "" else ""
  let ok := true
  let (begNodeID, ok) :=
    if attrs.fromNodeDeprecated.hasAttribute then attrs.fromNodeDeprecated.getReporting "" ok
    else (oldBegID, ok)
  let (endNodeID, ok) :=
    if attrs.toNodeDeprecated.hasAttribute then attrs.toNodeDeprecated.getReporting "" ok
    else (oldEndID, ok)
  let warned := h.myHaveWarnedAboutDeprecatedFromTo ||
    attrs.fromNodeDeprecated.hasAttribute || attrs.toNodeDeprecated.hasAttribute
  let (begNodeID, ok) :=
    if attrs.fromNode.hasAttribute then attrs.fromNode.getReporting "" ok else (begNodeID, ok)
  let (endNodeID, ok) :=
    if attrs.toNode.hasAttribute then attrs.toNode.getReporting "" ok else (endNodeID, ok)
  if !ok then
    ({ h with myHaveWarnedAboutDeprecatedFromTo := warned }, myShape, none)
  else
    let begNodeXPos := tryGetPosition attrs.xfrom
    let begNodeYPos := tryGetPosition attrs.yfrom
    let endNodeXPos := tryGetPosition attrs.xto
    let endNodeYPos := tryGetPosition attrs.yto
    let begGiven := decide (begNodeXPos ≠ SUMOXML_INVALID_POSITION) &&
      decide (begNodeYPos ≠ SUMOXML_INVALID_POSITION)
    let endGiven := decide (endNodeXPos ≠ SUMOXML_INVALID_POSITION) &&
      decide (endNodeYPos ≠ SUMOXML_INVALID_POSITION)
    let warned := warned || begGiven || endGiven
    let (nc1, myFromNode) :=
      insertNodeChecking env h.myNodeCont (transformIfGiven env begNodeXPos begNodeYPos) begNodeID
    let (nc2, myToNode) :=
      insertNodeChecking env nc1 (transformIfGiven env endNodeXPos endNodeYPos) endNodeID
    let h1 := { h with myNodeCont := nc2, myHaveWarnedAboutDeprecatedFromTo := warned }
    match myFromNode, myToNode with
    | some f, some t =>
      if h.myIsUpdate && (f.id != oldBegID || t.id != oldEndID) then
        (h1, PositionVector.empty, some (f, t))
      else
        (h1, myShape, some (f, t))
    | _, _ => (h1, myShape, none)

/-- The method `NIXMLEdgesHandler::tryGetShape`. -/
def tryGetShape (env : Env) (myShape : PositionVector) (attrs : EdgeAttrs) : PositionVector :=
  if !attrs.shape.hasAttribute then myShape
  else
    let shpdef := (attrs.shape.getOptReporting "" "" true).1
    if shpdef == "" then PositionVector.empty
    else env.parseShape shpdef

/-- The method `NIXMLEdgesHandler::tryGetLaneSpread`: the spread function and the
flag `myHaveWarnedAboutDeprecatedSpreadType`. -/
def tryGetLaneSpread (myLanesSpread : LaneSpreadFunction) (warned : Bool) (attrs : EdgeAttrs) :
    LaneSpreadFunction × Bool :=
  let result := myLanesSpread
  let lsfS := result.toString
  let (lsfS, warned) :=
    if attrs.spreadFuncDeprecated.hasAttribute then
      ((attrs.spreadFuncDeprecated.getReporting "" true).1, true)
    else
      ((attrs.spreadType.getOptReporting "" lsfS true).1, warned)
  match LaneSpreadFunctions.find? (fun p => p.1 == lsfS) with
  | some p => (p.2, warned)
  | none => (result, warned)

/-! ## `addEdge` -/

/-- How a call of `addEdge` ends. -/
inductive EdgeOutcome where
  /-- The identifier is missing: return after reading it. -/
  | missingId
  /-- The type field cannot be read. -/
  | badType
  /-- "Type ... was not defined." -/
  | unknownType
  /-- The remove flag of an update: the edge is erased. -/
  | removed
  /-- The method `setNodes` failed. -/
  | nodesFailed
  /-- A field could not be read: return before the edge is built. -/
  | notOk
  /-- The registered edge is re-initialised with these arguments. -/
  | reinit (a : EdgeArgs)
  /-- A new edge is built with these arguments. -/
  | constructed (a : EdgeArgs)
deriving DecidableEq

/-- The default values `addEdge` starts from (the values of the empty type). -/
def Scratch.defaults (tc : NBTypeCont) : Scratch :=
  { myCurrentSpeed := tc.getSpeed "",
    myCurrentPriority := tc.getPriority "",
    myCurrentLaneNo := tc.getNumLanes "",
    myPermissions := tc.getPermissions "",
    myCurrentWidth := tc.getWidth "",
    myCurrentOffset := NBEdge.UNSPECIFIED_OFFSET,
    myCurrentType := "",
    myShape := PositionVector.empty,
    myLanesSpread := .LANESPREAD_RIGHT,
    myLength := NBEdge.UNSPECIFIED_LOADED_LENGTH,
    myCurrentStreetName := "" }

/-- The values of a known type overwrite the defaults. -/
def Scratch.useType (s : Scratch) (tc : NBTypeCont) (type : String) : Scratch :=
  { s with myCurrentType := type,
           myCurrentSpeed := tc.getSpeed type,
           myCurrentPriority := tc.getPriority type,
           myCurrentLaneNo := tc.getNumLanes type,
           myPermissions := tc.getPermissions type,
           myCurrentWidth := tc.getWidth type }

/-- The values of the registered edge overwrite what was set so far ("use
values from the edge to overwrite if existing"). -/
def Scratch.usePrior (s : Scratch) (e : NBEdge) : Scratch :=
  { s with myCurrentSpeed := e.speed,
           myCurrentPriority := e.priority,
           myCurrentLaneNo := (e.getNumLanes : Int),
           myCurrentType := e.typeID,
           myPermissions := e.getPermissions,
           myShape := if !e.hasDefaultGeometry then e.getGeometry else s.myShape,
           myCurrentWidth := e.width,
           myCurrentOffset := e.offset,
           myLanesSpread := e.laneSpread,
           myLength := if e.hasLoadedLength then e.loadedLength else s.myLength,
           myCurrentStreetName := e.streetName }

/-- The part of `addEdge` that reads speed, number of lanes, priority, width,
end offset, street name and the allowed and disallowed classes from the
record.  Returns the members, the flag `ok` and the flag
`myHaveWarnedAboutDeprecatedNoLanes`. -/
def readFields (env : Env) (o : OptionsCont) (attrs : EdgeAttrs) (s : Scratch) (ok : Bool)
    (warnedNoLanes : Bool) : Scratch × Bool × Bool :=
  -- each of `speed`, `laneNoD`, ... is the pair of the value read and the flag `ok`
  let speed := attrs.speed.readIfPresent (-1) s.myCurrentSpeed ok
  let speedValue := if o.speedInKmh then speed.1 / (36 / 10) else speed.1
  -- try to get the number of lanes
  let laneNoD := attrs.nolanesDeprecated.readIfPresent (-1) s.myCurrentLaneNo speed.2
  let warnedNoLanes := warnedNoLanes || attrs.nolanesDeprecated.hasAttribute
  let laneNo := attrs.numLanes.readIfPresent (-1) laneNoD.1 laneNoD.2
  -- try to get the priority
  let priority := attrs.priority.readIfPresent (-1) s.myCurrentPriority laneNo.2
  -- try to get the width
  let width := attrs.width.readIfPresent (-1) s.myCurrentWidth priority.2
  let offset := attrs.endOffset.readIfPresent (-1) s.myCurrentOffset width.2
  -- try to get the street name
  let streetName := attrs.name.getOptReporting "" s.myCurrentStreetName offset.2
  -- try to get the allowed/disallowed classes
  let permissions :=
    if attrs.allow.hasAttribute || attrs.disallow.hasAttribute then
      let allowS := if attrs.allow.hasAttribute then attrs.allow.getStringSecure "" else ""
      let disallowS :=
        if attrs.disallow.hasAttribute then attrs.disallow.getStringSecure "" else ""
      env.parseVehicleClasses allowS disallowS
    else s.myPermissions
  ({ s with myCurrentSpeed := speedValue, myCurrentLaneNo := laneNo.1,
            myCurrentPriority := priority.1, myCurrentWidth := width.1,
            myCurrentOffset := offset.1, myCurrentStreetName := streetName.1,
            myPermissions := permissions },
   streetName.2, warnedNoLanes)

/-- The arguments of the constructor or of `reinit` built from the members. -/
def Scratch.toArgs (s : Scratch) (id : String) (f t : NBNode) (keepShape : Bool) : EdgeArgs :=
  { id := id, fromNode := f, toNode := t, typeID := s.myCurrentType,
    speed := s.myCurrentSpeed, numLanes := s.myCurrentLaneNo,
    priority := s.myCurrentPriority, width := s.myCurrentWidth,
    offset := s.myCurrentOffset, shape := s.myShape,
    streetName := s.myCurrentStreetName, laneSpread := s.myLanesSpread,
    keepShape := keepShape }

/-- The second half of `addEdge`, from the reading of the record's fields to
the construction or re-initialisation of the edge.  `s` holds the values set
from the defaults, the type and the registered edge. -/
def finishEdge (env : Env) (h : Handler) (attrs : EdgeAttrs) (s : Scratch) (ok : Bool) :
    Handler × EdgeOutcome :=
  let (s, ok, warnedNoLanes) :=
    readFields env h.myOptions attrs s ok h.myHaveWarnedAboutDeprecatedNoLanes
  let h := { h with myHaveWarnedAboutDeprecatedNoLanes := warnedNoLanes }
  match setNodes env h s.myShape attrs with
  | (h, _, none) => (h, .nodesFailed)
  | (h, shape, some (f, t)) =>
    let s := { s with myShape := shape }
    let s := { s with myShape := tryGetShape env s.myShape attrs }
    let (spread, warnedSpread) :=
      tryGetLaneSpread s.myLanesSpread h.myHaveWarnedAboutDeprecatedSpreadType attrs
    let s := { s with myLanesSpread := spread }
    let h := { h with myHaveWarnedAboutDeprecatedSpreadType := warnedSpread }
    let (len, ok) := attrs.length.getOptReporting (-1) s.myLength ok
    let s := { s with myLength := len }
    if !ok then (h, .notOk)
    else
      match h.myCurrentEdge with
      | some _ =>
        let a := s.toArgs h.myCurrentID f t h.myOptions.keepEdgeShape
        let h := h.modifyCurrent (fun e => NBEdge.reinit env e a)
        let h := h.modifyCurrent (fun e => e.setLoadedLength s.myLength)
        let h := h.modifyCurrent (fun e => e.setPermissions s.myPermissions (-1))
        (h, .reinit a)
      | none =>
        let a := s.toArgs h.myCurrentID f t
          (if s.myShape.size == 0 then false else h.myOptions.keepEdgeShape)
        let h := { h with myCurrentEdge := some (.pending (NBEdge.construct env a)) }
        let h := h.modifyCurrent (fun e => e.setLoadedLength s.myLength)
        let h := h.modifyCurrent (fun e => e.setPermissions s.myPermissions (-1))
        (h, .constructed a)

/-- The part of `addEdge` after the type has been checked: the update of a
registered edge (`prior`) or the creation of a new one.  `s` holds the defaults,
overwritten by the values of the type when the record names one. -/
def updateOrCreate (env : Env) (h : Handler) (attrs : EdgeAttrs) (prior : Option NBEdge)
    (s : Scratch) (ok : Bool) : Handler × EdgeOutcome :=
  match prior with
  | some e =>
    let h := { h with myIsUpdate := true, myHaveReportedAboutOverwriting := true }
    let (remove, ok) := attrs.remove.getOptReporting false false ok
    if remove then
      ({ h with myEdgeCont := h.myEdgeCont.erase e.id, myCurrentEdge := none }, .removed)
    else
      finishEdge env h attrs (s.usePrior e) ok
  | none => finishEdge env h attrs s ok

/-- The method `NIXMLEdgesHandler::addEdge`. -/
def addEdge (env : Env) (h : Handler) (attrs : EdgeAttrs) : Handler × EdgeOutcome :=
  let h := { h with myIsUpdate := false, myCurrentEdge := none, mySplits := [] }
  let (id, ok) := attrs.id.getReporting "" true
  let h := { h with myCurrentID := id }
  if !ok then (h, .missingId)
  else
    let prior := h.myEdgeCont.retrieve id
    let h := { h with myCurrentEdge := prior.map (fun _ => EdgeRef.registered id) }
    let s := Scratch.defaults h.myTypeCont
    if attrs.type.hasAttribute then
      let (type, ok) := attrs.type.getReporting "" ok
      if !ok then (h, .badType)
      else if !h.myTypeCont.knows type then (h, .unknownType)
      else updateOrCreate env h attrs prior (s.useType h.myTypeCont type) ok
    else updateOrCreate env h attrs prior s ok

/-! ## `addLane` -/

/-- How a call of `addLane` ends. -/
inductive LaneOutcome where
  /-- No current edge: "the edge ... is not known". -/
  | noEdge
  /-- The index or a class list could not be read. -/
  | notOk
  /-- "Lane index is larger than number of lanes". -/
  | indexTooLarge
  /-- The overrides were written to the lane with this index. -/
  | applied (lane : Int)
deriving DecidableEq

/-- The method `NIXMLEdgesHandler::addLane`. -/
def addLane (env : Env) (h : Handler) (attrs : LaneAttrs) : Handler × LaneOutcome :=
  match h.currentEdge with
  | none => (h, .noEdge)
  | some e =>
    let ok := true
    let (lane, ok) :=
      if attrs.idDeprecated.hasAttribute then attrs.idDeprecated.getReporting (-1) ok
      else attrs.index.getReporting (-1) ok
    let h := { h with myHaveWarnedAboutDeprecatedLaneId :=
      h.myHaveWarnedAboutDeprecatedLaneId || attrs.idDeprecated.hasAttribute }
    let (allowed, ok) := attrs.allow.getOptReporting "" "" ok
    let (disallowed, ok) := attrs.disallow.getOptReporting "" "" ok
    let (preferred, ok) := attrs.prefer.getOptReporting "" "" ok
    if !ok then (h, .notOk)
    -- check whether this lane exists
    else if lane ≥ (e.getNumLanes : Int) then (h, .indexTooLarge)
    else
      let h := h.modifyCurrent
        (fun e => e.setPermissions (env.parseVehicleClasses allowed disallowed) lane)
      let h := h.modifyCurrent
        (fun e => e.setPreferredVehicleClass (env.parseVehicleClasses1 preferred) lane)
      let h := if attrs.width.hasAttribute then
          h.modifyCurrent (fun e => e.setWidth lane (attrs.width.getReporting (-1) ok).1)
        else h
      let h := if attrs.endOffset.hasAttribute then
          h.modifyCurrent (fun e => e.setOffset lane (attrs.endOffset.getReporting (-1) ok).1)
        else h
      let h := if attrs.speed.hasAttribute then
          h.modifyCurrent (fun e => e.setSpeed lane (attrs.speed.getReporting (-1) ok).1)
        else h
      (h, .applied lane)

/-! ## `addSplit` -/

/-- How a call of `addSplit` ends. -/
inductive SplitOutcome where
  /-- "Ignoring 'split' because it cannot be assigned to an edge". -/
  | noEdge
  /-- The position could not be read. -/
  | notOk
  /-- "Edge ... has a split at invalid position". -/
  | invalidPosition
  /-- "Edge ... has already a split at position". -/
  | duplicate
  /-- The split was staged. -/
  | added
deriving DecidableEq

/-- Modelled from the spec: the predicate `split_by_pos_finder` of the
handler's header ("equality, not tolerance-based"). -/
def split_by_pos_finder (pos : SUMOReal) (e : Split) : Bool := decide (e.pos = pos)

/-- The lane indices of a split read from the `lanes` field: the entries that
`_2int` converts; when none is left, all lanes of the edge. -/
def splitLanes (env : Env) (e : NBEdge) (lanesAttr : Field String) : List Int :=
  let lanes := (env.parseStringVector (lanesAttr.getOptReporting "" "" true).1).filterMap env.toInt
  if lanes.isEmpty then (List.range e.getNumLanes).map Int.ofNat else lanes

/-- The method `NIXMLEdgesHandler::addSplit`.  The second test of
`myCurrentEdge == 0` inside the method cannot succeed after the first and is
left out. -/
def addSplit (env : Env) (h : Handler) (attrs : SplitAttrs) : Handler × SplitOutcome :=
  match h.currentEdge with
  | none => (h, .noEdge)
  | some e =>
    let (pos, ok) := attrs.pos.getReporting (-1) true
    if ok then
      if fabs pos > e.getGeometry.length then (h, .invalidPosition)
      else if h.mySplits.any (split_by_pos_finder pos) then (h, .duplicate)
      else
        let nameid := truncToInt pos
        let pos := if pos < 0 then pos + e.getGeometry.length else pos
        let lanes := splitLanes env e attrs.lanes
        ({ h with mySplits := h.mySplits ++ [⟨lanes, pos, nameid, ⟨0, 0⟩⟩] }, .added)
    else (h, .notOk)

/-! ## `deleteEdge` -/

/-- The method `NIXMLEdgesHandler::deleteEdge`; the flag tells whether an edge
was extracted. -/
def deleteEdge (h : Handler) (id : Field String) : Handler × Bool :=
  let (id, ok) := id.getReporting "" true
  let h := { h with myCurrentID := id }
  if !ok then (h, false)
  else
    match h.myEdgeCont.retrieve id with
    | none => (h, false)
    | some e => ({ h with myEdgeCont := h.myEdgeCont.erase e.id }, true)

/-! ## `myEndElement`: the splits of a closed edge -/

/-- Conversion of an `unsigned int` to `int`. -/
def toSigned (n : Nat) : Int := if n < 2147483648 then (n : Int) else (n : Int) - 4294967296

/-- Subtraction of `unsigned int` values. -/
def usub (a b : Nat) : Nat := (a + 4294967296 - b % 4294967296) % 4294967296

/-- Modelled from the spec: the comparison `split_sorter` of the handler's
header ("sort splits ascending by position (stable)"). -/
def sortSplits (l : List Split) : List Split :=
  l.insertionSort (fun a b => a.pos ≤ b.pos)

/-- The first loop over the sorted splits: the geometric point of each split
is computed and its lanes are sorted. -/
def prepareSplit (env : Env) (e : NBEdge) (sp : Split) : Split :=
  { sp with gpos := env.positionAtLengthPosition e.getGeometry sp.pos,
            lanes := sp.lanes.insertionSort (fun a b => a ≤ b) }

/-- The value of `noLanesMax` after the first loop. -/
def noLanesMaxOf (e : NBEdge) (splits : List Split) : Nat :=
  splits.foldl (fun m sp => max m (sp.lanes.length % 4294967296)) e.getNumLanes

/-- An invocation of the split primitive `myEdgeCont.splitAt`. -/
structure SplitAtCall where
  edge : String
  pos : SUMOReal
  node : NBNode
  firstEdgeName : String
  secondEdgeName : String
  noLanesFirstEdge : Nat
  noLanesSecondEdge : Nat
deriving DecidableEq

/-- What the split loop does with one split. -/
inductive SplitStep where
  /-- The edge was split; the connections added afterwards. -/
  | applied (call : SplitAtCall) (connections : List Connection)
  /-- The boundary node could not be inserted: "Error on parsing a split". -/
  | nodeInsertFailed
  /-- A split at position 0: the number of lanes was changed in place. -/
  | resized
  /-- "Split ... lies beyond the edge's length". -/
  | beyond
  /-- The pointer `e` does not address a registered edge. -/
  | noEdge
deriving DecidableEq

/-- The variables of the split loop: the two containers, the pointer `e`, the
vector `currLanes` and `seen`. -/
structure SplitState where
  nodeCont : NBNodeCont
  edgeCont : NBEdgeCont
  e : String
  currLanes : List Int
  seen : SUMOReal

/-- The block "reconnect lanes": the connections the predecessor receives
after `invalidateConnections`, in the order of the calls of
`addLane2LaneConnection`.  `ne` is the identifier of the successor. -/
def reconnect (pe : NBEdge) (ne : String) (currLanes newLanes : List Int) (noLanesMax : Nat) :
    NBEdge :=
  let pe := pe.invalidateConnections
  -- new on right
  let rightMostP := toUnsigned (currLanes.headD 0)
  let rightMostN := toUnsigned (newLanes.headD 0)
  let pe := (List.range (toSigned rightMostP - toSigned rightMostN).toNat).foldl
    (fun pe l => pe.addLane2LaneConnection 0 ne l) pe
  -- new on left
  let leftMostP := toUnsigned (currLanes.getLastD 0)
  let leftMostN := toUnsigned (newLanes.getLastD 0)
  let pe := (List.range (toSigned leftMostN - toSigned leftMostP).toNat).foldl
    (fun pe l => pe.addLane2LaneConnection (usub pe.getNumLanes 1) ne
      (usub (usub leftMostN l) rightMostN)) pe
  -- all other connected
  (List.range noLanesMax).foldl
    (fun pe l =>
      if !(currLanes.any (fun c => toUnsigned c == l)) then pe
      else if !(newLanes.any (fun c => toUnsigned c == l)) then pe
      else pe.addLane2LaneConnection (usub l rightMostP) ne (usub l rightMostN)) pe

/-- One iteration of the loop "split the edge" of `myEndElement` for the split
`exp`. -/
def splitStep (env : Env) (myCurrentID edgeid : String) (noLanesMax : Nat) (st : SplitState)
    (exp : Split) : SplitState × SplitStep :=
  match st.edgeCont.retrieve st.e with
  | none => (st, .noEdge)
  | some e =>
    if exp.pos > 0 ∧ e.getGeometry.length + st.seen > exp.pos ∧ exp.pos > st.seen then
      let rn : NBNode := ⟨edgeid ++ "." ++ toString exp.nameid, exp.gpos⟩
      match st.nodeCont.insert rn with
      | (nc, true) =>
        -- split the edge
        let nid := myCurrentID ++ "." ++ toString exp.nameid
        let pid := e.id
        let call : SplitAtCall :=
          ⟨e.id, exp.pos - st.seen, rn, pid, nid, e.getNumLanes, exp.lanes.length % 4294967296⟩
        let ec := NBEdgeCont.splitAt env st.edgeCont e call.pos rn pid nid
          call.noLanesFirstEdge call.noLanesSecondEdge
        let newLanes := exp.lanes
        -- reconnect lanes
        let ec := ec.update pid (fun pe => reconnect pe nid st.currLanes newLanes noLanesMax)
        let conns := ((ec.retrieve pid).map (fun pe => pe.connections)).getD []
        -- move to next
        ({ nodeCont := nc, edgeCont := ec, e := nid, currLanes := newLanes, seen := exp.pos },
         .applied call conns)
      | (_, false) => (st, .nodeInsertFailed)
    else if exp.pos = 0 then
      let ec :=
        if e.getNumLanes < exp.lanes.length then
          st.edgeCont.update e.id (fun e => e.incLaneNo env (exp.lanes.length - e.getNumLanes))
        else
          st.edgeCont.update e.id (fun e => e.decLaneNo (e.getNumLanes - exp.lanes.length))
      ({ st with edgeCont := ec, currLanes := exp.lanes }, .resized)
    else (st, .beyond)

/-- The loop "split the edge": the state after all splits and what was done
with each. -/
def splitLoop (env : Env) (myCurrentID edgeid : String) (noLanesMax : Nat) :
    SplitState → List Split → SplitState × List SplitStep
  | st, [] => (st, [])
  | st, exp :: rest =>
    let (st1, r) := splitStep env myCurrentID edgeid noLanesMax st exp
    let (st2, rs) := splitLoop env myCurrentID edgeid noLanesMax st1 rest
    (st2, r :: rs)

/-- The first outgoing edge of the end node of the edge `e` points to:
`e->getToNode()->getOutgoingEdges()[0]`, `none` when the vector is empty. -/
def nextEdge (ec : NBEdgeCont) (e : String) : Option String :=
  match ec.retrieve e with
  | none => none
  | some ed => (ec.outgoing ed.myTo).head?.map (fun o => o.id)

/-- One iteration of the loop "patch lane offsets" for the split `sp`; `e` is
`none` once the source has indexed an empty vector of outgoing edges. -/
def patchStep (noLanesMax : Nat) (st : NBEdgeCont × Option String) (sp : Split) :
    NBEdgeCont × Option String :=
  match st.2 with
  | none => st
  | some e =>
    let maxLeft := toUnsigned (sp.lanes.getLastD 0)
    let ec :=
      if maxLeft < noLanesMax then
        st.1.update e (fun ed => ed.setGeometry
          (ed.getGeometry.move2side (SUMO_const_laneWidthAndOffset * ((noLanesMax - 1 - maxLeft : Nat) : SUMOReal))))
      else st.1
    match nextEdge ec e with
    | some n => (ec, some n)
    | none => (ec, some e)

/-- The block "patch lane offsets" of `myEndElement`. -/
def patchLaneOffsets (ec : NBEdgeCont) (edgeid : String) (splits : List Split)
    (noLanesMax : Nat) : NBEdgeCont :=
  let e : Option String := (ec.retrieve edgeid).map (fun ed => ed.id)
  let e : Option String :=
    match splits.head? with
    | some sp => if sp.pos ≠ 0 then e.bind (nextEdge ec) else e
    | none => e
  (splits.foldl (patchStep noLanesMax) (ec, e)).1

/-- The block of `myEndElement` guarded by `mySplits.size() != 0`, for the
registered edge `e0` the pointer `myCurrentEdge` addresses.  Returns the
handler and what the split loop did with each split, in ascending order of
position. -/
def applySplits (env : Env) (h : Handler) (e0 : NBEdge) : Handler × List SplitStep :=
  let sorted := (sortSplits h.mySplits).map (prepareSplit env e0)
  let noLanesMax := noLanesMaxOf e0 sorted
  -- split the edge
  let currLanes := (List.range e0.getNumLanes).map Int.ofNat
  let edgeid := e0.id
  let st0 : SplitState :=
    { nodeCont := h.myNodeCont, edgeCont := h.myEdgeCont, e := e0.id,
      currLanes := currLanes, seen := 0 }
  let (st, steps) := splitLoop env h.myCurrentID edgeid noLanesMax st0 sorted
  -- patch lane offsets
  let ec := patchLaneOffsets st.edgeCont edgeid sorted noLanesMax
  ({ h with myNodeCont := st.nodeCont, myEdgeCont := ec, mySplits := sorted }, steps)

/-- The insertion of a new edge when its element closes (`!myIsUpdate`): on
success the pointer addresses the registered edge.  When the pointer already
addresses a registered edge although `myIsUpdate` is false (an `addEdge` that
returned at its type check leaves it so), the source's insertion fails as a
duplicate and the source deletes the object the registry still holds; the model
leaves the registry as it is. -/
def insertCurrent (h : Handler) : Handler :=
  if !h.myIsUpdate then
    match h.myCurrentEdge with
    | some (.pending e) =>
      match h.myEdgeCont.insert e with
      | (ec, true) => { h with myEdgeCont := ec, myCurrentEdge := some (.registered e.id) }
      | (_, false) => h
    | _ => h
  else h

/-- The method `NIXMLEdgesHandler::myEndElement` for the element `edge`.  A
current edge that is not registered after the insertion (the insertion failed,
or the edge was extracted in between) is left alone: the source then works on
an object the registry does not hold. -/
def myEndElement (env : Env) (h : Handler) : Handler × List SplitStep :=
  match h.myCurrentEdge with
  | none => (h, [])
  | some _ =>
    let h := insertCurrent h
    if h.mySplits.length ≠ 0 then
      match h.myCurrentEdge with
      | some (.registered id) =>
        match h.myEdgeCont.retrieve id with
        | some e0 => applySplits env h e0
        | none => (h, [])
      | _ => (h, [])
    else (h, [])

/-! ## A concrete world for evaluation -/

namespace Sample

/-- Tokens of a character list separated by blanks. -/
def tokens : List Char → List Char → List String
  | [], [] => []
  | [], acc => [String.mk acc.reverse]
  | c :: cs, acc =>
    if c = ' ' then
      (if acc.isEmpty then [] else [String.mk acc.reverse]) ++ tokens cs []
    else tokens cs (c :: acc)

/-- A decimal numeral without sign. -/
def digits : List Char → Option Nat
  | [] => none
  | cs => cs.foldl (fun r c => r.bind (fun n => if c.isDigit then some (10 * n + (c.toNat - 48)) else none)) (some 0)

def toInt (s : String) : Option Int :=
  match s.data with
  | '-' :: cs => (digits cs).map (fun n => - (n : Int))
  | cs => (digits cs).map (fun n => (n : Int))

/-- A stand-in for the environment: classes are encoded by the lengths of the
two lists, coordinates are not transformed, edges are straight and measured
along the axes. -/
def env : Env :=
  { parseVehicleClasses := fun a d => 1000 + 100 * a.length + d.length,
    parseVehicleClasses1 := fun a => 2000 + a.length,
    SVCFreeForAll := 1023,
    getFreeID := fun nc => "SUMOGenerated" ++ toString nc.length,
    transformCoordinates := fun p => p,
    parseShape := fun _ => ⟨[⟨0, 0⟩, ⟨50, 50⟩, ⟨100, 0⟩], 200, 0⟩,
    initGeometry := fun f t shape _ =>
      if shape.pts.isEmpty then
        ⟨[f.position, t.position], fabs (t.position.x - f.position.x) + fabs (t.position.y - f.position.y), 0⟩
      else shape,
    positionAtLengthPosition := fun g p => ⟨(g.pts.headD ⟨0, 0⟩).x + p, (g.pts.headD ⟨0, 0⟩).y⟩,
    parseStringVector := fun s => tokens s.data [],
    toInt := toInt }

def options : OptionsCont := ⟨false, false, []⟩

def optionsKmh : OptionsCont := ⟨true, false, []⟩

def n1 : NBNode := ⟨"n1", ⟨0, 0⟩⟩
def n2 : NBNode := ⟨"n2", ⟨100, 0⟩⟩
def n3 : NBNode := ⟨"n3", ⟨200, 0⟩⟩

def nodes : NBNodeCont := [n1, n2, n3]

def types : NBTypeCont :=
  { defaultType := ⟨139 / 10, -1, 1, 1023, -1⟩,
    types := [("highway", ⟨40, 5, 3, 7, 35 / 10⟩)] }

/-- The edge `A` from `n1` to `n2`: two lanes, speed 10, length 100. -/
def edgeA : NBEdge :=
  (NBEdge.construct env
    { id := "A", fromNode := n1, toNode := n2, typeID := "", speed := 10, numLanes := 2,
      priority := 3, width := 3, offset := 1, shape := PositionVector.empty,
      streetName := "Main", laneSpread := .LANESPREAD_RIGHT, keepShape := false })

/-- The edge `B` from `n2` to `n3`: one lane. -/
def edgeB : NBEdge :=
  (NBEdge.construct env
    { id := "B", fromNode := n2, toNode := n3, typeID := "", speed := 10, numLanes := 1,
      priority := 3, width := 3, offset := 0, shape := PositionVector.empty,
      streetName := "", laneSpread := .LANESPREAD_RIGHT, keepShape := false })

/-- A handler whose registry holds the edges `A` and `B`. -/
def handler : Handler := Handler.init options nodes [edgeA, edgeB] types

/-- The same with the option `speed-in-kmh` set. -/
def handlerKmh : Handler := Handler.init optionsKmh nodes [edgeA, edgeB] types

end Sample

/-! ## The resolution order of the specification -/

namespace Spec

/-- The resolution order in the words of the specification, for one attribute:
the record's field if present; otherwise the prior edge's value on an update;
otherwise the default of the named type; otherwise the system default.  A
field that is present but cannot be decoded yields no value: the record does
not complete. -/
def resolve {α : Type} (field : Field α) (prior type : Option α) (dflt : α) : Option α :=
  match field, prior, type with
  | .value v, _, _ => some v
  | .malformed, _, _ => none
  | .absent, some p, _ => some p
  | .absent, none, some t => some t
  | .absent, none, none => some dflt

/-- The type a record names, when the type registry knows it. -/
def namedType (tc : NBTypeCont) (attrs : EdgeAttrs) : Option String :=
  match attrs.type with
  | .value t => if tc.knows t then some t else none
  | _ => none

/-- The lane-count field of a record: `numLanes`, or its deprecated alias when
`numLanes` is absent. -/
def laneCountField (attrs : EdgeAttrs) : Field Int :=
  if attrs.numLanes.hasAttribute then attrs.numLanes else attrs.nolanesDeprecated

end Spec

/-- A field is not present with an undecodable value. -/
def Field.wellFormed {α : Type} : Field α → Bool
  | .malformed => false
  | _ => true

/-- A field read on top of a value `d` set before. -/
def Field.readOver {α : Type} (f : Field α) (d : α) : Option α :=
  match f with
  | .value v => some v
  | .malformed => none
  | .absent => some d

namespace Sample

/-- A record for a new edge `C` of the type `highway` with an explicit speed. -/
def recordC : EdgeAttrs :=
  { id := .value "C", type := .value "highway", speed := .value 20,
    fromNode := .value "n1", toNode := .value "n3" }

/-- The arguments `addEdge` hands to the constructor for `recordC`. -/
def argsC : EdgeArgs :=
  { id := "C", fromNode := n1, toNode := n3, typeID := "highway", speed := 20, numLanes := 3,
    priority := 5, width := 35 / 10, offset := 0, shape := PositionVector.empty,
    streetName := "", laneSpread := .LANESPREAD_RIGHT, keepShape := false }

/-- A record that re-declares the edge `A` and changes only its width. -/
def recordWidthA : EdgeAttrs := { id := .value "A", width := .value 5 }

/-- A record that removes the edge `A` and names a type nobody defined. -/
def recordRemoveUnknownType : EdgeAttrs :=
  { id := .value "A", remove := .value true, type := .value "nope" }

/-- A record that removes the edge `A`, with other fields present. -/
def recordRemoveA : EdgeAttrs :=
  { id := .value "A", remove := .value true, type := .value "highway", speed := .malformed,
    fromNode := .value "nowhere" }

end Sample

namespace Sample

/-- The handler after the element `<edge id="A">` was opened: the registered
edge `A` (two lanes, length 100) is the current edge. -/
def openA : Handler := (addEdge env handler { id := .value "A" }).1

/-- The staged positions after the split records `ps` were read in order. -/
def stagedPositions (h : Handler) (ps : List SUMOReal) : List SUMOReal :=
  (ps.foldl (fun h p => (addSplit env h { pos := .value p }).1) h).mySplits.map (fun s => s.pos)

end Sample

namespace Sample

/-- The open edge `A` with one split staged at its very end (position 100 on
length 100) that keeps lane 0 only. -/
def openAWithEndSplit : Handler :=
  (addSplit env openA { pos := .value 100, lanes := .value "0" }).1

end Sample

namespace Spec

/-- The index field of a lane record: the deprecated `id` when present, else
`index`. -/
def laneIndexField (attrs : LaneAttrs) : Field Int :=
  if attrs.idDeprecated.hasAttribute then attrs.idDeprecated else attrs.index

end Spec

namespace Sample

/-- The state of the split loop at its start for the registered edges `A` and
`B`, the pointer `e` at `A`. -/
def loopStart : SplitState :=
  { nodeCont := nodes, edgeCont := [edgeA, edgeB], e := "A", currLanes := [0, 1], seen := 0 }

end Sample

namespace Sample

/-- The open edge `A` with two splits, at 30 and at 70, that both keep the
single lane index 5. -/
def openAWithLane5Splits : Handler :=
  (addSplit env (addSplit env openA { pos := .value 30, lanes := .value "5" }).1
    { pos := .value 70, lanes := .value "5" }).1

/-- The open edge `A` with two splits declared in the order 70, 30, keeping all
lanes. -/
def openAWithSplits : Handler :=
  (addSplit env (addSplit env openA { pos := .value 70 }).1 { pos := .value 30 }).1

/-- The state of the split loop before the second split of `openAWithSplits`. -/
def loopAfterFirst : SplitState :=
  (splitLoop env "A" "A" 2 loopStart
    [⟨[0, 1], 30, 30, ⟨30, 0⟩⟩]).1

end Sample

namespace Spec

/-- The identifier given to the boundary node and to the successor edge of a
split of the edge `I`: `I.tag`. -/
def splitId (I : String) (sp : Split) : String := I ++ "." ++ toString sp.nameid

/-- The invocations of the split primitive expected for the ascending splits
`sps`, the edge `cur` being current and `seen` consumed: the edge split, the
offset and the identifier of the successor. -/
def expectedCalls (I : String) : String → SUMOReal → List Split → List (String × SUMOReal × String)
  | _, _, [] => []
  | cur, seen, sp :: rest =>
    (cur, sp.pos - seen, splitId I sp) :: expectedCalls I (splitId I sp) sp.pos rest

/-- The chain expected for the ascending splits `sps` of an edge of length `L`
ending at the node `toId`: identifier, length, start node and end node of each
edge, beginning with the current edge `cur` that starts at `fromId`. -/
def expectedChain (I : String) (L : SUMOReal) (toId : String) :
    String → SUMOReal → String → List Split → List (String × SUMOReal × String × String)
  | cur, seen, fromId, [] => [(cur, L - seen, fromId, toId)]
  | cur, seen, fromId, sp :: rest =>
    (cur, sp.pos - seen, fromId, splitId I sp) ::
      expectedChain I L toId (splitId I sp) sp.pos (splitId I sp) rest

/-- The identifiers of the chain: the edge itself and one successor per split. -/
def chainIds (I : String) (sps : List Split) : List String := I :: sps.map (splitId I)

end Spec

/-- Identifier, geometric length, start node and end node of an edge. -/
def NBEdge.summary (e : NBEdge) : String × SUMOReal × String × String :=
  (e.id, e.getGeometry.length, e.myFrom.id, e.myTo.id)

/-- The invocation of the split primitive recorded in a step: the edge split,
the offset and the identifier of the successor. -/
def SplitStep.call? : SplitStep → Option (String × SUMOReal × String)
  | .applied c _ => some (c.edge, c.pos, c.secondEdgeName)
  | _ => none

namespace Spec

/-- The identifiers the split loop replaces: none without a split, else those
of the chain that starts at the current edge `cur`. -/
def touchedIds (I cur : String) (sps : List Split) : List String :=
  if sps = [] then [] else cur :: sps.map (splitId I)

end Spec

namespace Sample

/-- The splits of `openAWithSplits` in ascending order. -/
def splits3070 : List Split := [⟨[0, 1], 30, 30, ⟨0, 0⟩⟩, ⟨[0, 1], 70, 70, ⟨0, 0⟩⟩]

end Sample

namespace Sample

/-- The handler after `<edge id="A" allow="bus">` was opened: both lanes of the
registered edge `A` carry the permissions parsed from `allow="bus"`. -/
def openABus : Handler := (addEdge env handler { id := .value "A", allow := .value "bus" }).1

/-- A lane record that carries an index and a width, nothing else. -/
def laneRecordWidthOnly : LaneAttrs := { index := .value 1, width := .value 4 }

/-- A lane record with a negative index. -/
def laneRecordNegative : LaneAttrs := { index := .value (-1), width := .value 4 }

/-- A record for the registered edge `A` that names a type nobody defined. -/
def recordUnknownType : EdgeAttrs := { id := .value "A", type := .value "nope" }

/-- The handler after the record `recordUnknownType` was read. -/
def afterUnknownType : Handler := (addEdge env handler recordUnknownType).1

/-- Permissions and preferred classes of the lanes of the current edge. -/
def laneClasses (h : Handler) : Option (List (SVCPermissions × SVCPermissions)) :=
  h.currentEdge.map (fun e => e.lanes.map (fun l => (l.permissions, l.preferred)))

/-- Widths of the lanes of the current edge. -/
def laneWidths (h : Handler) : Option (List SUMOReal) :=
  h.currentEdge.map (fun e => e.lanes.map (fun l => l.width))

end Sample

namespace Sample

/-- The open edge `A` (two lanes) with one split at 30 that keeps lane 0. -/
def openAWithNarrowingSplit : Handler :=
  (addSplit env openA { pos := .value 30, lanes := .value "0" }).1

/-- The open edge `A` with a split at 30 keeping the lanes 1 and 7 and a split
at 70 keeping the lanes 3 and 7. -/
def openAWithLane7Splits : Handler :=
  (addSplit env (addSplit env openA { pos := .value 30, lanes := .value "1 7" }).1
    { pos := .value 70, lanes := .value "3 7" }).1

end Sample

namespace Sample

/-- The connections of the edge registered under `id`. -/
def connectionsOf (ec : NBEdgeCont) (id : String) : List Connection :=
  ((ec.retrieve id).map (fun e => e.connections)).getD []

end Sample

namespace Spec

/-- Both coordinates of an end node are given. -/
def positionGiven (pos : Position) : Prop :=
  pos.x ≠ SUMOXML_INVALID_POSITION ∧ pos.y ≠ SUMOXML_INVALID_POSITION

instance (pos : Position) : Decidable (positionGiven pos) := by
  unfold positionGiven; infer_instance

end Spec

namespace Sample

/-- Two records for new edges that both start at the coordinate `(5, 5)`,
declared without a node name. -/
def recordFromPosition1 : EdgeAttrs :=
  { id := .value "P1", xfrom := .value 5, yfrom := .value 5, toNode := .value "n1" }

def recordFromPosition2 : EdgeAttrs :=
  { id := .value "P2", xfrom := .value 5, yfrom := .value 5, toNode := .value "n2" }

/-- The start node handed to the edge by a completed record. -/
def startNode : EdgeOutcome → Option String
  | .reinit a => some a.fromNode.id
  | .constructed a => some a.fromNode.id
  | _ => none

end Sample

/-- The first part of `NIXMLEdgesHandler::setNodes` on its own: the identifiers
`begNodeID` and `endNodeID` and the flag `ok` after the four identifier fields
were read. -/
def nodeIDs (h : Handler) (attrs : EdgeAttrs) : String × String × Bool :=
  let cur := h.currentEdge
  let oldBegID := if h.myIsUpdate then (cur.map (fun e => e.myFrom.id)).getD "" else ""
  let oldEndID := if h.myIsUpdate then (cur.map (fun e => e.myTo.id)).getD "" else ""
  let ok := true
  let (begNodeID, ok) :=
    if attrs.fromNodeDeprecated.hasAttribute then attrs.fromNodeDeprecated.getReporting "" ok
    else (oldBegID, ok)
  let (endNodeID, ok) :=
    if attrs.toNodeDeprecated.hasAttribute then attrs.toNodeDeprecated.getReporting "" ok
    else (oldEndID, ok)
  let (begNodeID, ok) :=
    if attrs.fromNode.hasAttribute then attrs.fromNode.getReporting "" ok else (begNodeID, ok)
  let (endNodeID, ok) :=
    if attrs.toNode.hasAttribute then attrs.toNode.getReporting "" ok else (endNodeID, ok)
  (begNodeID, endNodeID, ok)

/-- The result of `setNodes` as `addEdge` calls it: on the handler after the
fields were read, with the shape member set so far. -/
def nodesOf (env : Env) (h : Handler) (attrs : EdgeAttrs) (s : Scratch) (ok : Bool) :
    Handler × PositionVector × Option (NBNode × NBNode) :=
  setNodes env
    { h with myHaveWarnedAboutDeprecatedNoLanes :=
        (readFields env h.myOptions attrs s ok h.myHaveWarnedAboutDeprecatedNoLanes).2.2 }
    (readFields env h.myOptions attrs s ok h.myHaveWarnedAboutDeprecatedNoLanes).1.myShape attrs

/-- The members at the point where `addEdge` builds or re-initialises the edge:
the fields read, then the shape, the spread type and the length. -/
def membersAtBuild (env : Env) (h : Handler) (attrs : EdgeAttrs) (s : Scratch) (ok : Bool) :
    Scratch :=
  { (readFields env h.myOptions attrs s ok h.myHaveWarnedAboutDeprecatedNoLanes).1 with
    myShape := tryGetShape env (nodesOf env h attrs s ok).2.1 attrs,
    myLanesSpread := (tryGetLaneSpread
      (readFields env h.myOptions attrs s ok h.myHaveWarnedAboutDeprecatedNoLanes).1.myLanesSpread
      (nodesOf env h attrs s ok).1.myHaveWarnedAboutDeprecatedSpreadType attrs).1,
    myLength := (attrs.length.getOptReporting (-1)
      (readFields env h.myOptions attrs s ok h.myHaveWarnedAboutDeprecatedNoLanes).1.myLength
      (readFields env h.myOptions attrs s ok h.myHaveWarnedAboutDeprecatedNoLanes).2.1).1 }

/-- The handler at the point where `addEdge` builds or re-initialises the
edge. -/
def handlerAtBuild (env : Env) (h : Handler) (attrs : EdgeAttrs) (s : Scratch) (ok : Bool) :
    Handler :=
  { (nodesOf env h attrs s ok).1 with
    myHaveWarnedAboutDeprecatedSpreadType := (tryGetLaneSpread
      (readFields env h.myOptions attrs s ok h.myHaveWarnedAboutDeprecatedNoLanes).1.myLanesSpread
      (nodesOf env h attrs s ok).1.myHaveWarnedAboutDeprecatedSpreadType attrs).2 }

/-- The test at the end of `NIXMLEdgesHandler::setNodes`: the record updates a
registered edge and a resolved end node is not the one the edge had. -/
def endsChanged (h : Handler) (f t : NBNode) : Bool :=
  h.myIsUpdate &&
    (f.id != (if h.myIsUpdate then (h.currentEdge.map (fun e => e.myFrom.id)).getD "" else "") ||
     t.id != (if h.myIsUpdate then (h.currentEdge.map (fun e => e.myTo.id)).getD "" else ""))

namespace Spec

/-- A class list of a record: the field's text, empty when the field is
absent or unreadable. -/
def classList (f : Field String) : String :=
  match f with
  | .value v => v
  | _ => ""

/-- The permission set a completed record gives the edge `id`: the classes of
the record when it carries `allow` or `disallow`; else those of the registered
edge on an update, else those of the named type, else the default. -/
def recordPermissions (env : Env) (h : Handler) (attrs : EdgeAttrs) (id : String) :
    SVCPermissions :=
  if attrs.allow.hasAttribute || attrs.disallow.hasAttribute then
    env.parseVehicleClasses (classList attrs.allow) (classList attrs.disallow)
  else
    match h.myEdgeCont.retrieve id with
    | some e => e.getPermissions
    | none =>
      match namedType h.myTypeCont attrs with
      | some t => h.myTypeCont.getPermissions t
      | none => h.myTypeCont.getPermissions ""

end Spec

namespace Sample

/-- The arguments a completed record hands over (`argsC` for any other
outcome). -/
def argsOf : EdgeOutcome → EdgeArgs
  | .reinit a => a
  | .constructed a => a
  | _ => argsC

/-- A record that re-declares the edge `A` for buses only. -/
def recordBusA : EdgeAttrs := { id := .value "A", allow := .value "bus" }

/-- A record that re-declares the edge `A` and names the type `highway`, whose
permission set is 7. -/
def recordHighwayA : EdgeAttrs := { id := .value "A", type := .value "highway" }

/-- A record that builds the edge `H` of the type `highway`. -/
def recordHighwayH : EdgeAttrs :=
  { id := .value "H", type := .value "highway", fromNode := .value "n1", toNode := .value "n3" }

/-- A record that re-declares the edge `A` with the end node `n3`. -/
def recordMoveA : EdgeAttrs := { id := .value "A", toNode := .value "n3" }

/-- The edge `G` from `n1` to `n2` with a bend. -/
def edgeG : NBEdge :=
  (NBEdge.construct env
    { id := "G", fromNode := n1, toNode := n2, typeID := "", speed := 10, numLanes := 1,
      priority := 3, width := 3, offset := 0,
      shape := ⟨[⟨0, 0⟩, ⟨50, 50⟩, ⟨100, 0⟩], 200, 0⟩,
      streetName := "", laneSpread := .LANESPREAD_RIGHT, keepShape := false })

/-- A handler whose registry holds the edges `A` and `G`. -/
def handlerG : Handler := Handler.init options nodes [edgeA, edgeG] types

/-- Permissions of the lanes of the current edge. -/
def lanePermissions (h : Handler) : Option (List SVCPermissions) :=
  h.currentEdge.map (fun e => e.lanes.map (fun l => l.permissions))

end Sample

/-! ## `myStartElement` -/

/-- An opening element as the SAX parser hands it to `myStartElement`: the tag
and the attributes. -/
inductive Element where
  | edge (attrs : EdgeAttrs)
  | lane (attrs : LaneAttrs)
  | split (attrs : SplitAttrs)
  | delete (id : Field String)
  /-- Any other tag. -/
  | other

/-- The method `NIXMLEdgesHandler::myStartElement`. -/
def myStartElement (env : Env) (h : Handler) : Element → Handler
  | .edge attrs => (addEdge env h attrs).1
  | .lane attrs => (addLane env h attrs).1
  | .split attrs => (addSplit env h attrs).1
  | .delete id => (deleteEdge h id).1
  | .other => h

/-- The elements nested in an `edge` element: `lane` and `split`. -/
def Element.nested : Element → Bool
  | .lane _ => true
  | .split _ => true
  | _ => false

/-- The `split` records among the elements `els`, read in order from the state
`h`, that `addSplit` stages. -/
def stagedRecords (env : Env) : Handler → List Element → List SplitAttrs
  | _, [] => []
  | h, el :: rest =>
    (match el with
      | .split attrs => if (addSplit env h attrs).2 = .added then [attrs] else []
      | _ => []) ++ stagedRecords env (myStartElement env h el) rest

namespace Spec

/-- The lane indices a `split` record declares: the entries of its `lanes`
field that convert to a number. -/
def parsedLanes (env : Env) (lanes : Field String) : List Int :=
  (env.parseStringVector (lanes.getOptReporting "" "" true).1).filterMap env.toInt

/-- The lane subset of a split when the edge with `n` lanes is finalised: all
lanes `0 .. n-1` when the record declares no index that converts, else the
declared indices, in ascending order. -/
def lanesUsed (env : Env) (n : Nat) (lanes : Field String) : List Int :=
  if parsedLanes env lanes = [] then (List.range n).map Int.ofNat
  else (parsedLanes env lanes).insertionSort (fun a b => a ≤ b)

end Spec

namespace Sample

/-- Nested in the open edge `A`: a split without lanes, a lane record, a split
whose lanes `x 1` convert in part, a split whose lanes do not convert. -/
def nestedInA : List Element :=
  [.split { pos := .value 70 },
   .lane { index := .value 0, width := .value 4 },
   .split { pos := .value 30, lanes := .value "x 1" },
   .split { pos := .value 50, lanes := .value "x y" }]

end Sample

namespace Spec

/-- A type field that passes the type check of `addEdge`: absent, or the name
of a type the registry knows. -/
def typeAccepted (tc : NBTypeCont) (type : Field String) : Prop :=
  type = .absent ∨ ∃ t, type = .value t ∧ tc.knows t = true

end Spec

namespace Sample

/-- The node registry with a node that already has the identifier `A.30`. -/
def nodesTaken : NBNodeCont := nodes ++ [⟨"A.30", ⟨5, 5⟩⟩]

/-- The state of the split loop at its start for the edge `A`, the identifier
`A.30` being taken in the node registry. -/
def loopStartTaken : SplitState := { loopStart with nodeCont := nodesTaken }

/-- The open edge `A` with splits at 30 and 70 keeping all lanes, the
identifier `A.30` being taken in the node registry. -/
def openATaken : Handler :=
  (addSplit env
    (addSplit env
      (addEdge env (Handler.init options nodesTaken [edgeA, edgeB] types) { id := .value "A" }).1
      { pos := .value 30 }).1
    { pos := .value 70 }).1

end Sample

namespace Sample

/-- The open edge `A` with a split at position 0 and one at 1/2; both positions
truncate to the tag 0. -/
def openAWithZeroTagSplits : Handler :=
  (addSplit env (addSplit env openA { pos := .value 0 }).1 { pos := .value (1 / 2) }).1

/-- The open edge `A` with splits at 30.2 and 30.7; both positions truncate to
the tag 30. -/
def openAWithSameTagSplits : Handler :=
  (addSplit env (addSplit env openA { pos := .value (151 / 5) }).1
    { pos := .value (307 / 10) }).1

end Sample

namespace Spec

/-- The contiguous lane set `[a..b]`. -/
def laneRange (a b : Nat) : List Int :=
  (List.range (b - a + 1)).map (fun i => ((a + i : Nat) : Int))

/-- The predecessor lane that feeds the successor lane `j` across a split from
the lanes `[a..b]` to the lanes `[c..]`: lane 0 for a lane new on the right,
the last lane for a lane new on the left, the same lane for a lane that
continues. -/
def sourceLane (a b c j : Nat) : Nat :=
  if j + c < a then 0 else if b < j + c then b - a else j + c - a

end Spec

/-! # Theorems -/

/-! ## Lemmas on `addEdge` -/

theorem Field.readIfPresent_snd {α : Type} (f : Field α) (fail d : α) (ok : Bool) :
    (f.readIfPresent fail d ok).2 = (ok && f.wellFormed) := by
  cases f <;> simp [Field.readIfPresent, Field.hasAttribute, Field.getReporting, Field.wellFormed]

theorem Field.getOptReporting_snd {α : Type} (f : Field α) (fail d : α) (ok : Bool) :
    (f.getOptReporting fail d ok).2 = (ok && f.wellFormed) := by
  cases f <;> simp [Field.getOptReporting, Field.wellFormed]

theorem Field.readIfPresent_fst {α : Type} (f : Field α) (fail d : α) (ok : Bool)
    (hf : f.wellFormed = true) :
    some (f.readIfPresent fail d ok).1 = f.readOver d := by
  cases f <;> simp_all [Field.readIfPresent, Field.hasAttribute, Field.getReporting,
    Field.wellFormed, Field.readOver]

theorem Spec.resolve_eq_readOver {α : Type} (f : Field α) (p t : Option α) (d : α) :
    Spec.resolve f p t d = f.readOver ((p.orElse (fun _ => t)).getD d) := by
  cases f <;> cases p <;> cases t <;> rfl

theorem readFields_flag (env : Env) (o : OptionsCont) (attrs : EdgeAttrs) (s : Scratch)
    (ok w : Bool) :
    (readFields env o attrs s ok w).2.1 =
      (ok && attrs.speed.wellFormed && attrs.nolanesDeprecated.wellFormed &&
        attrs.numLanes.wellFormed && attrs.priority.wellFormed && attrs.width.wellFormed &&
        attrs.endOffset.wellFormed && attrs.name.wellFormed) := by
  simp only [readFields, Field.readIfPresent_snd, Field.getOptReporting_snd]

theorem readFields_values (env : Env) (o : OptionsCont) (attrs : EdgeAttrs) (s : Scratch)
    (ok w : Bool) (hkmh : o.speedInKmh = false)
    (h : (readFields env o attrs s ok w).2.1 = true) :
    some (readFields env o attrs s ok w).1.myCurrentSpeed
      = attrs.speed.readOver s.myCurrentSpeed ∧
    some (readFields env o attrs s ok w).1.myCurrentPriority
      = attrs.priority.readOver s.myCurrentPriority ∧
    some (readFields env o attrs s ok w).1.myCurrentLaneNo
      = (Spec.laneCountField attrs).readOver s.myCurrentLaneNo ∧
    some (readFields env o attrs s ok w).1.myCurrentWidth
      = attrs.width.readOver s.myCurrentWidth ∧
    some (readFields env o attrs s ok w).1.myCurrentOffset
      = attrs.endOffset.readOver s.myCurrentOffset := by
  rw [readFields_flag] at h
  simp only [Bool.and_eq_true] at h
  obtain ⟨⟨⟨⟨⟨⟨⟨-, h1⟩, h2⟩, h3⟩, h4⟩, h5⟩, h6⟩, -⟩ := h
  refine ⟨?_, ?_, ?_, ?_, ?_⟩
  · simp only [readFields, hkmh]
    exact Field.readIfPresent_fst _ _ _ _ h1
  · exact Field.readIfPresent_fst _ _ _ _ h4
  · simp only [readFields]
    cases hn : attrs.numLanes <;> cases hd : attrs.nolanesDeprecated <;>
      simp_all [Field.readIfPresent, Field.hasAttribute, Field.getReporting,
        Field.wellFormed, Field.readOver, Spec.laneCountField]
  · exact Field.readIfPresent_fst _ _ _ _ h5
  · exact Field.readIfPresent_fst _ _ _ _ h6

theorem finishEdge_args (env : Env) (h : Handler) (attrs : EdgeAttrs) (s : Scratch) (ok : Bool)
    (a : EdgeArgs)
    (hdone : (finishEdge env h attrs s ok).2 = .reinit a ∨
      (finishEdge env h attrs s ok).2 = .constructed a) :
    (readFields env h.myOptions attrs s ok h.myHaveWarnedAboutDeprecatedNoLanes).2.1 = true ∧
    a.speed = (readFields env h.myOptions attrs s ok
      h.myHaveWarnedAboutDeprecatedNoLanes).1.myCurrentSpeed ∧
    a.priority = (readFields env h.myOptions attrs s ok
      h.myHaveWarnedAboutDeprecatedNoLanes).1.myCurrentPriority ∧
    a.numLanes = (readFields env h.myOptions attrs s ok
      h.myHaveWarnedAboutDeprecatedNoLanes).1.myCurrentLaneNo ∧
    a.width = (readFields env h.myOptions attrs s ok
      h.myHaveWarnedAboutDeprecatedNoLanes).1.myCurrentWidth ∧
    a.offset = (readFields env h.myOptions attrs s ok
      h.myHaveWarnedAboutDeprecatedNoLanes).1.myCurrentOffset ∧
    a.typeID = s.myCurrentType := by
  unfold finishEdge at hdone
  simp only [] at hdone
  split at hdone
  · simp at hdone
  · rw [Field.getOptReporting_snd] at hdone
    split at hdone
    · simp at hdone
    · rename_i hok
      simp only [Bool.not_eq_true, Bool.not_eq_false', Bool.and_eq_true, Bool.not_eq_eq_eq_not,
        Bool.not_true, Bool.and_eq_false_imp, not_forall, Bool.not_eq_false, exists_prop] at hok
      split at hdone <;>
        · simp only [EdgeOutcome.reinit.injEq, EdgeOutcome.constructed.injEq, reduceCtorEq,
            or_false, false_or] at hdone
          subst hdone
          exact ⟨hok.1, by simp [Scratch.toArgs, readFields]⟩

/-- **C1.** With `speed-in-kmh` disabled, whenever `addEdge` completes (it
re-initialises the registered edge or builds a new one with arguments `a`), each
of speed, priority, lane count, width and end offset handed over is the result
of the resolution order: the record's field if present, else the prior edge's
value on an update, else the default of the named known type, else the default
of the empty type (for the end offset: `UNSPECIFIED_OFFSET`, which no type
overrides). -/
theorem addEdge_three_tier_resolution (env : Env) (h : Handler) (attrs : EdgeAttrs)
    (a : EdgeArgs) (hkmh : h.myOptions.speedInKmh = false)
    (hdone : (addEdge env h attrs).2 = .reinit a ∨ (addEdge env h attrs).2 = .constructed a) :
    ∃ id, attrs.id = .value id ∧
      some a.speed = Spec.resolve attrs.speed
        ((h.myEdgeCont.retrieve id).map (fun e => e.speed))
        ((Spec.namedType h.myTypeCont attrs).map h.myTypeCont.getSpeed)
        (h.myTypeCont.getSpeed "") ∧
      some a.priority = Spec.resolve attrs.priority
        ((h.myEdgeCont.retrieve id).map (fun e => e.priority))
        ((Spec.namedType h.myTypeCont attrs).map h.myTypeCont.getPriority)
        (h.myTypeCont.getPriority "") ∧
      some a.numLanes = Spec.resolve (Spec.laneCountField attrs)
        ((h.myEdgeCont.retrieve id).map (fun e => (e.getNumLanes : Int)))
        ((Spec.namedType h.myTypeCont attrs).map h.myTypeCont.getNumLanes)
        (h.myTypeCont.getNumLanes "") ∧
      some a.width = Spec.resolve attrs.width
        ((h.myEdgeCont.retrieve id).map (fun e => e.width))
        ((Spec.namedType h.myTypeCont attrs).map h.myTypeCont.getWidth)
        (h.myTypeCont.getWidth "") ∧
      some a.offset = Spec.resolve attrs.endOffset
        ((h.myEdgeCont.retrieve id).map (fun e => e.offset))
        none NBEdge.UNSPECIFIED_OFFSET := by
  have key : ∀ (h1 : Handler) (s : Scratch) (ok : Bool),
      ((finishEdge env h1 attrs s ok).2 = .reinit a ∨
        (finishEdge env h1 attrs s ok).2 = .constructed a) → h1.myOptions = h.myOptions →
      some a.speed = attrs.speed.readOver s.myCurrentSpeed ∧
      some a.priority = attrs.priority.readOver s.myCurrentPriority ∧
      some a.numLanes = (Spec.laneCountField attrs).readOver s.myCurrentLaneNo ∧
      some a.width = attrs.width.readOver s.myCurrentWidth ∧
      some a.offset = attrs.endOffset.readOver s.myCurrentOffset := by
    intro h1 s ok hd ho
    obtain ⟨hf, e1, e2, e3, e4, e5, -⟩ := finishEdge_args env h1 attrs s ok a hd
    have hv := readFields_values env h1.myOptions attrs s ok _ (by rw [ho]; exact hkmh) hf
    rw [e1, e2, e3, e4, e5]
    exact hv
  simp only [Spec.resolve_eq_readOver]
  unfold addEdge at hdone
  cases hid : attrs.id with
  | absent => simp [hid, Field.getReporting] at hdone
  | malformed => simp [hid, Field.getReporting] at hdone
  | value id =>
    refine ⟨id, rfl, ?_⟩
    simp only [hid, Field.getReporting, Bool.not_true, Bool.false_eq_true, if_false] at hdone
    cases hty : attrs.type with
    | malformed => simp [hty, Field.hasAttribute, Field.getReporting] at hdone
    | absent =>
      simp only [hty, Field.hasAttribute, Bool.false_eq_true, if_false] at hdone
      unfold updateOrCreate at hdone
      cases hp : h.myEdgeCont.retrieve id with
      | none =>
        simp only [hp] at hdone
        have := key _ _ _ hdone rfl
        simpa [Spec.namedType, hty, Field.readOver, Scratch.defaults] using this
      | some e =>
        simp only [hp] at hdone
        split at hdone
        · simp at hdone
        · have := key _ _ _ hdone rfl
          simpa [Spec.namedType, hty, Field.readOver, Scratch.usePrior] using this
    | value t =>
      simp only [hty, Field.hasAttribute, if_true, Field.getReporting, Bool.not_true,
        Bool.false_eq_true, if_false] at hdone
      split at hdone
      · simp at hdone
      · rename_i hk
        simp only [Bool.not_eq_true, Bool.not_eq_false'] at hk
        unfold updateOrCreate at hdone
        cases hp : h.myEdgeCont.retrieve id with
        | none =>
          simp only [hp] at hdone
          have := key _ _ _ hdone rfl
          simpa [Spec.namedType, hty, hk, Field.readOver, Scratch.defaults,
            Scratch.useType] using this
        | some e =>
          simp only [hp] at hdone
          split at hdone
          · simp at hdone
          · have := key _ _ _ hdone rfl
            simpa [Spec.namedType, hty, hk, Field.readOver, Scratch.usePrior]
              using this

theorem addEdge_three_tier_resolution_witness :
    ∃ id, Sample.recordC.id = .value id ∧
      some Sample.argsC.speed = Spec.resolve Sample.recordC.speed
        ((Sample.handler.myEdgeCont.retrieve id).map (fun e => e.speed))
        ((Spec.namedType Sample.handler.myTypeCont Sample.recordC).map
          Sample.handler.myTypeCont.getSpeed)
        (Sample.handler.myTypeCont.getSpeed "") ∧
      some Sample.argsC.priority = Spec.resolve Sample.recordC.priority
        ((Sample.handler.myEdgeCont.retrieve id).map (fun e => e.priority))
        ((Spec.namedType Sample.handler.myTypeCont Sample.recordC).map
          Sample.handler.myTypeCont.getPriority)
        (Sample.handler.myTypeCont.getPriority "") ∧
      some Sample.argsC.numLanes = Spec.resolve (Spec.laneCountField Sample.recordC)
        ((Sample.handler.myEdgeCont.retrieve id).map (fun e => (e.getNumLanes : Int)))
        ((Spec.namedType Sample.handler.myTypeCont Sample.recordC).map
          Sample.handler.myTypeCont.getNumLanes)
        (Sample.handler.myTypeCont.getNumLanes "") ∧
      some Sample.argsC.width = Spec.resolve Sample.recordC.width
        ((Sample.handler.myEdgeCont.retrieve id).map (fun e => e.width))
        ((Spec.namedType Sample.handler.myTypeCont Sample.recordC).map
          Sample.handler.myTypeCont.getWidth)
        (Sample.handler.myTypeCont.getWidth "") ∧
      some Sample.argsC.offset = Spec.resolve Sample.recordC.endOffset
        ((Sample.handler.myEdgeCont.retrieve id).map (fun e => e.offset))
        none NBEdge.UNSPECIFIED_OFFSET :=
  addEdge_three_tier_resolution Sample.env Sample.handler Sample.recordC Sample.argsC
    (by decide) (Or.inr (by decide!))

/-! ## Re-declaration and removal -/

/-- **C2.** With `speed-in-kmh` set, re-declaring the registered edge `A` (speed
10) by a record that carries only a width hands the speed `10 / 3.6 = 25/9` to
`reinit`: the conversion is applied to the speed carried over from the
registered edge, and the edge's speed changes. -/
theorem addEdge_kmh_redeclare_changes_speed :
    (Sample.handlerKmh.myEdgeCont.retrieve "A").map (fun e => e.speed) = some 10 ∧
    Sample.recordWidthA.speed = .absent ∧ Sample.recordWidthA.remove = .absent ∧
    (addEdge Sample.env Sample.handlerKmh Sample.recordWidthA).2 = .reinit
      { id := "A", fromNode := Sample.n1, toNode := Sample.n2, typeID := "", speed := 25 / 9,
        numLanes := 2, priority := 3, width := 5, offset := 1, shape := PositionVector.empty,
        streetName := "Main", laneSpread := .LANESPREAD_RIGHT, keepShape := false } ∧
    ((addEdge Sample.env Sample.handlerKmh Sample.recordWidthA).1.myEdgeCont.retrieve "A").map
      (fun e => e.speed) = some (25 / 9) := by
  refine ⟨by decide!, rfl, rfl, by decide!, by decide!⟩

theorem NBEdgeCont.retrieve_erase (ec : NBEdgeCont) (id : String) :
    (ec.erase id).retrieve id = none := by
  simp [NBEdgeCont.retrieve, NBEdgeCont.erase, List.find?_eq_none]

theorem NBEdgeCont.retrieve_id (ec : NBEdgeCont) (id : String) (e : NBEdge)
    (h : ec.retrieve id = some e) : e.id = id := by
  have := List.find?_some h
  simpa using this

/-- **C3, as stated, fails.** The record removes the registered edge `A` but
names an unknown type: `addEdge` returns at the type check, the edge `A` stays
in the registry unchanged and stays staged as the current edge. -/
theorem addEdge_remove_unknown_type_keeps_edge :
    Sample.handler.myEdgeCont.retrieve "A" = some Sample.edgeA ∧
    Sample.recordRemoveUnknownType.remove = .value true ∧
    (addEdge Sample.env Sample.handler Sample.recordRemoveUnknownType).2 = .unknownType ∧
    (addEdge Sample.env Sample.handler Sample.recordRemoveUnknownType).1.myEdgeCont.retrieve "A"
      = some Sample.edgeA ∧
    (addEdge Sample.env Sample.handler Sample.recordRemoveUnknownType).1.myCurrentEdge
      = some (.registered "A") := by
  refine ⟨by decide!, rfl, by decide!, by decide!, by decide!⟩

/-- **C3, amended.** For a record whose id is registered, whose remove flag is
true and whose type field is absent or names a known type, `addEdge` erases
that edge from the edge registry and changes nothing else in it (no edge is
created or updated), leaves the node registry alone and leaves no current edge
staged, whatever the other fields are. -/
theorem addEdge_remove (env : Env) (h : Handler) (attrs : EdgeAttrs) (id : String) (e : NBEdge)
    (hid : attrs.id = .value id) (hreg : h.myEdgeCont.retrieve id = some e)
    (hrem : attrs.remove = .value true)
    (hty : attrs.type = .absent ∨ ∃ t, attrs.type = .value t ∧ h.myTypeCont.knows t = true) :
    (addEdge env h attrs).2 = .removed ∧
    (addEdge env h attrs).1.myEdgeCont = h.myEdgeCont.erase id ∧
    (addEdge env h attrs).1.myEdgeCont.retrieve id = none ∧
    (addEdge env h attrs).1.myNodeCont = h.myNodeCont ∧
    (addEdge env h attrs).1.myCurrentEdge = none ∧
    (addEdge env h attrs).1.currentEdge = none := by
  have heid := NBEdgeCont.retrieve_id _ _ _ hreg
  have main : (addEdge env h attrs).2 = .removed ∧
      (addEdge env h attrs).1.myEdgeCont = h.myEdgeCont.erase id ∧
      (addEdge env h attrs).1.myNodeCont = h.myNodeCont ∧
      (addEdge env h attrs).1.myCurrentEdge = none := by
    rcases hty with hty | ⟨t, hty, hk⟩
    · simp [addEdge, updateOrCreate, hid, hreg, hrem, hty, heid, Field.getReporting,
        Field.hasAttribute, Field.getOptReporting]
    · simp [addEdge, updateOrCreate, hid, hreg, hrem, hty, hk, heid, Field.getReporting,
        Field.hasAttribute, Field.getOptReporting]
  obtain ⟨m1, m2, m3, m4⟩ := main
  refine ⟨m1, m2, ?_, m3, m4, ?_⟩
  · rw [m2]; exact NBEdgeCont.retrieve_erase _ _
  · simp [Handler.currentEdge, m4]

theorem addEdge_remove_witness :
    (addEdge Sample.env Sample.handler Sample.recordRemoveA).2 = .removed ∧
    (addEdge Sample.env Sample.handler Sample.recordRemoveA).1.myEdgeCont
      = Sample.handler.myEdgeCont.erase "A" ∧
    (addEdge Sample.env Sample.handler Sample.recordRemoveA).1.myEdgeCont.retrieve "A" = none ∧
    (addEdge Sample.env Sample.handler Sample.recordRemoveA).1.myNodeCont
      = Sample.handler.myNodeCont ∧
    (addEdge Sample.env Sample.handler Sample.recordRemoveA).1.myCurrentEdge = none ∧
    (addEdge Sample.env Sample.handler Sample.recordRemoveA).1.currentEdge = none :=
  addEdge_remove Sample.env Sample.handler Sample.recordRemoveA "A" Sample.edgeA rfl
    (by decide!) rfl (Or.inr ⟨"highway", rfl, by decide⟩)

/-! ## `addSplit` -/

/-- **C4: the code breaks the claim.** On the open edge `A` of length 100 a
split declared at `-30` twice is staged twice, at the stored position 70; so
is a split at `70` followed by one at `-30`.  Only the order `-30`, `70` is
caught: the duplicate check compares the raw position of the new split with the
normalised positions stored before. -/
theorem addSplit_negative_duplicate_staged :
    Sample.openA.currentEdge = some Sample.edgeA ∧
    Sample.edgeA.getGeometry.length = 100 ∧
    Sample.stagedPositions Sample.openA [-30, -30] = [70, 70] ∧
    Sample.stagedPositions Sample.openA [70, -30] = [70, 70] ∧
    Sample.stagedPositions Sample.openA [-30, 70] = [70] ∧
    (addSplit Sample.env (addSplit Sample.env Sample.openA { pos := .value (-30) }).1
      { pos := .value (-30) }).2 = .added := by
  refine ⟨by decide!, by decide!, by decide!, by decide!, by decide!, by decide!⟩

theorem fabs_eq_abs (x : SUMOReal) : fabs x = |x| := by
  unfold fabs
  split_ifs with h
  · exact (abs_of_neg h).symm
  · exact (abs_of_nonneg (not_lt.mp h)).symm

/-- **C5.** For the open edge of geometric length `L` and a split record with
raw position `p`: the split is staged iff `|p| ≤ L` and no staged split has the
position `p`; when staged it is appended with the stored position `q`, where
`0 ≤ q ≤ L`, `q = p` for `p ≥ 0` and `q = p + L` for `p < 0`, so that stored
positions stay within `[0, L]`; when not staged, in particular for `|p| > L`,
the handler and its list of splits are unchanged. -/
theorem addSplit_position_range (env : Env) (h : Handler) (attrs : SplitAttrs) (e : NBEdge)
    (p : SUMOReal) (hcur : h.currentEdge = some e) (hp : attrs.pos = .value p) :
    ((addSplit env h attrs).2 = .added ↔
      (|p| ≤ e.getGeometry.length ∧ ∀ s ∈ h.mySplits, s.pos ≠ p)) ∧
    ((addSplit env h attrs).2 = .added →
      ∃ sp : Split, (addSplit env h attrs).1.mySplits = h.mySplits ++ [sp] ∧
        0 ≤ sp.pos ∧ sp.pos ≤ e.getGeometry.length ∧
        (0 ≤ p → sp.pos = p) ∧ (p < 0 → sp.pos = p + e.getGeometry.length)) ∧
    ((addSplit env h attrs).2 ≠ .added → (addSplit env h attrs).1 = h) ∧
    (|p| > e.getGeometry.length →
      (addSplit env h attrs).2 = .invalidPosition ∧ (addSplit env h attrs).1 = h) ∧
    ((∀ s ∈ h.mySplits, 0 ≤ s.pos ∧ s.pos ≤ e.getGeometry.length) →
      ∀ s ∈ (addSplit env h attrs).1.mySplits, 0 ≤ s.pos ∧ s.pos ≤ e.getGeometry.length) := by
  have hdup : (h.mySplits.any (split_by_pos_finder p) = true) ↔ ¬ ∀ s ∈ h.mySplits, s.pos ≠ p := by
    simp [split_by_pos_finder]
  unfold addSplit
  simp only [hcur, hp, Field.getReporting, if_true, fabs_eq_abs]
  by_cases h1 : |p| > e.getGeometry.length
  · simp only [h1, if_true]
    simp [not_le.mpr h1]
  · simp only [h1, if_false]
    have h1' : |p| ≤ e.getGeometry.length := not_lt.mp h1
    by_cases h2 : h.mySplits.any (split_by_pos_finder p) = true
    · simp only [h2, if_true]
      have := hdup.mp h2
      simp [h1', this]
    · simp only [h2, if_false]
      have hnd := not_not.mp (mt hdup.mpr h2)
      have hrange : 0 ≤ (if p < 0 then p + e.getGeometry.length else p) ∧
          (if p < 0 then p + e.getGeometry.length else p) ≤ e.getGeometry.length := by
        have := abs_le.mp h1'
        split_ifs with hneg
        · constructor <;> linarith
        · exact ⟨not_lt.mp hneg, this.2⟩
      refine ⟨by simpa [h1'] using hnd, ?_, by simp, by simp [h1'], ?_⟩
      · intro _
        refine ⟨_, rfl, hrange.1, hrange.2, ?_, ?_⟩
        · intro h0; simp [not_lt.mpr h0]
        · intro h0; rw [if_pos h0]
      · intro hall s hs
        rcases List.mem_append.mp hs with hs | hs
        · exact hall s hs
        · rw [List.mem_singleton.mp hs]; exact hrange

theorem addSplit_position_range_witness :
    ((addSplit Sample.env Sample.openA { pos := .value (-30) }).2 = .added ↔
      (|(-30 : SUMOReal)| ≤ Sample.edgeA.getGeometry.length ∧
        ∀ s ∈ Sample.openA.mySplits, s.pos ≠ -30)) ∧
    ((addSplit Sample.env Sample.openA { pos := .value (-30) }).2 = .added →
      ∃ sp : Split, (addSplit Sample.env Sample.openA { pos := .value (-30) }).1.mySplits
          = Sample.openA.mySplits ++ [sp] ∧
        0 ≤ sp.pos ∧ sp.pos ≤ Sample.edgeA.getGeometry.length ∧
        (0 ≤ (-30 : SUMOReal) → sp.pos = -30) ∧
        ((-30 : SUMOReal) < 0 → sp.pos = -30 + Sample.edgeA.getGeometry.length)) ∧
    ((addSplit Sample.env Sample.openA { pos := .value (-30) }).2 ≠ .added →
      (addSplit Sample.env Sample.openA { pos := .value (-30) }).1 = Sample.openA) ∧
    (|(-30 : SUMOReal)| > Sample.edgeA.getGeometry.length →
      (addSplit Sample.env Sample.openA { pos := .value (-30) }).2 = .invalidPosition ∧
      (addSplit Sample.env Sample.openA { pos := .value (-30) }).1 = Sample.openA) ∧
    ((∀ s ∈ Sample.openA.mySplits, 0 ≤ s.pos ∧ s.pos ≤ Sample.edgeA.getGeometry.length) →
      ∀ s ∈ (addSplit Sample.env Sample.openA { pos := .value (-30) }).1.mySplits,
        0 ≤ s.pos ∧ s.pos ≤ Sample.edgeA.getGeometry.length) :=
  addSplit_position_range Sample.env Sample.openA { pos := .value (-30) } Sample.edgeA (-30)
    (by decide!) rfl

/-! ## The split loop of `myEndElement` -/

/-- **C9: the code breaks the claim.** The edge `A` (two lanes, length 100,
ending at node `n2`) is closed with a single split at position 100 that keeps
lane 0.  The split is skipped as lying beyond the edge, no node and no edge is
created, but the block "patch lane offsets" still walks the list of splits: it
steps from `A` to the first edge leaving `n2`, the unrelated edge `B`, and
moves the geometry of `B` sideways by one lane width. -/
theorem myEndElement_skipped_split_moves_other_edge :
    Sample.openAWithEndSplit.mySplits.map (fun s => (s.pos, s.lanes)) = [(100, [0])] ∧
    (myEndElement Sample.env Sample.openAWithEndSplit).2 = [SplitStep.beyond] ∧
    (myEndElement Sample.env Sample.openAWithEndSplit).1.myNodeCont = Sample.nodes ∧
    (myEndElement Sample.env Sample.openAWithEndSplit).1.myEdgeCont.map (fun e => e.id)
      = ["A", "B"] ∧
    (Sample.openAWithEndSplit.myEdgeCont.retrieve "B").map (fun e => e.getGeometry.side)
      = some 0 ∧
    ((myEndElement Sample.env Sample.openAWithEndSplit).1.myEdgeCont.retrieve "B").map
      (fun e => e.getGeometry.side) = some (33 / 10) := by
  refine ⟨by decide!, by decide!, by decide!, by decide!, by decide!, by decide!⟩

theorem NBEdgeCont.map_id_update (ec : NBEdgeCont) (id : String) (f : NBEdge → NBEdge)
    (hf : ∀ e, (f e).id = e.id) :
    (ec.update id f).map (fun e => e.id) = ec.map (fun e => e.id) := by
  unfold NBEdgeCont.update
  rw [List.map_map]
  apply List.map_congr_left
  intro e _
  simp only [Function.comp]
  split_ifs <;> simp [hf]

theorem NBEdgeCont.retrieve_update (ec : NBEdgeCont) (id : String) (f : NBEdge → NBEdge)
    (hf : ∀ e, (f e).id = e.id) (e : NBEdge) (h : ec.retrieve id = some e) :
    (ec.update id f).retrieve id = some (f e) := by
  unfold NBEdgeCont.retrieve NBEdgeCont.update at *
  induction ec with
  | nil => simp at h
  | cons a l ih =>
    simp only [List.map_cons, List.find?_cons] at h ⊢
    by_cases ha : (a.id == id) = true
    · simp only [ha, Option.some.injEq] at h
      subst h
      have hfa : ((f a).id == id) = true := by rw [hf]; exact ha
      simp only [ha, if_true, hfa]
    · have ha' : (a.id == id) = false := by simpa using ha
      simp only [ha'] at h
      simp only [ha', Bool.false_eq_true, if_false]
      exact ih h

/-- **C8.** A split at position 0, processed by the split loop while the
pointer `e` addresses a registered edge, inserts no node, invokes no edge split
and introduces no edge identifier: the step is a resize, the node registry and
the identifiers of the edge registry are unchanged, the current edge and `seen`
stay.  The lane count of the current edge becomes the size of the split's lane
subset (the edge grows when it had fewer lanes and shrinks otherwise), and that
subset becomes the current lane set. -/
theorem splitStep_at_zero (env : Env) (myCurrentID edgeid : String) (noLanesMax : Nat)
    (st : SplitState) (exp : Split) (e : NBEdge)
    (hreg : st.edgeCont.retrieve st.e = some e) (hpos : exp.pos = 0) :
    (splitStep env myCurrentID edgeid noLanesMax st exp).2 = .resized ∧
    (splitStep env myCurrentID edgeid noLanesMax st exp).1.nodeCont = st.nodeCont ∧
    (splitStep env myCurrentID edgeid noLanesMax st exp).1.edgeCont.map (fun x => x.id)
      = st.edgeCont.map (fun x => x.id) ∧
    (splitStep env myCurrentID edgeid noLanesMax st exp).1.e = st.e ∧
    (splitStep env myCurrentID edgeid noLanesMax st exp).1.seen = st.seen ∧
    (splitStep env myCurrentID edgeid noLanesMax st exp).1.currLanes = exp.lanes ∧
    (∃ e', (splitStep env myCurrentID edgeid noLanesMax st exp).1.edgeCont.retrieve st.e
        = some e' ∧
      e'.getNumLanes = exp.lanes.length ∧
      (e.getNumLanes < exp.lanes.length →
        e' = e.incLaneNo env (exp.lanes.length - e.getNumLanes)) ∧
      (exp.lanes.length ≤ e.getNumLanes →
        e' = e.decLaneNo (e.getNumLanes - exp.lanes.length))) := by
  have heid := NBEdgeCont.retrieve_id _ _ _ hreg
  have hstep : splitStep env myCurrentID edgeid noLanesMax st exp =
      ({ st with
          edgeCont :=
            if e.getNumLanes < exp.lanes.length then
              st.edgeCont.update e.id
                (fun e => e.incLaneNo env (exp.lanes.length - e.getNumLanes))
            else
              st.edgeCont.update e.id (fun e => e.decLaneNo (e.getNumLanes - exp.lanes.length)),
          currLanes := exp.lanes }, .resized) := by
    unfold splitStep
    simp only [hreg, hpos, lt_self_iff_false, false_and, if_false, if_true]
  rw [hstep]
  refine ⟨rfl, rfl, ?_, rfl, rfl, rfl, ?_⟩
  · simp only
    split_ifs
    · exact NBEdgeCont.map_id_update _ _ _ (fun _ => rfl)
    · exact NBEdgeCont.map_id_update _ _ _ (fun _ => rfl)
  · by_cases hlt : e.getNumLanes < exp.lanes.length
    · simp only [hlt, if_true, heid]
      refine ⟨_, NBEdgeCont.retrieve_update _ _
        (fun e => e.incLaneNo env (exp.lanes.length - e.getNumLanes)) (fun _ => rfl) e hreg,
        ?_, fun _ => rfl, ?_⟩
      · simp only [NBEdge.getNumLanes, NBEdge.incLaneNo, List.length_append,
          List.length_replicate] at hlt ⊢
        omega
      · intro hle; omega
    · simp only [hlt, if_false, heid]
      refine ⟨_, NBEdgeCont.retrieve_update _ _
        (fun e => e.decLaneNo (e.getNumLanes - exp.lanes.length)) (fun _ => rfl) e hreg,
        ?_, ?_, fun _ => rfl⟩
      · simp only [NBEdge.getNumLanes, NBEdge.decLaneNo, List.length_take] at hlt ⊢
        omega
      · intro h'; exact h'.elim

theorem splitStep_at_zero_witness :
    (splitStep Sample.env "A" "A" 2 Sample.loopStart ⟨[0], 0, 0, ⟨0, 0⟩⟩).2 = .resized ∧
    (splitStep Sample.env "A" "A" 2 Sample.loopStart ⟨[0], 0, 0, ⟨0, 0⟩⟩).1.nodeCont
      = Sample.loopStart.nodeCont ∧
    (splitStep Sample.env "A" "A" 2 Sample.loopStart ⟨[0], 0, 0, ⟨0, 0⟩⟩).1.edgeCont.map
      (fun x => x.id) = Sample.loopStart.edgeCont.map (fun x => x.id) ∧
    (splitStep Sample.env "A" "A" 2 Sample.loopStart ⟨[0], 0, 0, ⟨0, 0⟩⟩).1.e
      = Sample.loopStart.e ∧
    (splitStep Sample.env "A" "A" 2 Sample.loopStart ⟨[0], 0, 0, ⟨0, 0⟩⟩).1.seen
      = Sample.loopStart.seen ∧
    (splitStep Sample.env "A" "A" 2 Sample.loopStart ⟨[0], 0, 0, ⟨0, 0⟩⟩).1.currLanes = [0] ∧
    (∃ e', (splitStep Sample.env "A" "A" 2 Sample.loopStart ⟨[0], 0, 0, ⟨0, 0⟩⟩).1.edgeCont.retrieve
        Sample.loopStart.e = some e' ∧
      e'.getNumLanes = [(0 : Int)].length ∧
      (Sample.edgeA.getNumLanes < [(0 : Int)].length →
        e' = Sample.edgeA.incLaneNo Sample.env ([(0 : Int)].length - Sample.edgeA.getNumLanes)) ∧
      ([(0 : Int)].length ≤ Sample.edgeA.getNumLanes →
        e' = Sample.edgeA.decLaneNo (Sample.edgeA.getNumLanes - [(0 : Int)].length))) :=
  splitStep_at_zero Sample.env "A" "A" 2 Sample.loopStart ⟨[0], 0, 0, ⟨0, 0⟩⟩ Sample.edgeA
    (by decide!) rfl

/-! ## `addLane` -/

theorem Handler.currentEdge_modifyCurrent (h : Handler) (f : NBEdge → NBEdge) (e : NBEdge)
    (hf : ∀ x, (f x).id = x.id) (hcur : h.currentEdge = some e) :
    (h.modifyCurrent f).currentEdge = some (f e) := by
  unfold Handler.currentEdge Handler.modifyCurrent at *
  cases hc : h.myCurrentEdge with
  | none => simp [hc] at hcur
  | some r =>
    cases r with
    | pending e0 =>
      simp only [hc, Option.some.injEq] at hcur
      simp [hcur]
    | registered id =>
      simp only [hc] at hcur
      simp only [hc]
      exact NBEdgeCont.retrieve_update _ _ _ hf e hcur

theorem NBEdge.modifyLane_id (e : NBEdge) (lane : Int) (f : Lane → Lane) :
    (e.modifyLane lane f).id = e.id := by
  unfold NBEdge.modifyLane
  split_ifs <;> rfl

theorem NBEdge.modifyLane_lanes (e : NBEdge) (lane : Int) (f : Lane → Lane) (h0 : 0 ≤ lane) :
    (e.modifyLane lane f).lanes = e.lanes.modify f lane.toNat := by
  unfold NBEdge.modifyLane
  rw [if_neg (not_lt.mpr h0)]

theorem filter_range_of_sorted (n : Nat) (l : List Nat) (hs : l.Pairwise (· < ·))
    (hr : ∀ x ∈ l, x < n) : (List.range n).filter (fun x => decide (x ∈ l)) = l := by
  have hs1 : ((List.range n).filter (fun x => decide (x ∈ l))).Sorted (· < ·) :=
    List.Pairwise.filter _ (List.pairwise_lt_range n)
  have hnd1 : ((List.range n).filter (fun x => decide (x ∈ l))).Nodup :=
    hs1.imp (fun h => Nat.ne_of_lt h)
  have hnd2 : l.Nodup := hs.imp (fun h => Nat.ne_of_lt h)
  refine List.eq_of_perm_of_sorted ((List.perm_ext_iff_of_nodup hnd1 hnd2).mpr ?_) hs1 hs
  intro a
  simp only [List.mem_filter, List.mem_range, decide_eq_true_eq]
  exact ⟨fun h => h.2, fun h => ⟨hr a h, h⟩⟩

theorem toUnsigned_of_range (c : Int) (h0 : 0 ≤ c) (h1 : c < 4294967296) :
    toUnsigned c = c.toNat := by
  unfold toUnsigned
  rw [Int.emod_eq_of_lt h0 h1]

theorem usub_of_le (a b : Nat) (hab : b ≤ a) (ha : a < 4294967296) : usub a b = a - b := by
  unfold usub
  have hb : b % 4294967296 = b := Nat.mod_eq_of_lt (by omega)
  rw [hb]
  omega

theorem toSigned_sub_self (a : Nat) : (toSigned a - toSigned a).toNat = 0 := by simp

theorem connections_foldl_addLane (ne : String) (keep : Nat → Bool) (f g : Nat → Nat)
    (l : List Nat) (pe : NBEdge) :
    (l.foldl (fun pe x => if keep x then pe.addLane2LaneConnection (f x) ne (g x) else pe)
      pe).connections
      = pe.connections ++ (l.filter keep).map (fun x => ⟨f x, ne, g x⟩) := by
  induction l generalizing pe with
  | nil => simp
  | cons a l ih =>
    simp only [List.foldl_cons]
    rw [ih]
    by_cases ha : keep a = true
    · simp [ha, NBEdge.addLane2LaneConnection, List.filter_cons]
    · have ha' : keep a = false := by simpa using ha
      simp [ha', List.filter_cons]

/-- The connections of `reconnect` when the predecessor and the successor keep
the same lanes, a strictly ascending list of indices below `noLanesMax`. -/
theorem reconnect_same_lanes (pe : NBEdge) (ne : String) (lanes : List Int) (noLanesMax : Nat)
    (hsorted : lanes.Pairwise (· < ·)) (hrange : ∀ l ∈ lanes, 0 ≤ l ∧ l < (noLanesMax : Int))
    (hn : noLanesMax ≤ 4294967296) :
    (reconnect pe ne lanes lanes noLanesMax).connections
      = lanes.map (fun l =>
          ⟨(l - lanes.headD 0).toNat, ne, (l - lanes.headD 0).toNat⟩) := by
  have hU : ∀ c ∈ lanes, toUnsigned c = c.toNat := fun c hc =>
    toUnsigned_of_range c (hrange c hc).1 (by have := (hrange c hc).2; omega)
  have hhead : ∀ c ∈ lanes, lanes.headD 0 ≤ c ∧ 0 ≤ lanes.headD 0 ∧
      toUnsigned (lanes.headD 0) = (lanes.headD 0).toNat := by
    intro c hc
    cases lanes with
    | nil => simp at hc
    | cons a t =>
      simp only [List.headD_cons]
      refine ⟨?_, (hrange a (List.mem_cons_self _ _)).1, hU a (List.mem_cons_self _ _)⟩
      rcases List.mem_cons.mp hc with h | h
      · exact le_of_eq h.symm
      · exact le_of_lt ((List.pairwise_cons.mp hsorted).1 c h)
  have hany : ∀ x : Nat, lanes.any (fun c => toUnsigned c == x)
      = decide (x ∈ lanes.map Int.toNat) := by
    intro x
    rw [Bool.eq_iff_iff]
    simp only [List.any_eq_true, beq_iff_eq, decide_eq_true_eq, List.mem_map]
    constructor
    · rintro ⟨c, hc, hx⟩
      exact ⟨c, hc, by rw [← hU c hc]; exact hx⟩
    · rintro ⟨c, hc, hx⟩
      exact ⟨c, hc, by rw [hU c hc]; exact hx⟩
  have hloop : (fun (pe : NBEdge) (l : Nat) =>
      if !(lanes.any (fun c => toUnsigned c == l)) then pe
      else if !(lanes.any (fun c => toUnsigned c == l)) then pe
      else pe.addLane2LaneConnection (usub l (toUnsigned (lanes.headD 0))) ne
        (usub l (toUnsigned (lanes.headD 0))))
      = (fun pe l => if decide (l ∈ lanes.map Int.toNat) then
          pe.addLane2LaneConnection (usub l (toUnsigned (lanes.headD 0))) ne
            (usub l (toUnsigned (lanes.headD 0))) else pe) := by
    funext pe l
    rw [hany l]
    cases decide (l ∈ lanes.map Int.toNat) <;> simp
  have hsortedNat : (lanes.map Int.toNat).Pairwise (· < ·) := by
    rw [List.pairwise_map]
    refine hsorted.imp_of_mem ?_
    intro a b ha hb hab
    have := (hrange a ha).1
    have := (hrange b hb).1
    omega
  have hrangeNat : ∀ x ∈ lanes.map Int.toNat, x < noLanesMax := by
    intro x hx
    obtain ⟨c, hc, rfl⟩ := List.mem_map.mp hx
    have := hrange c hc
    omega
  unfold reconnect
  simp only [toSigned_sub_self, List.range_zero, List.foldl_nil, hloop]
  rw [connections_foldl_addLane, filter_range_of_sorted _ _ hsortedNat hrangeNat]
  simp only [NBEdge.invalidateConnections, List.nil_append, List.map_map]
  apply List.map_congr_left
  intro c hc
  obtain ⟨h1, h2, h3⟩ := hhead c hc
  have hc0 := hrange c hc
  have hsub : usub c.toNat (toUnsigned (lanes.headD 0)) = (c - lanes.headD 0).toNat := by
    rw [h3, usub_of_le _ _ (by omega) (by omega)]
    omega
  simp only [Function.comp, hsub]

theorem NBEdgeCont.retrieve_splitAt_first (env : Env) (ec : NBEdgeCont) (e : NBEdge)
    (pos : SUMOReal) (node : NBNode) (pid nid : String) (n1 n2 : Nat) :
    (NBEdgeCont.splitAt env ec e pos node pid nid n1 n2).retrieve pid
      = some (NBEdgeCont.splitHalf env e pid e.myFrom node
          (e.geom.splitAt pos node.position).1 n1) := by
  have hnone : (((ec.erase e.id).erase pid).erase nid).find? (fun x => x.id == pid) = none := by
    rw [List.find?_eq_none]
    intro x hx
    simp only [NBEdgeCont.erase, List.mem_filter, bne_iff_ne, ne_eq] at hx
    simpa using hx.1.2
  simp only [NBEdgeCont.splitAt, NBEdgeCont.retrieve, List.find?_append, hnone, Option.none_or]
  simp [NBEdgeCont.splitHalf, List.find?_cons]

theorem foldl_id_preserved {β : Type} (F : NBEdge → β → NBEdge)
    (hF : ∀ pe x, (F pe x).id = pe.id) (l : List β) (pe : NBEdge) :
    (l.foldl F pe).id = pe.id := by
  induction l generalizing pe with
  | nil => rfl
  | cons a l ih => rw [List.foldl_cons, ih, hF]

theorem reconnect_id (pe : NBEdge) (ne : String) (currLanes newLanes : List Int) (n : Nat) :
    (reconnect pe ne currLanes newLanes n).id = pe.id := by
  unfold reconnect
  simp only
  rw [foldl_id_preserved, foldl_id_preserved, foldl_id_preserved]
  · rfl
  · intro pe x; rfl
  · intro pe x; rfl
  · intro pe x
    split_ifs <;> rfl

/-- What an applied step of the split loop returns: the connections are those
`reconnect` gives the predecessor half. -/
theorem splitStep_applied (env : Env) (myCurrentID edgeid : String) (noLanesMax : Nat)
    (st st' : SplitState) (exp : Split) (call : SplitAtCall) (conns : List Connection)
    (hstep : splitStep env myCurrentID edgeid noLanesMax st exp = (st', .applied call conns)) :
    ∃ e, st.edgeCont.retrieve st.e = some e ∧
      (exp.pos > 0 ∧ e.getGeometry.length + st.seen > exp.pos ∧ exp.pos > st.seen) ∧
      call = ⟨e.id, exp.pos - st.seen, ⟨edgeid ++ "." ++ toString exp.nameid, exp.gpos⟩, e.id,
        myCurrentID ++ "." ++ toString exp.nameid, e.getNumLanes,
        exp.lanes.length % 4294967296⟩ ∧
      conns = (reconnect (NBEdgeCont.splitHalf env e e.id e.myFrom call.node
          (e.geom.splitAt call.pos call.node.position).1 e.getNumLanes)
        call.secondEdgeName st.currLanes exp.lanes noLanesMax).connections ∧
      st'.currLanes = exp.lanes ∧ st'.seen = exp.pos ∧ st'.e = call.secondEdgeName := by
  unfold splitStep at hstep
  cases hr : st.edgeCont.retrieve st.e with
  | none => simp [hr] at hstep
  | some e =>
    simp only [hr] at hstep
    refine ⟨e, rfl, ?_⟩
    split_ifs at hstep with hc h0
    · refine ⟨hc, ?_⟩
      split at hstep
      · simp only [Prod.mk.injEq, SplitStep.applied.injEq] at hstep
        obtain ⟨hst, hcall, hconns⟩ := hstep
        subst hcall
        refine ⟨rfl, ?_, ?_, ?_, ?_⟩
        · rw [← hconns]
          rw [NBEdgeCont.retrieve_update _ e.id
            (fun pe => reconnect pe (myCurrentID ++ "." ++ toString exp.nameid) st.currLanes
              exp.lanes noLanesMax)
            (fun _ => reconnect_id _ _ _ _ _) _
            (NBEdgeCont.retrieve_splitAt_first _ _ _ _ _ _ _ _ _)]
          rfl
        · rw [← hst]
        · rw [← hst]
        · rw [← hst]
      · simp at hstep
    all_goals simp at hstep

/-- **C7, as stated, fails.** The edge `A` (two lanes) is closed with splits at
30 and 70 that both keep the single lane index 5.  The second split is applied
with identical predecessor and successor lane subsets `[5]`, and no connection
at all is added: the loop that connects continuing lanes runs over the indices
below `noLanesMax = 2` only. -/
theorem myEndElement_identical_lanes_no_connection :
    Sample.openAWithLane5Splits.mySplits.map (fun s => (s.pos, s.lanes)) = [(30, [5]), (70, [5])] ∧
    (myEndElement Sample.env Sample.openAWithLane5Splits).2[1]? = some (.applied
      ⟨"A.30", 40, ⟨"A.70", ⟨70, 0⟩⟩, "A.30", "A.70", 1, 1⟩ []) ∧
    ((myEndElement Sample.env Sample.openAWithLane5Splits).1.myEdgeCont.retrieve "A.30").map
      (fun e => e.connections) = some [] := by
  refine ⟨by decide!, by decide!, by decide!⟩

/-- **C7, amended.** For an applied split whose predecessor lane subset and
successor lane subset are identical, sorted with distinct indices, all of them
non-negative and below `noLanesMax`, the connections added from the predecessor
to the successor are exactly the straight ones `(l - r, l - r)` for the lanes `l`
of the subset, `r` being its smallest index, in ascending order and nothing
else; for the full range `0..m-1` this is the identity on `0..m-1`. -/
theorem splitStep_identical_lanes (env : Env) (myCurrentID edgeid : String) (noLanesMax : Nat)
    (st st' : SplitState) (exp : Split) (call : SplitAtCall) (conns : List Connection)
    (hstep : splitStep env myCurrentID edgeid noLanesMax st exp = (st', .applied call conns))
    (hsame : st.currLanes = exp.lanes) (hsorted : exp.lanes.Pairwise (· < ·))
    (hrange : ∀ l ∈ exp.lanes, 0 ≤ l ∧ l < (noLanesMax : Int))
    (hn : noLanesMax ≤ 4294967296) :
    conns = exp.lanes.map (fun l =>
      ⟨(l - exp.lanes.headD 0).toNat, call.secondEdgeName, (l - exp.lanes.headD 0).toNat⟩) ∧
    (∀ m : Nat, exp.lanes = (List.range m).map Int.ofNat →
      conns = (List.range m).map (fun l => ⟨l, call.secondEdgeName, l⟩)) := by
  obtain ⟨e, -, -, -, hconns, -⟩ := splitStep_applied _ _ _ _ _ _ _ _ _ hstep
  rw [hsame] at hconns
  have hmain := hconns.trans (reconnect_same_lanes _ _ _ _ hsorted hrange hn)
  refine ⟨hmain, ?_⟩
  intro m hm
  have hhead : exp.lanes.headD 0 = 0 := by
    rw [hm]
    cases m <;> simp [List.range_succ_eq_map]
  rw [hmain]
  simp only [hhead, sub_zero]
  rw [hm, List.map_map]
  apply List.map_congr_left
  intro l _
  simp

theorem splitStep_identical_lanes_witness :
    ([⟨0, "A.30", 0⟩, ⟨1, "A.30", 1⟩] : List Connection)
      = ([0, 1] : List Int).map (fun l =>
          ⟨(l - ([0, 1] : List Int).headD 0).toNat, "A.30",
            (l - ([0, 1] : List Int).headD 0).toNat⟩) ∧
    (∀ m : Nat, ([0, 1] : List Int) = (List.range m).map Int.ofNat →
      ([⟨0, "A.30", 0⟩, ⟨1, "A.30", 1⟩] : List Connection)
        = (List.range m).map (fun l => ⟨l, "A.30", l⟩)) :=
  splitStep_identical_lanes Sample.env "A" "A" 2 Sample.loopStart
    (splitStep Sample.env "A" "A" 2 Sample.loopStart ⟨[0, 1], 30, 30, ⟨30, 0⟩⟩).1
    ⟨[0, 1], 30, 30, ⟨30, 0⟩⟩
    ⟨"A", 30, ⟨"A.30", ⟨30, 0⟩⟩, "A", "A.30", 2, 2⟩
    [⟨0, "A.30", 0⟩, ⟨1, "A.30", 1⟩]
    (Prod.ext rfl (by decide!)) (by decide!) (by decide) (by decide) (by decide)

/-! ## The chain produced by the split loop -/

theorem NBEdgeCont.retrieve_update_ne (ec : NBEdgeCont) (x id : String) (f : NBEdge → NBEdge)
    (hf : ∀ e, (f e).id = e.id) (hne : id ≠ x) :
    (ec.update x f).retrieve id = ec.retrieve id := by
  unfold NBEdgeCont.retrieve NBEdgeCont.update
  induction ec with
  | nil => rfl
  | cons a l ih =>
    simp only [List.map_cons, List.find?_cons]
    by_cases ha : (a.id == x) = true
    · have hax : a.id = x := by simpa using ha
      have h1 : ((f a).id == id) = false := by
        rw [hf, hax]; simpa using fun h => hne h.symm
      have h2 : (a.id == id) = false := by
        rw [hax]; simpa using fun h => hne h.symm
      simp only [ha, if_true, h1, h2]
      exact ih
    · have ha' : (a.id == x) = false := by simpa using ha
      simp only [ha', Bool.false_eq_true, if_false]
      cases a.id == id
      · exact ih
      · rfl

theorem NBEdgeCont.retrieve_erase_ne (ec : NBEdgeCont) (x id : String) (hne : id ≠ x) :
    (ec.erase x).retrieve id = ec.retrieve id := by
  unfold NBEdgeCont.retrieve NBEdgeCont.erase
  induction ec with
  | nil => rfl
  | cons a l ih =>
    by_cases ha : a.id = x
    · have h1 : (a.id != x) = false := by simpa using ha
      have h2 : (a.id == id) = false := by
        rw [ha]; simpa using fun h => hne h.symm
      simp only [List.filter_cons, h1, Bool.false_eq_true, if_false, List.find?_cons, h2]
      exact ih
    · have h1 : (a.id != x) = true := by simpa using ha
      simp only [List.filter_cons, h1, if_true, List.find?_cons]
      cases a.id == id
      · exact ih
      · rfl

theorem NBEdgeCont.retrieve_splitAt_second (env : Env) (ec : NBEdgeCont) (e : NBEdge)
    (pos : SUMOReal) (node : NBNode) (pid nid : String) (n1 n2 : Nat) (hne : pid ≠ nid) :
    (NBEdgeCont.splitAt env ec e pos node pid nid n1 n2).retrieve nid
      = some (NBEdgeCont.splitHalf env e nid node e.myTo
          (e.geom.splitAt pos node.position).2 n2) := by
  have hnone : (((ec.erase e.id).erase pid).erase nid).find? (fun x => x.id == nid) = none := by
    rw [List.find?_eq_none]
    intro x hx
    simp only [NBEdgeCont.erase, List.mem_filter, bne_iff_ne, ne_eq] at hx
    simpa using hx.2
  have h1 : (pid == nid) = false := by simpa using hne
  simp only [NBEdgeCont.splitAt, NBEdgeCont.retrieve, List.find?_append, hnone, Option.none_or]
  simp [NBEdgeCont.splitHalf, List.find?_cons, h1]

theorem NBEdgeCont.retrieve_splitAt_other (env : Env) (ec : NBEdgeCont) (e : NBEdge)
    (pos : SUMOReal) (node : NBNode) (pid nid : String) (n1 n2 : Nat) (id : String)
    (h0 : id ≠ e.id) (h1 : id ≠ pid) (h2 : id ≠ nid) :
    (NBEdgeCont.splitAt env ec e pos node pid nid n1 n2).retrieve id = ec.retrieve id := by
  have hp : (pid == id) = false := by simpa using fun h => h1 h.symm
  have hn : (nid == id) = false := by simpa using fun h => h2 h.symm
  have hmain : (((ec.erase e.id).erase pid).erase nid).retrieve id = ec.retrieve id := by
    rw [NBEdgeCont.retrieve_erase_ne _ _ _ h2, NBEdgeCont.retrieve_erase_ne _ _ _ h1,
      NBEdgeCont.retrieve_erase_ne _ _ _ h0]
  unfold NBEdgeCont.retrieve at hmain ⊢
  simp only [NBEdgeCont.splitAt, List.find?_append, hmain]
  simp [NBEdgeCont.splitHalf, List.find?_cons, hp, hn]

theorem NBEdgeCont.map_id_splitAt (env : Env) (ec : NBEdgeCont) (e : NBEdge)
    (pos : SUMOReal) (node : NBNode) (nid : String) (n1 n2 : Nat) :
    (NBEdgeCont.splitAt env ec e pos node e.id nid n1 n2).map (fun x => x.id)
      = (ec.map (fun x => x.id)).filter (fun i => decide (i ∉ [e.id, nid])) ++ [e.id, nid] := by
  simp only [NBEdgeCont.splitAt, NBEdgeCont.erase, List.filter_filter, List.map_append,
    List.map_cons, List.map_nil, NBEdgeCont.splitHalf, List.append_assoc, List.singleton_append]
  congr 1
  rw [List.filter_map]
  congr 1
  apply List.filter_congr
  intro x _
  simp only [Function.comp, List.mem_cons, List.mem_singleton, List.not_mem_nil, or_false,
    not_or, bne_iff_ne, ne_eq, Bool.and_eq_true, decide_eq_true_eq, Bool.decide_and,
    decide_not, Bool.and_self]
  by_cases h1 : x.id = e.id <;> by_cases h2 : x.id = nid <;> simp [h1, h2]

theorem foldl_proj_preserved {β γ : Type} (proj : NBEdge → γ) (F : NBEdge → β → NBEdge)
    (hF : ∀ pe x, proj (F pe x) = proj pe) (l : List β) (pe : NBEdge) :
    proj (l.foldl F pe) = proj pe := by
  induction l generalizing pe with
  | nil => rfl
  | cons a l ih => rw [List.foldl_cons, ih, hF]

theorem reconnect_summary (pe : NBEdge) (ne : String) (currLanes newLanes : List Int) (n : Nat) :
    (reconnect pe ne currLanes newLanes n).summary = pe.summary := by
  unfold reconnect
  simp only
  rw [foldl_proj_preserved NBEdge.summary, foldl_proj_preserved NBEdge.summary,
    foldl_proj_preserved NBEdge.summary]
  · rfl
  · intro pe x; rfl
  · intro pe x; rfl
  · intro pe x
    split_ifs <;> rfl

theorem splitLoop_cons (env : Env) (myCurrentID edgeid : String) (n : Nat) (st : SplitState)
    (sp : Split) (rest : List Split) :
    splitLoop env myCurrentID edgeid n st (sp :: rest)
      = ((splitLoop env myCurrentID edgeid n
            (splitStep env myCurrentID edgeid n st sp).1 rest).1,
         (splitStep env myCurrentID edgeid n st sp).2 ::
           (splitLoop env myCurrentID edgeid n
            (splitStep env myCurrentID edgeid n st sp).1 rest).2) := rfl

theorem NBNodeCont.retrieve_append_ne (nc : NBNodeCont) (n : NBNode) (id : String)
    (h : nc.retrieve id = none) (hne : n.id ≠ id) : (nc ++ [n]).retrieve id = none := by
  unfold NBNodeCont.retrieve at h ⊢
  have h1 : (n.id == id) = false := by simpa using hne
  simp [List.find?_append, h, List.find?_cons, h1]

theorem String.ne_append_dot (I s : String) : I ≠ I ++ "." ++ s := by
  intro h
  have := congrArg String.length h
  simp only [String.length_append] at this
  have h1 : ".".length = 1 := rfl
  omega

/-- An iteration of the split loop for a split strictly inside the remaining
length whose boundary node is new: the edge is split. -/
theorem splitStep_apply (env : Env) (I : String) (n : Nat) (st : SplitState) (exp : Split)
    (e : NBEdge) (hreg : st.edgeCont.retrieve st.e = some e)
    (hc : exp.pos > 0 ∧ e.getGeometry.length + st.seen > exp.pos ∧ exp.pos > st.seen)
    (hnode : st.nodeCont.retrieve (Spec.splitId I exp) = none) :
    ∃ conns, splitStep env I I n st exp =
      ({ nodeCont := st.nodeCont ++ [⟨Spec.splitId I exp, exp.gpos⟩],
         edgeCont := (NBEdgeCont.splitAt env st.edgeCont e (exp.pos - st.seen)
            ⟨Spec.splitId I exp, exp.gpos⟩ e.id (Spec.splitId I exp) e.getNumLanes
            (exp.lanes.length % 4294967296)).update e.id
              (fun pe => reconnect pe (Spec.splitId I exp) st.currLanes exp.lanes n),
         e := Spec.splitId I exp, currLanes := exp.lanes, seen := exp.pos },
       .applied ⟨e.id, exp.pos - st.seen, ⟨Spec.splitId I exp, exp.gpos⟩, e.id,
         Spec.splitId I exp, e.getNumLanes, exp.lanes.length % 4294967296⟩ conns) := by
  have hins : st.nodeCont.insert ⟨Spec.splitId I exp, exp.gpos⟩
      = (st.nodeCont ++ [⟨Spec.splitId I exp, exp.gpos⟩], true) := by
    simp [NBNodeCont.insert, hnode]
  unfold splitStep
  simp only [hreg, hc, and_self, if_true]
  unfold Spec.splitId at hins ⊢
  rw [hins]
  exact ⟨_, rfl⟩

/-- The split loop over ascending splits strictly inside the remaining length
of the current edge, all boundary nodes being new: the calls of the split
primitive, the chain of edges in the resulting registry, the edges the loop
leaves alone and the identifiers of the resulting registry. -/
theorem splitLoop_chain (env : Env) (I : String) (n : Nat) (L : SUMOReal) (toId : String) :
    ∀ (sps : List Split) (st : SplitState) (e : NBEdge),
      st.edgeCont.retrieve st.e = some e →
      e.getGeometry.length + st.seen = L → e.myTo.id = toId →
      sps.Pairwise (fun a b => a.pos < b.pos) →
      (∀ sp ∈ sps, 0 < sp.pos ∧ st.seen < sp.pos ∧ sp.pos < L) →
      (sps.map (Spec.splitId I)).Nodup →
      (∀ sp ∈ sps, st.nodeCont.retrieve (Spec.splitId I sp) = none) →
      st.e ∉ sps.map (Spec.splitId I) →
      (splitLoop env I I n st sps).2.map SplitStep.call?
        = (Spec.expectedCalls I st.e st.seen sps).map some ∧
      (Spec.expectedChain I L toId st.e st.seen e.myFrom.id sps).map
          (fun x => ((splitLoop env I I n st sps).1.edgeCont.retrieve x.1).map NBEdge.summary)
        = (Spec.expectedChain I L toId st.e st.seen e.myFrom.id sps).map some ∧
      (∀ id, id ≠ st.e → id ∉ sps.map (Spec.splitId I) →
        (splitLoop env I I n st sps).1.edgeCont.retrieve id = st.edgeCont.retrieve id) ∧
      (splitLoop env I I n st sps).1.edgeCont.map (fun x => x.id)
        = (st.edgeCont.map (fun x => x.id)).filter
            (fun i => decide (i ∉ Spec.touchedIds I st.e sps)) ++ Spec.touchedIds I st.e sps := by
  intro sps
  induction sps with
  | nil =>
    intro st e hreg hlen hto _ _ _ _ _
    have heid := NBEdgeCont.retrieve_id _ _ _ hreg
    refine ⟨rfl, ?_, fun _ _ _ => rfl, ?_⟩
    · simp only [splitLoop, Spec.expectedChain, List.map_cons, List.map_nil, hreg,
        Option.map_some', NBEdge.summary, heid, hto]
      rw [← hlen]
      simp
    · simp [splitLoop, Spec.touchedIds]
  | cons sp rest ih =>
    intro st e hreg hlen hto hsorted hrange hnodup hnodes hcur
    have heid := NBEdgeCont.retrieve_id _ _ _ hreg
    obtain ⟨hsp, hrest⟩ := List.pairwise_cons.mp hsorted
    obtain ⟨h0, hseen, hL⟩ := hrange sp (List.mem_cons_self _ _)
    simp only [List.map_cons, List.nodup_cons] at hnodup
    obtain ⟨hnid, hnodup'⟩ := hnodup
    simp only [List.map_cons, List.mem_cons, not_or] at hcur
    obtain ⟨hne, hcur'⟩ := hcur
    have hc : sp.pos > 0 ∧ e.getGeometry.length + st.seen > sp.pos ∧ sp.pos > st.seen :=
      ⟨h0, by rw [hlen]; exact hL, hseen⟩
    obtain ⟨conns, hstep⟩ :=
      splitStep_apply env I n st sp e hreg hc (hnodes sp (List.mem_cons_self _ _))
    -- the state after the first split
    have hsplit2 := NBEdgeCont.retrieve_splitAt_second env st.edgeCont e (sp.pos - st.seen)
      ⟨Spec.splitId I sp, sp.gpos⟩ e.id (Spec.splitId I sp) e.getNumLanes
      (sp.lanes.length % 4294967296) (by rw [heid]; exact hne)
    have hsplit1 := NBEdgeCont.retrieve_splitAt_first env st.edgeCont e (sp.pos - st.seen)
      ⟨Spec.splitId I sp, sp.gpos⟩ e.id (Spec.splitId I sp) e.getNumLanes
      (sp.lanes.length % 4294967296)
    have hrec : ∀ x, (reconnect x (Spec.splitId I sp) st.currLanes sp.lanes n).id = x.id :=
      fun _ => reconnect_id _ _ _ _ _
    have hreg1 := (NBEdgeCont.retrieve_update_ne _ e.id (Spec.splitId I sp) _ hrec
      (by rw [heid]; exact fun h => hne h.symm)).trans hsplit2
    have hpred := NBEdgeCont.retrieve_update _ e.id _ hrec _ hsplit1
    have ih' := ih
      { nodeCont := st.nodeCont ++ [⟨Spec.splitId I sp, sp.gpos⟩],
        edgeCont := (NBEdgeCont.splitAt env st.edgeCont e (sp.pos - st.seen)
            ⟨Spec.splitId I sp, sp.gpos⟩ e.id (Spec.splitId I sp) e.getNumLanes
            (sp.lanes.length % 4294967296)).update e.id
              (fun pe => reconnect pe (Spec.splitId I sp) st.currLanes sp.lanes n),
        e := Spec.splitId I sp, currLanes := sp.lanes, seen := sp.pos }
      _ hreg1
      (by
        simp only [NBEdgeCont.splitHalf, NBEdge.getGeometry, PositionVector.length,
          PositionVector.splitAt]
        simp only [NBEdge.getGeometry, PositionVector.length] at hlen
        rw [← hlen]; ring)
      (by simpa [NBEdgeCont.splitHalf] using hto)
      hrest
      (fun sp' hsp' => ⟨(hrange sp' (List.mem_cons_of_mem _ hsp')).1, hsp sp' hsp',
        (hrange sp' (List.mem_cons_of_mem _ hsp')).2.2⟩)
      hnodup'
      (fun sp' hsp' => NBNodeCont.retrieve_append_ne _ _ _
        (hnodes sp' (List.mem_cons_of_mem _ hsp'))
        (fun h => hnid (by
          have h' : Spec.splitId I sp = Spec.splitId I sp' := h
          rw [h']; exact List.mem_map_of_mem _ hsp')))
      hnid
    obtain ⟨ih1, ih2, ih3, ih4⟩ := ih'
    rw [splitLoop_cons, hstep]
    simp only at ih1 ih2 ih3 ih4 ⊢
    refine ⟨?_, ?_, ?_, ?_⟩
    · simp only [List.map_cons, SplitStep.call?, Spec.expectedCalls]
      rw [ih1, heid]
    · simp only [Spec.expectedChain, List.map_cons]
      congr 1
      · rw [ih3 st.e hne hcur', ← heid, hpred]
        simp only [Option.map_some', reconnect_summary]
        simp [NBEdge.summary, NBEdgeCont.splitHalf, NBEdge.getGeometry, PositionVector.length,
          PositionVector.splitAt]
    · intro id hid1 hid2
      simp only [List.map_cons, List.mem_cons, not_or] at hid2
      rw [ih3 id hid2.1 hid2.2]
      rw [NBEdgeCont.retrieve_update_ne _ _ _ _ hrec (by rw [heid]; exact hid1)]
      exact NBEdgeCont.retrieve_splitAt_other _ _ _ _ _ _ _ _ _ _
        (by rw [heid]; exact hid1) (by rw [heid]; exact hid1) hid2.1
    · rw [ih4, NBEdgeCont.map_id_update _ _ _ hrec, NBEdgeCont.map_id_splitAt, heid]
      by_cases hr : rest = []
      · subst hr
        simp [Spec.touchedIds]
      · have ht1 : Spec.touchedIds I (Spec.splitId I sp) rest
            = Spec.splitId I sp :: rest.map (Spec.splitId I) := by
          simp [Spec.touchedIds, hr]
        have ht2 : Spec.touchedIds I st.e (sp :: rest)
            = st.e :: Spec.splitId I sp :: rest.map (Spec.splitId I) := by
          simp [Spec.touchedIds]
        have hf : [st.e, Spec.splitId I sp].filter
            (fun i => decide (i ∉ Spec.splitId I sp :: rest.map (Spec.splitId I))) = [st.e] := by
          have h1 : decide (st.e ∉ Spec.splitId I sp :: rest.map (Spec.splitId I)) = true := by
            simp only [List.mem_cons, not_or, decide_eq_true_eq]
            exact ⟨hne, hcur'⟩
          have h2 : decide (Spec.splitId I sp ∉ Spec.splitId I sp :: rest.map (Spec.splitId I))
              = false := by
            simp
          simp only [List.filter_cons, h1, h2, if_true, Bool.false_eq_true, if_false,
            List.filter_nil]
        rw [ht1, ht2, List.filter_append, List.filter_filter, hf, List.append_assoc]
        congr 1
        apply List.filter_congr
        intro x _
        simp only [List.mem_cons, List.not_mem_nil, or_false, not_or, Bool.decide_and,
          decide_not, Bool.and_eq_true, Bool.not_eq_true', decide_eq_false_iff_not]
        by_cases hx1 : x = st.e <;> by_cases hx2 : x = Spec.splitId I sp <;>
          by_cases hx3 : x ∈ rest.map (Spec.splitId I) <;> simp [hx1, hx2, hx3]

theorem NBEdgeCont.retrieve_update_summary (ec : NBEdgeCont) (x id : String) (f : NBEdge → NBEdge)
    (hf : ∀ e, (f e).summary = e.summary) :
    ((ec.update x f).retrieve id).map NBEdge.summary = (ec.retrieve id).map NBEdge.summary := by
  have hid : ∀ e, (f e).id = e.id := fun e => congrArg Prod.fst (hf e)
  unfold NBEdgeCont.retrieve NBEdgeCont.update
  induction ec with
  | nil => rfl
  | cons a l ih =>
    simp only [List.map_cons, List.find?_cons]
    by_cases ha : (a.id == x) = true
    · simp only [ha, if_true, hid]
      cases a.id == id
      · exact ih
      · simp [hf]
    · have ha' : (a.id == x) = false := by simpa using ha
      simp only [ha', Bool.false_eq_true, if_false]
      cases a.id == id
      · exact ih
      · rfl

theorem patchStep_preserves (n : Nat) (st : NBEdgeCont × Option String) (sp : Split) :
    (patchStep n st sp).1.map (fun x => x.id) = st.1.map (fun x => x.id) ∧
    ∀ id, ((patchStep n st sp).1.retrieve id).map NBEdge.summary
      = (st.1.retrieve id).map NBEdge.summary := by
  unfold patchStep
  cases st.2 with
  | none => exact ⟨rfl, fun _ => rfl⟩
  | some e =>
    simp only
    have key : ∀ ec' : NBEdgeCont,
        (match nextEdge ec' e with
          | some nx => (ec', some nx)
          | none => (ec', some e)).1 = ec' := by
      intro ec'
      cases nextEdge ec' e <;> rfl
    rw [key]
    split_ifs
    · exact ⟨NBEdgeCont.map_id_update _ _ _ (fun _ => rfl),
        fun id => NBEdgeCont.retrieve_update_summary _ _ _ _ (fun _ => rfl)⟩
    · exact ⟨rfl, fun _ => rfl⟩

theorem patchLaneOffsets_preserves (ec : NBEdgeCont) (edgeid : String) (splits : List Split)
    (n : Nat) :
    (patchLaneOffsets ec edgeid splits n).map (fun x => x.id) = ec.map (fun x => x.id) ∧
    ∀ id, ((patchLaneOffsets ec edgeid splits n).retrieve id).map NBEdge.summary
      = (ec.retrieve id).map NBEdge.summary := by
  have gen : ∀ (l : List Split) (st : NBEdgeCont × Option String),
      (l.foldl (patchStep n) st).1.map (fun x => x.id) = st.1.map (fun x => x.id) ∧
      ∀ id, ((l.foldl (patchStep n) st).1.retrieve id).map NBEdge.summary
        = (st.1.retrieve id).map NBEdge.summary := by
    intro l
    induction l with
    | nil => exact fun _ => ⟨rfl, fun _ => rfl⟩
    | cons a l ih =>
      intro st
      simp only [List.foldl_cons]
      obtain ⟨h1, h2⟩ := ih (patchStep n st a)
      obtain ⟨h3, h4⟩ := patchStep_preserves n st a
      exact ⟨h1.trans h3, fun id => (h2 id).trans (h4 id)⟩
  unfold patchLaneOffsets
  exact gen _ _

theorem sortSplits_eq_of_perm (l ss : List Split) (hperm : l.Perm ss)
    (hsorted : ss.Pairwise (fun a b => a.pos < b.pos)) : sortSplits l = ss := by
  haveI : IsTotal Split (fun a b => a.pos ≤ b.pos) := ⟨fun a b => le_total a.pos b.pos⟩
  haveI : IsTrans Split (fun a b => a.pos ≤ b.pos) := ⟨fun _ _ _ h1 h2 => le_trans h1 h2⟩
  have hs1 : (sortSplits l).Pairwise (fun a b => a.pos ≤ b.pos) :=
    List.sorted_insertionSort _ l
  have hs2 : ss.Pairwise (fun a b => a.pos ≤ b.pos) := hsorted.imp (fun h => le_of_lt h)
  have hp : (sortSplits l).Perm ss := (List.perm_insertionSort _ l).trans hperm
  have hne : ss.Pairwise (fun a b => a.pos ≠ b.pos) := hsorted.imp (fun h => ne_of_lt h)
  refine List.Perm.eq_of_sorted ?_ hs1 hs2 hp
  intro a b ha hb hab hba
  by_contra hcon
  exact hne.forall (fun _ _ h => h.symm) (hp.subset ha) hb hcon (le_antisymm hab hba)

theorem insertCurrent_fields (h : Handler) :
    (insertCurrent h).mySplits = h.mySplits ∧ (insertCurrent h).myNodeCont = h.myNodeCont ∧
    (insertCurrent h).myCurrentID = h.myCurrentID := by
  unfold insertCurrent
  split_ifs
  · split
    · split <;> exact ⟨rfl, rfl, rfl⟩
    · exact ⟨rfl, rfl, rfl⟩
  · exact ⟨rfl, rfl, rfl⟩

theorem myEndElement_registered (env : Env) (h : Handler) (I : String) (e0 : NBEdge)
    (hcur : (insertCurrent h).myCurrentEdge = some (.registered I))
    (hreg : (insertCurrent h).myEdgeCont.retrieve I = some e0) :
    myEndElement env h =
      if (insertCurrent h).mySplits.length ≠ 0 then applySplits env (insertCurrent h) e0
      else (insertCurrent h, []) := by
  unfold myEndElement
  cases hc : h.myCurrentEdge with
  | none =>
    have : insertCurrent h = h := by
      unfold insertCurrent
      simp [hc]
    rw [this, hc] at hcur
    exact absurd hcur (by simp)
  | some r =>
    simp only [hcur, hreg]

theorem splitId_prepareSplit (env : Env) (e0 : NBEdge) (I : String) (sps : List Split) :
    (sps.map (prepareSplit env e0)).map (Spec.splitId I) = sps.map (Spec.splitId I) := by
  rw [List.map_map]
  rfl

theorem expectedCalls_prepareSplit (env : Env) (e0 : NBEdge) (I : String) :
    ∀ (sps : List Split) (cur : String) (seen : SUMOReal),
      Spec.expectedCalls I cur seen (sps.map (prepareSplit env e0))
        = Spec.expectedCalls I cur seen sps
  | [], _, _ => rfl
  | sp :: rest, cur, seen => by
    simp only [List.map_cons, Spec.expectedCalls]
    rw [expectedCalls_prepareSplit env e0 I rest]
    rfl

theorem expectedChain_prepareSplit (env : Env) (e0 : NBEdge) (I : String) (L : SUMOReal)
    (toId : String) :
    ∀ (sps : List Split) (cur : String) (seen : SUMOReal) (fromId : String),
      Spec.expectedChain I L toId cur seen fromId (sps.map (prepareSplit env e0))
        = Spec.expectedChain I L toId cur seen fromId sps
  | [], _, _, _ => rfl
  | sp :: rest, cur, seen, fromId => by
    simp only [List.map_cons, Spec.expectedChain]
    rw [expectedChain_prepareSplit env e0 I L toId rest]
    rfl

/-- **C6.** An edge `I` of geometric length `L` is closed with staged splits
that are, in some order, the list `ss` of splits with strictly ascending
positions inside `(0, L)`, whose boundary nodes `I.tag` are pairwise distinct
and new to the node registry (all insertions succeed).  Then the split
primitive is called once per split, in ascending order, on the edges `I`,
`I.tag(p1)`, ... with the offsets `p1`, `p2 - p1`, ...; the resulting registry
holds under the identifiers `I`, `I.tag(p1)`, ..., `I.tag(pk)` edges of lengths
`p1`, `p2 - p1`, ..., `L - pk`, each running from the boundary node before it to
the one after it; and these `k + 1` identifiers replace, at the end of the
registry, every edge that carried one of them before. -/
theorem myEndElement_split_chain (env : Env) (h : Handler) (I : String) (e0 : NBEdge)
    (ss : List Split)
    (hcur : (insertCurrent h).myCurrentEdge = some (.registered I))
    (hreg : (insertCurrent h).myEdgeCont.retrieve I = some e0)
    (hid : h.myCurrentID = I)
    (hstaged : h.mySplits.Perm ss)
    (hsorted : ss.Pairwise (fun a b => a.pos < b.pos))
    (hrange : ∀ sp ∈ ss, 0 < sp.pos ∧ sp.pos < e0.getGeometry.length)
    (htags : (ss.map (Spec.splitId I)).Nodup)
    (hnodes : ∀ sp ∈ ss, h.myNodeCont.retrieve (Spec.splitId I sp) = none) :
    (myEndElement env h).2.map SplitStep.call? = (Spec.expectedCalls I I 0 ss).map some ∧
    (Spec.expectedChain I e0.getGeometry.length e0.myTo.id I 0 e0.myFrom.id ss).map
        (fun x => ((myEndElement env h).1.myEdgeCont.retrieve x.1).map NBEdge.summary)
      = (Spec.expectedChain I e0.getGeometry.length e0.myTo.id I 0 e0.myFrom.id ss).map some ∧
    (ss ≠ [] →
      (myEndElement env h).1.myEdgeCont.map (fun x => x.id)
        = ((insertCurrent h).myEdgeCont.map (fun x => x.id)).filter
            (fun i => decide (i ∉ Spec.chainIds I ss)) ++ Spec.chainIds I ss) := by
  obtain ⟨hf1, hf2, hf3⟩ := insertCurrent_fields h
  have heid := NBEdgeCont.retrieve_id _ _ _ hreg
  rw [myEndElement_registered env h I e0 hcur hreg]
  by_cases hempty : ss = []
  · subst hempty
    have hnil : h.mySplits = [] := List.Perm.eq_nil hstaged
    simp only [hf1, hnil, List.length_nil, ne_eq, not_true_eq_false, if_false]
    refine ⟨rfl, ?_, fun hc => absurd hc (by simp)⟩
    simp [Spec.expectedChain, hreg, NBEdge.summary, heid]
  · have hlen : (insertCurrent h).mySplits.length ≠ 0 := by
      rw [hf1, hstaged.length_eq]
      exact fun hc => hempty (List.length_eq_zero.mp hc)
    rw [if_pos hlen]
    have hsort : sortSplits (insertCurrent h).mySplits = ss := by
      rw [hf1]; exact sortSplits_eq_of_perm _ _ hstaged hsorted
    have hloop := splitLoop_chain env I
      (noLanesMaxOf e0 (ss.map (prepareSplit env e0))) e0.getGeometry.length e0.myTo.id
      (ss.map (prepareSplit env e0))
      { nodeCont := (insertCurrent h).myNodeCont, edgeCont := (insertCurrent h).myEdgeCont,
        e := e0.id, currLanes := (List.range e0.getNumLanes).map Int.ofNat, seen := 0 }
      e0 (by rw [heid]; exact hreg) (by simp) rfl
      (by
        rw [List.pairwise_map]
        exact hsorted)
      (by
        intro sp hsp
        obtain ⟨sp0, hsp0, rfl⟩ := List.mem_map.mp hsp
        exact ⟨(hrange sp0 hsp0).1, (hrange sp0 hsp0).1, (hrange sp0 hsp0).2⟩)
      (by rw [splitId_prepareSplit]; exact htags)
      (by
        intro sp hsp
        obtain ⟨sp0, hsp0, rfl⟩ := List.mem_map.mp hsp
        rw [hf2]
        exact hnodes sp0 hsp0)
      (by
        rw [splitId_prepareSplit, heid]
        intro hmem
        obtain ⟨sp0, -, hsp0⟩ := List.mem_map.mp hmem
        exact String.ne_append_dot I _ hsp0.symm)
    obtain ⟨l1, l2, -, l4⟩ := hloop
    simp only [expectedCalls_prepareSplit, expectedChain_prepareSplit, heid] at l1 l2
    unfold applySplits
    simp only [hsort, hf3, hid, heid]
    simp only [heid] at l4
    obtain ⟨p1, p2⟩ := patchLaneOffsets_preserves
      (splitLoop env I I (noLanesMaxOf e0 (ss.map (prepareSplit env e0)))
        { nodeCont := (insertCurrent h).myNodeCont, edgeCont := (insertCurrent h).myEdgeCont,
          e := I, currLanes := (List.range e0.getNumLanes).map Int.ofNat, seen := 0 }
        (ss.map (prepareSplit env e0))).1.edgeCont I (ss.map (prepareSplit env e0))
      (noLanesMaxOf e0 (ss.map (prepareSplit env e0)))
    refine ⟨l1, ?_, fun _ => ?_⟩
    · simp only [p2]
      exact l2
    · rw [p1, l4]
      have ht : Spec.touchedIds I I (ss.map (prepareSplit env e0)) = Spec.chainIds I ss := by
        have := splitId_prepareSplit env e0 I ss
        simp only [Spec.touchedIds, List.map_eq_nil_iff, hempty, if_false, Spec.chainIds, this]
      rw [ht]

theorem myEndElement_split_chain_witness :
    ((myEndElement Sample.env Sample.openAWithSplits).2.map SplitStep.call?
        = (Spec.expectedCalls "A" "A" 0 Sample.splits3070).map some ∧
      (Spec.expectedChain "A" Sample.edgeA.getGeometry.length Sample.edgeA.myTo.id "A" 0
          Sample.edgeA.myFrom.id Sample.splits3070).map
          (fun x => ((myEndElement Sample.env Sample.openAWithSplits).1.myEdgeCont.retrieve
            x.1).map NBEdge.summary)
        = (Spec.expectedChain "A" Sample.edgeA.getGeometry.length Sample.edgeA.myTo.id "A" 0
          Sample.edgeA.myFrom.id Sample.splits3070).map some ∧
      (Sample.splits3070 ≠ [] →
        (myEndElement Sample.env Sample.openAWithSplits).1.myEdgeCont.map (fun x => x.id)
          = ((insertCurrent Sample.openAWithSplits).myEdgeCont.map (fun x => x.id)).filter
              (fun i => decide (i ∉ Spec.chainIds "A" Sample.splits3070))
            ++ Spec.chainIds "A" Sample.splits3070)) ∧
    Sample.openAWithSplits.mySplits.map (fun s => s.pos) = [70, 30] ∧
    Spec.expectedCalls "A" "A" 0 Sample.splits3070 = [("A", 30, "A.30"), ("A.30", 40, "A.70")] ∧
    Spec.expectedChain "A" Sample.edgeA.getGeometry.length Sample.edgeA.myTo.id "A" 0
        Sample.edgeA.myFrom.id Sample.splits3070
      = [("A", 30, "n1", "A.30"), ("A.30", 40, "A.30", "A.70"), ("A.70", 30, "A.70", "n2")] ∧
    (myEndElement Sample.env Sample.openAWithSplits).1.myEdgeCont.map (fun x => x.id)
      = ["B", "A", "A.30", "A.70"] :=
  ⟨myEndElement_split_chain Sample.env Sample.openAWithSplits "A" Sample.edgeA Sample.splits3070
      (by decide!) (by decide!) (by decide!)
      (by
        have h : Sample.openAWithSplits.mySplits
            = [⟨[0, 1], 70, 70, ⟨0, 0⟩⟩, ⟨[0, 1], 30, 30, ⟨0, 0⟩⟩] := by decide!
        rw [h]
        exact List.Perm.swap _ _ _)
      (by decide!) (by decide!) (by decide!) (by decide!),
    by decide!, by decide!, by decide!, by decide!⟩

/-! ## The pointer `e` of the split loop stays registered -/

theorem NBEdgeCont.retrieve_update_isSome (ec : NBEdgeCont) (x id : String)
    (f : NBEdge → NBEdge) (hf : ∀ e, (f e).id = e.id) :
    ((ec.update x f).retrieve id).isSome = (ec.retrieve id).isSome := by
  unfold NBEdgeCont.retrieve NBEdgeCont.update
  induction ec with
  | nil => rfl
  | cons a l ih =>
    simp only [List.map_cons, List.find?_cons]
    by_cases ha : (a.id == x) = true
    · simp only [ha, if_true, hf]
      cases a.id == id
      · exact ih
      · rfl
    · have ha' : (a.id == x) = false := by simpa using ha
      simp only [ha', Bool.false_eq_true, if_false]
      cases a.id == id
      · exact ih
      · rfl

/-- Every iteration of the split loop that starts with the pointer `e` at a
registered edge ends with it at a registered edge. -/
theorem splitStep_registered (env : Env) (myCurrentID edgeid : String) (n : Nat)
    (st : SplitState) (exp : Split) (h : (st.edgeCont.retrieve st.e).isSome = true) :
    ((splitStep env myCurrentID edgeid n st exp).1.edgeCont.retrieve
      (splitStep env myCurrentID edgeid n st exp).1.e).isSome = true := by
  unfold splitStep
  cases hr : st.edgeCont.retrieve st.e with
  | none => simp [hr] at h
  | some e =>
    have heid := NBEdgeCont.retrieve_id _ _ _ hr
    simp only
    split_ifs with hc h0
    · split
      · simp only
        rw [NBEdgeCont.retrieve_update_isSome _ _ _ _ (fun _ => reconnect_id _ _ _ _ _)]
        by_cases hne : e.id = myCurrentID ++ "." ++ toString exp.nameid
        · rw [← hne, NBEdgeCont.retrieve_splitAt_first]
          rfl
        · rw [NBEdgeCont.retrieve_splitAt_second _ _ _ _ _ _ _ _ _ hne]
          rfl
      · simp only [hr, Option.isSome_some]
    · simp only
      rw [NBEdgeCont.retrieve_update_isSome _ _ _
        (fun e => e.incLaneNo env (exp.lanes.length - e.getNumLanes)) (fun _ => rfl), hr]
      rfl
    · simp only
      rw [NBEdgeCont.retrieve_update_isSome _ _ _
        (fun e => e.decLaneNo (e.getNumLanes - exp.lanes.length)) (fun _ => rfl), hr]
      rfl
    · simp only [hr, Option.isSome_some]

/-! ## Lane records: what is written, and for which indices -/

/-- **C11: the code breaks the claim.** Both lanes of the open edge `A` carry
the permissions of `allow="bus"` and no preferred class.  A lane record for lane
1 that carries only a width is accepted and overwrites the permissions of lane
1 with `parseVehicleClasses("", "")` and its preferred classes with
`parseVehicleClasses("")`: the two setters are called without a test for the
presence of the fields, unlike those for width, end offset and speed. -/
theorem addLane_width_only_overwrites_classes :
    Sample.laneRecordWidthOnly.allow = .absent ∧ Sample.laneRecordWidthOnly.disallow = .absent ∧
    Sample.laneRecordWidthOnly.prefer = .absent ∧
    Sample.laneClasses Sample.openABus = some [(1300, 0), (1300, 0)] ∧
    (addLane Sample.env Sample.openABus Sample.laneRecordWidthOnly).2 = .applied 1 ∧
    Sample.laneClasses (addLane Sample.env Sample.openABus Sample.laneRecordWidthOnly).1
      = some [(1300, 0), (Sample.env.parseVehicleClasses "" "",
          Sample.env.parseVehicleClasses1 "")] ∧
    Sample.env.parseVehicleClasses "" "" ≠ 1300 ∧ Sample.env.parseVehicleClasses1 "" ≠ 0 := by
  refine ⟨rfl, rfl, rfl, by decide!, by decide!, by decide!, by decide!, by decide!⟩

/-- **C12: the code breaks the claim.** A lane record with the index `-1` on the
open edge `A` (two lanes) passes the only test of `addLane`, which compares the
index with the number of lanes from above: the record is applied, the setters
are called with the lane `-1`, and the edge is modified (in the model of
`NBEdge`, where a negative lane addresses every lane, both lanes get the width
and the classes of the record). -/
theorem addLane_negative_index_applied :
    Spec.laneIndexField Sample.laneRecordNegative = .value (-1) ∧
    (Sample.openABus.currentEdge.map (fun e => e.getNumLanes)) = some 2 ∧
    (addLane Sample.env Sample.openABus Sample.laneRecordNegative).2 = .applied (-1) ∧
    Sample.laneWidths Sample.openABus = some [3, 3] ∧
    Sample.laneWidths (addLane Sample.env Sample.openABus Sample.laneRecordNegative).1
      = some [4, 4] ∧
    (addLane Sample.env Sample.openABus Sample.laneRecordNegative).1.currentEdge
      ≠ Sample.openABus.currentEdge := by
  refine ⟨rfl, by decide!, by decide!, by decide!, by decide!, by decide!⟩

/-! ## An edge record with an unknown type -/

/-- **C15: the code breaks the claim.** The record names the registered edge `A`
and an unknown type.  `addEdge` returns at the type check and changes neither
registry, but the pointer set from the registry before the check stays: the
edge `A` is staged as the current edge, and the lane and split records nested
in the element reach it (the lane record changes lane 0 of the registered edge,
the split is staged for it). -/
theorem addEdge_unknown_type_leaves_edge_staged :
    Sample.handler.myTypeCont.knows "nope" = false ∧
    (addEdge Sample.env Sample.handler Sample.recordUnknownType).2 = .unknownType ∧
    Sample.afterUnknownType.myEdgeCont = Sample.handler.myEdgeCont ∧
    Sample.afterUnknownType.myNodeCont = Sample.handler.myNodeCont ∧
    Sample.afterUnknownType.myCurrentEdge = some (.registered "A") ∧
    Sample.afterUnknownType.myIsUpdate = false ∧
    (addLane Sample.env Sample.afterUnknownType { index := .value 0, allow := .value "bus" }).2
      = .applied 0 ∧
    (addLane Sample.env Sample.afterUnknownType
        { index := .value 0, allow := .value "bus" }).1.myEdgeCont.retrieve "A"
      ≠ Sample.handler.myEdgeCont.retrieve "A" ∧
    (addSplit Sample.env Sample.afterUnknownType { pos := .value 30 }).2 = .added := by
  refine ⟨by decide!, by decide!, by decide!, by decide!, by decide!, by decide!, by decide!,
    by decide!, by decide!⟩

/-! ## What an applied split hands to the split primitive -/

theorem usub_toUnsigned (l h : Int) : usub (toUnsigned l) (toUnsigned h) = toUnsigned (l - h) := by
  unfold usub toUnsigned
  omega

theorem reconnect_numLanes (pe : NBEdge) (ne : String) (currLanes newLanes : List Int) (n : Nat) :
    (reconnect pe ne currLanes newLanes n).getNumLanes = pe.getNumLanes := by
  unfold reconnect
  simp only
  rw [foldl_proj_preserved NBEdge.getNumLanes, foldl_proj_preserved NBEdge.getNumLanes,
    foldl_proj_preserved NBEdge.getNumLanes]
  · rfl
  · intro pe x; rfl
  · intro pe x; rfl
  · intro pe x
    split_ifs <;> rfl

/-- The registries after an applied step of the split loop. -/
theorem splitStep_applied_state (env : Env) (myCurrentID edgeid : String) (noLanesMax : Nat)
    (st st' : SplitState) (exp : Split) (call : SplitAtCall) (conns : List Connection)
    (hstep : splitStep env myCurrentID edgeid noLanesMax st exp = (st', .applied call conns)) :
    ∃ e, st.edgeCont.retrieve st.e = some e ∧
      st.nodeCont.retrieve (edgeid ++ "." ++ toString exp.nameid) = none ∧
      st'.nodeCont = st.nodeCont ++ [⟨edgeid ++ "." ++ toString exp.nameid, exp.gpos⟩] ∧
      st'.edgeCont = (NBEdgeCont.splitAt env st.edgeCont e (exp.pos - st.seen)
          ⟨edgeid ++ "." ++ toString exp.nameid, exp.gpos⟩ e.id
          (myCurrentID ++ "." ++ toString exp.nameid) e.getNumLanes
          (exp.lanes.length % 4294967296)).update e.id
            (fun pe => reconnect pe (myCurrentID ++ "." ++ toString exp.nameid) st.currLanes
              exp.lanes noLanesMax) := by
  unfold splitStep at hstep
  cases hr : st.edgeCont.retrieve st.e with
  | none => simp [hr] at hstep
  | some e =>
    simp only [hr] at hstep
    refine ⟨e, rfl, ?_⟩
    split_ifs at hstep with hc h0
    · split at hstep
      · rename_i nc hins
        simp only [Prod.mk.injEq, SplitStep.applied.injEq] at hstep
        obtain ⟨hst, -, -⟩ := hstep
        unfold NBNodeCont.insert at hins
        cases hn : st.nodeCont.retrieve (edgeid ++ "." ++ toString exp.nameid) with
        | some x => simp [hn] at hins
        | none =>
          simp only [hn, Prod.mk.injEq, and_true] at hins
          refine ⟨rfl, ?_, ?_⟩
          · rw [← hst, ← hins]
          · rw [← hst]
      · simp at hstep
    all_goals simp at hstep

/-- **C20, as stated, fails.** The edge `A` with two lanes is closed with a
split at 30 that keeps lane 0 only: the split primitive is called with the
lane counts 2 for the predecessor and 1, the size of the lane subset, for the
successor, and the successor `A.30` has one lane. -/
theorem myEndElement_successor_lane_count :
    (Sample.openAWithNarrowingSplit.currentEdge.map (fun e => e.getNumLanes)) = some 2 ∧
    (myEndElement Sample.env Sample.openAWithNarrowingSplit).2.map
        (fun s => match s with
          | .applied c _ => some (c.firstEdgeName, c.secondEdgeName, c.noLanesFirstEdge,
              c.noLanesSecondEdge)
          | _ => none)
      = [some ("A", "A.30", 2, 1)] ∧
    ((myEndElement Sample.env Sample.openAWithNarrowingSplit).1.myEdgeCont.retrieve "A.30").map
      (fun e => e.getNumLanes) = some 1 := by
  refine ⟨by decide!, by decide!, by decide!⟩

/-- **C20, amended.** For every applied split of a current edge `e` with `n`
lanes, the split primitive is invoked on `e` with the lane count `n` for the
predecessor and the size of the split's lane subset for the successor; the
predecessor keeps the identifier of the current edge and the successor gets
`myCurrentID + "." + tag`.  In the registry after the step the predecessor has
`n` lanes and the successor as many as the subset. -/
theorem splitStep_lane_counts (env : Env) (myCurrentID edgeid : String) (noLanesMax : Nat)
    (st st' : SplitState) (exp : Split) (call : SplitAtCall) (conns : List Connection)
    (e : NBEdge)
    (hstep : splitStep env myCurrentID edgeid noLanesMax st exp = (st', .applied call conns))
    (hreg : st.edgeCont.retrieve st.e = some e) :
    call.edge = st.e ∧ call.firstEdgeName = st.e ∧
    call.secondEdgeName = myCurrentID ++ "." ++ toString exp.nameid ∧
    call.noLanesFirstEdge = e.getNumLanes ∧
    call.noLanesSecondEdge = exp.lanes.length % 4294967296 ∧
    (exp.lanes.length < 4294967296 → call.noLanesSecondEdge = exp.lanes.length) ∧
    (st'.edgeCont.retrieve call.firstEdgeName).map (fun x => x.getNumLanes)
      = some e.getNumLanes ∧
    (call.firstEdgeName ≠ call.secondEdgeName →
      (st'.edgeCont.retrieve call.secondEdgeName).map (fun x => x.getNumLanes)
        = some (exp.lanes.length % 4294967296)) := by
  obtain ⟨e1, hreg1, -, hcall, -⟩ := splitStep_applied _ _ _ _ _ _ _ _ _ hstep
  obtain ⟨e2, hreg2, -, -, hec⟩ := splitStep_applied_state _ _ _ _ _ _ _ _ _ hstep
  have he1 : e1 = e := Option.some.inj (hreg1.symm.trans hreg)
  have he2 : e2 = e := Option.some.inj (hreg2.symm.trans hreg)
  rw [he1] at hcall
  rw [he2] at hec
  have heid := NBEdgeCont.retrieve_id _ _ _ hreg
  have hrec : ∀ x, (reconnect x (myCurrentID ++ "." ++ toString exp.nameid) st.currLanes
      exp.lanes noLanesMax).id = x.id := fun _ => reconnect_id _ _ _ _ _
  subst hcall
  refine ⟨heid, heid, rfl, rfl, rfl, fun hlt => Nat.mod_eq_of_lt hlt, ?_, ?_⟩
  · rw [hec, NBEdgeCont.retrieve_update _ e.id _ hrec _
      (NBEdgeCont.retrieve_splitAt_first _ _ _ _ _ _ _ _ _)]
    simp only [Option.map_some', reconnect_numLanes]
    simp [NBEdgeCont.splitHalf, NBEdge.getNumLanes]
  · intro hne
    simp only at hne
    rw [hec, NBEdgeCont.retrieve_update_ne _ _ _ _ hrec (fun h => hne h.symm),
      NBEdgeCont.retrieve_splitAt_second _ _ _ _ _ _ _ _ _ hne]
    simp [NBEdgeCont.splitHalf, NBEdge.getNumLanes]

theorem splitStep_lane_counts_witness :
    ("A" : String) = Sample.loopStart.e ∧ ("A" : String) = Sample.loopStart.e ∧
    ("A.30" : String) = "A" ++ "." ++ toString (30 : Int) ∧
    (2 : Nat) = Sample.edgeA.getNumLanes ∧
    (1 : Nat) = [(0 : Int)].length % 4294967296 ∧
    ([(0 : Int)].length < 4294967296 → (1 : Nat) = [(0 : Int)].length) ∧
    ((splitStep Sample.env "A" "A" 2 Sample.loopStart ⟨[0], 30, 30, ⟨30, 0⟩⟩).1.edgeCont.retrieve
        "A").map (fun x => x.getNumLanes) = some Sample.edgeA.getNumLanes ∧
    (("A" : String) ≠ "A.30" →
      ((splitStep Sample.env "A" "A" 2 Sample.loopStart
          ⟨[0], 30, 30, ⟨30, 0⟩⟩).1.edgeCont.retrieve "A.30").map (fun x => x.getNumLanes)
        = some ([(0 : Int)].length % 4294967296)) :=
  splitStep_lane_counts Sample.env "A" "A" 2 Sample.loopStart
    (splitStep Sample.env "A" "A" 2 Sample.loopStart ⟨[0], 30, 30, ⟨30, 0⟩⟩).1
    ⟨[0], 30, 30, ⟨30, 0⟩⟩
    ⟨"A", 30, ⟨"A.30", ⟨30, 0⟩⟩, "A", "A.30", 2, 1⟩
    [⟨0, "A.30", 0⟩]
    Sample.edgeA
    (Prod.ext rfl (by decide!)) (by decide!)

/-! ## Lanes that continue across a split -/

/-- The loop "all other connected" of `reconnect` adds the straight connection
for every lane index below `noLanesMax` that both lane sets contain. -/
theorem reconnect_common_lane (pe : NBEdge) (ne : String) (currLanes newLanes : List Int)
    (noLanesMax : Nat) (hn : noLanesMax ≤ 4294967296) (l : Int) (hc : l ∈ currLanes)
    (hnew : l ∈ newLanes) (h0 : 0 ≤ l) (hl : l < (noLanesMax : Int)) :
    (⟨toUnsigned (l - currLanes.headD 0), ne, toUnsigned (l - newLanes.headD 0)⟩ : Connection)
      ∈ (reconnect pe ne currLanes newLanes noLanesMax).connections := by
  have hloop : (fun (pe : NBEdge) (x : Nat) =>
      if !(currLanes.any (fun c => toUnsigned c == x)) then pe
      else if !(newLanes.any (fun c => toUnsigned c == x)) then pe
      else pe.addLane2LaneConnection (usub x (toUnsigned (currLanes.headD 0))) ne
        (usub x (toUnsigned (newLanes.headD 0))))
      = (fun pe x =>
          if (currLanes.any (fun c => toUnsigned c == x) &&
              newLanes.any (fun c => toUnsigned c == x)) then
            pe.addLane2LaneConnection (usub x (toUnsigned (currLanes.headD 0))) ne
              (usub x (toUnsigned (newLanes.headD 0)))
          else pe) := by
    funext pe x
    cases currLanes.any (fun c => toUnsigned c == x) <;>
      cases newLanes.any (fun c => toUnsigned c == x) <;> simp
  have hU : toUnsigned l = l.toNat := toUnsigned_of_range l h0 (by omega)
  unfold reconnect
  simp only [hloop]
  rw [connections_foldl_addLane]
  apply List.mem_append_right
  rw [List.mem_map]
  refine ⟨l.toNat, ?_, ?_⟩
  · rw [List.mem_filter]
    refine ⟨List.mem_range.mpr (by omega), ?_⟩
    simp only [Bool.and_eq_true, List.any_eq_true, beq_iff_eq]
    exact ⟨⟨l, hc, hU⟩, ⟨l, hnew, hU⟩⟩
  · rw [← hU, usub_toUnsigned, usub_toUnsigned]

/-- **C19, as stated, fails.** The edge `A` (two lanes) is closed with a split
at 30 keeping the lanes 1 and 7 and a split at 70 keeping the lanes 3 and 7.  At
the second split lane 7 is in both lane sets, but no connection is added at
all, in particular not `6 -> 4`: the loop over the continuing lanes stops below
`noLanesMax = 2`. -/
theorem myEndElement_common_lane_not_connected :
    Sample.openAWithLane7Splits.mySplits.map (fun s => (s.pos, s.lanes))
      = [(30, [1, 7]), (70, [3, 7])] ∧
    (myEndElement Sample.env Sample.openAWithLane7Splits).2[1]? = some (.applied
      ⟨"A.30", 40, ⟨"A.70", ⟨70, 0⟩⟩, "A.30", "A.70", 2, 2⟩ []) ∧
    (⟨6, "A.70", 4⟩ : Connection) ∉
      (((myEndElement Sample.env Sample.openAWithLane7Splits).1.myEdgeCont.retrieve "A.30").map
        (fun e => e.connections)).getD [] := by
  refine ⟨by decide!, by decide!, by decide!⟩

/-- **C19, amended.** For every applied split with predecessor lane set
`currLanes` and successor lane set `newLanes`, every lane index `l` with
`0 ≤ l < noLanesMax` that is present in both sets is connected straight
through: the connection `(l - rightMostP) -> (l - rightMostN)` is added from the
predecessor to the successor, `rightMostP` and `rightMostN` being the first
index of each set, which is the smallest one for the ascending sets of the
loop. -/
theorem splitStep_common_lanes_connected (env : Env) (myCurrentID edgeid : String)
    (noLanesMax : Nat) (st st' : SplitState) (exp : Split) (call : SplitAtCall)
    (conns : List Connection)
    (hstep : splitStep env myCurrentID edgeid noLanesMax st exp = (st', .applied call conns))
    (hn : noLanesMax ≤ 4294967296) (l : Int) (hc : l ∈ st.currLanes) (hnew : l ∈ exp.lanes)
    (h0 : 0 ≤ l) (hl : l < (noLanesMax : Int)) :
    (⟨toUnsigned (l - st.currLanes.headD 0), call.secondEdgeName,
        toUnsigned (l - exp.lanes.headD 0)⟩ : Connection) ∈ conns ∧
    (st.currLanes.Pairwise (· ≤ ·) → exp.lanes.Pairwise (· ≤ ·) →
      0 ≤ st.currLanes.headD 0 → 0 ≤ exp.lanes.headD 0 →
      (∀ x ∈ st.currLanes, st.currLanes.headD 0 ≤ x) ∧ (∀ x ∈ exp.lanes, exp.lanes.headD 0 ≤ x) ∧
      (⟨(l - st.currLanes.headD 0).toNat, call.secondEdgeName,
        (l - exp.lanes.headD 0).toNat⟩ : Connection) ∈ conns) := by
  obtain ⟨e, -, -, -, hconns, -⟩ := splitStep_applied _ _ _ _ _ _ _ _ _ hstep
  have hmem := reconnect_common_lane
    (NBEdgeCont.splitHalf env e e.id e.myFrom call.node
      (e.geom.splitAt call.pos call.node.position).1 e.getNumLanes)
    call.secondEdgeName st.currLanes exp.lanes noLanesMax hn l hc hnew h0 hl
  rw [← hconns] at hmem
  refine ⟨hmem, ?_⟩
  intro hs1 hs2 hh1 hh2
  have hmin : ∀ (ls : List Int), ls.Pairwise (· ≤ ·) → ∀ x ∈ ls, ls.headD 0 ≤ x := by
    intro ls hs x hx
    cases ls with
    | nil => simp at hx
    | cons a t =>
      simp only [List.headD_cons]
      rcases List.mem_cons.mp hx with h | h
      · exact le_of_eq h.symm
      · exact (List.pairwise_cons.mp hs).1 x h
  have h1 := hmin _ hs1 l hc
  have h2 := hmin _ hs2 l hnew
  refine ⟨hmin _ hs1, hmin _ hs2, ?_⟩
  rw [← toUnsigned_of_range (l - st.currLanes.headD 0) (by omega) (by omega),
    ← toUnsigned_of_range (l - exp.lanes.headD 0) (by omega) (by omega)]
  exact hmem

theorem splitStep_common_lanes_connected_witness :
    (⟨toUnsigned (1 - Sample.loopStart.currLanes.headD 0), "A.30",
        toUnsigned (1 - ([1, 7] : List Int).headD 0)⟩ : Connection)
      ∈ Sample.connectionsOf
          (splitStep Sample.env "A" "A" 2 Sample.loopStart ⟨[1, 7], 30, 30, ⟨30, 0⟩⟩).1.edgeCont
          "A" ∧
    (Sample.loopStart.currLanes.Pairwise (· ≤ ·) → ([1, 7] : List Int).Pairwise (· ≤ ·) →
      0 ≤ Sample.loopStart.currLanes.headD 0 → 0 ≤ ([1, 7] : List Int).headD 0 →
      (∀ x ∈ Sample.loopStart.currLanes, Sample.loopStart.currLanes.headD 0 ≤ x) ∧
      (∀ x ∈ ([1, 7] : List Int), ([1, 7] : List Int).headD 0 ≤ x) ∧
      (⟨(1 - Sample.loopStart.currLanes.headD 0).toNat, "A.30",
        (1 - ([1, 7] : List Int).headD 0).toNat⟩ : Connection)
        ∈ Sample.connectionsOf
            (splitStep Sample.env "A" "A" 2 Sample.loopStart
              ⟨[1, 7], 30, 30, ⟨30, 0⟩⟩).1.edgeCont "A") :=
  splitStep_common_lanes_connected Sample.env "A" "A" 2 Sample.loopStart
    (splitStep Sample.env "A" "A" 2 Sample.loopStart ⟨[1, 7], 30, 30, ⟨30, 0⟩⟩).1
    ⟨[1, 7], 30, 30, ⟨30, 0⟩⟩
    ⟨"A", 30, ⟨"A.30", ⟨30, 0⟩⟩, "A", "A.30", 2, 2⟩
    (Sample.connectionsOf
      (splitStep Sample.env "A" "A" 2 Sample.loopStart ⟨[1, 7], 30, 30, ⟨30, 0⟩⟩).1.edgeCont "A")
    (Prod.ext rfl (by decide!)) (by decide) 1 (by decide!) (by decide) (by decide) (by decide)

/-! ## `insertNodeChecking` -/

theorem NBNodeCont.retrieveAt_position (nc : NBNodeCont) (pos : Position) (n : NBNode)
    (h : nc.retrieveAt pos = some n) : n.position = pos ∧ n ∈ nc := by
  unfold NBNodeCont.retrieveAt at h
  exact ⟨by simpa using List.find?_some h, List.mem_of_find?_eq_some h⟩

theorem NBNodeCont.retrieveAt_append (nc extra : NBNodeCont) (pos : Position) (n : NBNode)
    (h : nc.retrieveAt pos = some n) : (nc ++ extra).retrieveAt pos = some n := by
  unfold NBNodeCont.retrieveAt at h ⊢
  rw [List.find?_append, h]
  rfl

theorem NBNodeCont.retrieveAt_append_new (nc extra : NBNodeCont) (pos : Position) (id : String)
    (h : nc.retrieveAt pos = none) :
    NBNodeCont.retrieveAt (nc ++ [(⟨id, pos⟩ : NBNode)] ++ extra) pos = some ⟨id, pos⟩ := by
  unfold NBNodeCont.retrieveAt at h ⊢
  simp [List.find?_append, h, List.find?_cons]

/-- The call of `insertNodeChecking` for an end node given by position only. -/
theorem insertNodeChecking_unnamed (env : Env) (nc : NBNodeCont) (pos : Position)
    (hg : Spec.positionGiven pos) :
    insertNodeChecking env nc pos "" =
      match nc.retrieveAt pos with
      | some n => (nc, some n)
      | none =>
        match nc.insert ⟨env.getFreeID nc, pos⟩ with
        | (nc1, false) => (nc1, none)
        | (nc1, true) => (nc1, some ⟨env.getFreeID nc, pos⟩) := by
  unfold insertNodeChecking
  have hx : decide (pos.x = SUMOXML_INVALID_POSITION) = false := by simpa using hg.1
  have hy : decide (pos.y = SUMOXML_INVALID_POSITION) = false := by simpa using hg.2
  simp [hx, hy]

/-- **C13.** For an end node given by position only (empty name, both
coordinates given): when a node is registered at exactly that position,
`insertNodeChecking` returns it and leaves the node registry unchanged; when
none is and the generated identifier is fresh, exactly one node with that
identifier is appended at the position and returned.  Consequently a second
resolution of the same position, after any further nodes were added, returns
the node of the first: two edge records that declare the same end coordinate
without a name get the same node. -/
theorem insertNodeChecking_position_only (env : Env) (nc : NBNodeCont) (pos : Position)
    (hg : Spec.positionGiven pos) :
    (∀ n, nc.retrieveAt pos = some n →
      insertNodeChecking env nc pos "" = (nc, some n) ∧ n.position = pos ∧ n ∈ nc) ∧
    (nc.retrieveAt pos = none → nc.retrieve (env.getFreeID nc) = none →
      insertNodeChecking env nc pos ""
        = (nc ++ [⟨env.getFreeID nc, pos⟩], some ⟨env.getFreeID nc, pos⟩)) ∧
    (∀ n nc1, insertNodeChecking env nc pos "" = (nc1, some n) →
      n.position = pos ∧
      ∀ extra, insertNodeChecking env (nc1 ++ extra) pos "" = (nc1 ++ extra, some n)) := by
  refine ⟨?_, ?_, ?_⟩
  · intro n hn
    rw [insertNodeChecking_unnamed env nc pos hg, hn]
    exact ⟨rfl, NBNodeCont.retrieveAt_position nc pos n hn⟩
  · intro hnone hfresh
    rw [insertNodeChecking_unnamed env nc pos hg, hnone]
    simp [NBNodeCont.insert, hfresh]
  · intro n nc1 hres
    rw [insertNodeChecking_unnamed env nc pos hg] at hres
    cases hn : nc.retrieveAt pos with
    | some m =>
      simp only [hn, Prod.mk.injEq, Option.some.injEq] at hres
      obtain ⟨h1, h2⟩ := hres
      subst h1
      subst h2
      refine ⟨(NBNodeCont.retrieveAt_position nc pos m hn).1, fun extra => ?_⟩
      rw [insertNodeChecking_unnamed env _ pos hg,
        NBNodeCont.retrieveAt_append nc extra pos m hn]
    | none =>
      simp only [hn, NBNodeCont.insert] at hres
      cases hf : nc.retrieve (env.getFreeID nc) with
      | some x => simp [hf] at hres
      | none =>
        simp only [hf, Prod.mk.injEq, Option.some.injEq] at hres
        obtain ⟨h1, h2⟩ := hres
        subst h1
        subst h2
        refine ⟨rfl, fun extra => ?_⟩
        rw [insertNodeChecking_unnamed env _ pos hg,
          NBNodeCont.retrieveAt_append_new nc extra pos _ hn]

theorem insertNodeChecking_position_only_witness :
    ((∀ n, Sample.nodes.retrieveAt ⟨5, 5⟩ = some n →
        insertNodeChecking Sample.env Sample.nodes ⟨5, 5⟩ "" = (Sample.nodes, some n) ∧
          n.position = ⟨5, 5⟩ ∧ n ∈ Sample.nodes) ∧
      (Sample.nodes.retrieveAt ⟨5, 5⟩ = none →
        Sample.nodes.retrieve (Sample.env.getFreeID Sample.nodes) = none →
        insertNodeChecking Sample.env Sample.nodes ⟨5, 5⟩ ""
          = (Sample.nodes ++ [⟨Sample.env.getFreeID Sample.nodes, ⟨5, 5⟩⟩],
              some ⟨Sample.env.getFreeID Sample.nodes, ⟨5, 5⟩⟩)) ∧
      (∀ n nc1, insertNodeChecking Sample.env Sample.nodes ⟨5, 5⟩ "" = (nc1, some n) →
        n.position = ⟨5, 5⟩ ∧
        ∀ extra, insertNodeChecking Sample.env (nc1 ++ extra) ⟨5, 5⟩ ""
          = (nc1 ++ extra, some n))) ∧
    Sample.nodes.retrieveAt ⟨5, 5⟩ = none ∧
    Sample.nodes.retrieve (Sample.env.getFreeID Sample.nodes) = none ∧
    Sample.startNode (addEdge Sample.env Sample.handler Sample.recordFromPosition1).2
      = some "SUMOGenerated3" ∧
    Sample.startNode (addEdge Sample.env
        (addEdge Sample.env Sample.handler Sample.recordFromPosition1).1
        Sample.recordFromPosition2).2 = some "SUMOGenerated3" :=
  ⟨insertNodeChecking_position_only Sample.env Sample.nodes ⟨5, 5⟩ (by decide!),
    by decide!, by decide!, by decide!, by decide!⟩

theorem NBNodeCont.retrieve_node_id (nc : NBNodeCont) (name : String) (n : NBNode)
    (h : nc.retrieve name = some n) : n.id = name := by
  unfold NBNodeCont.retrieve at h
  simpa using List.find?_some h

theorem NBNodeCont.retrieve_append_new (nc : NBNodeCont) (name : String) (pos : Position)
    (h : nc.retrieve name = none) :
    NBNodeCont.retrieve (nc ++ [(⟨name, pos⟩ : NBNode)]) name = some ⟨name, pos⟩ := by
  unfold NBNodeCont.retrieve at h ⊢
  simp [List.find?_append, h, List.find?_cons]

/-- The call of `insertNodeChecking` for a named end node. -/
theorem insertNodeChecking_named (env : Env) (nc : NBNodeCont) (pos : Position) (name : String)
    (hname : name ≠ "") :
    insertNodeChecking env nc pos name =
      if Spec.positionGiven pos then
        match nc.insertNamed name pos with
        | (nc1, false) => (nc1, none)
        | (nc1, true) => (nc1, nc1.retrieve name)
      else (nc, nc.retrieve name) := by
  unfold insertNodeChecking Spec.positionGiven
  have h1 : (name == "") = false := by simpa using hname
  have h2 : (name != "") = true := by simpa using hname
  by_cases hx : pos.x = SUMOXML_INVALID_POSITION <;>
    by_cases hy : pos.y = SUMOXML_INVALID_POSITION <;> simp [h1, h2, hx, hy]

/-- The call of `insertNodeChecking` with neither a name nor a position. -/
theorem insertNodeChecking_missing (env : Env) (nc : NBNodeCont) (pos : Position)
    (hg : ¬ Spec.positionGiven pos) : insertNodeChecking env nc pos "" = (nc, none) := by
  unfold insertNodeChecking
  unfold Spec.positionGiven at hg
  by_cases hx : pos.x = SUMOXML_INVALID_POSITION
  · simp [hx]
  · have hy : pos.y = SUMOXML_INVALID_POSITION := by
      by_contra hy
      exact hg ⟨hx, hy⟩
    simp [hy]

/-- **C14, as stated, fails.** The name `ghost` is not registered and both
coordinates are given: `insertNodeChecking` registers the position under the
name and returns the new node.  Case (c) of the claim ("the name is non-empty
and no node of that name is registered") holds for this input, so the
equivalence of the claim is false here. -/
theorem insertNodeChecking_new_name_with_position :
    ("ghost" : String) ≠ "" ∧ Sample.nodes.retrieve "ghost" = none ∧
    Spec.positionGiven ⟨5, 5⟩ ∧
    insertNodeChecking Sample.env Sample.nodes ⟨5, 5⟩ "ghost"
      = (Sample.nodes ++ [⟨"ghost", ⟨5, 5⟩⟩], some ⟨"ghost", ⟨5, 5⟩⟩) ∧
    ¬ ((insertNodeChecking Sample.env Sample.nodes ⟨5, 5⟩ "ghost").2 = none ↔
      (("ghost" : String) = "" ∧ ¬ Spec.positionGiven ⟨5, 5⟩) ∨
      (("ghost" : String) ≠ "" ∧ Spec.positionGiven ⟨5, 5⟩ ∧
        (Sample.nodes.insertNamed "ghost" ⟨5, 5⟩).2 = false) ∨
      (("ghost" : String) ≠ "" ∧ Sample.nodes.retrieve "ghost" = none) ∨
      (("ghost" : String) = "" ∧ Spec.positionGiven ⟨5, 5⟩ ∧
        Sample.nodes.retrieveAt ⟨5, 5⟩ = none ∧
        (Sample.nodes.insert ⟨Sample.env.getFreeID Sample.nodes, ⟨5, 5⟩⟩).2 = false)) := by
  refine ⟨by decide, by decide!, by decide!, by decide!, ?_⟩
  intro h
  have hnone := h.mpr (Or.inr (Or.inr (Or.inl ⟨by decide, by decide!⟩)))
  exact absurd hnone (by decide!)

/-- **C14, amended.** The call `insertNodeChecking` returns no node exactly when
(a) the name is empty and a coordinate is not given, (b) the name is not empty,
both coordinates are given and registering the position under the name is
refused, (c) the name is not empty, a coordinate is not given and no node of
that name is registered, or (d) the name is empty, no node is at the position
and the insertion of the generated node fails.  In case (a) the node registry
is unchanged.  In every other case the result is the node the resulting
registry holds under the name, respectively at the position. -/
theorem insertNodeChecking_failure (env : Env) (nc : NBNodeCont) (pos : Position)
    (name : String) :
    ((insertNodeChecking env nc pos name).2 = none ↔
      (name = "" ∧ ¬ Spec.positionGiven pos) ∨
      (name ≠ "" ∧ Spec.positionGiven pos ∧ (nc.insertNamed name pos).2 = false) ∨
      (name ≠ "" ∧ ¬ Spec.positionGiven pos ∧ nc.retrieve name = none) ∨
      (name = "" ∧ Spec.positionGiven pos ∧ nc.retrieveAt pos = none ∧
        (nc.insert ⟨env.getFreeID nc, pos⟩).2 = false)) ∧
    (name = "" → ¬ Spec.positionGiven pos → (insertNodeChecking env nc pos name).1 = nc) ∧
    (∀ n, (insertNodeChecking env nc pos name).2 = some n →
      (name ≠ "" →
        n.id = name ∧ (insertNodeChecking env nc pos name).1.retrieve name = some n) ∧
      (name = "" →
        n.position = pos ∧ (insertNodeChecking env nc pos name).1.retrieveAt pos = some n)) := by
  by_cases hname : name = ""
  · subst hname
    by_cases hg : Spec.positionGiven pos
    · rw [insertNodeChecking_unnamed env nc pos hg]
      cases hn : nc.retrieveAt pos with
      | some m =>
        simp only [hn]
        refine ⟨?_, fun _ h => absurd hg h, ?_⟩
        · simp [hg]
        · intro n h
          simp only [Option.some.injEq] at h
          subst h
          exact ⟨fun h => absurd rfl h,
            fun _ => ⟨(NBNodeCont.retrieveAt_position nc pos m hn).1, rfl⟩⟩
      | none =>
        simp only [hn, NBNodeCont.insert]
        cases hf : nc.retrieve (env.getFreeID nc) with
        | some x =>
          simp only [hf]
          refine ⟨?_, fun _ h => absurd hg h, ?_⟩
          · simp [hg]
          · intro n h
            simp at h
        | none =>
          simp only [hf]
          refine ⟨?_, fun _ h => absurd hg h, ?_⟩
          · simp [hg]
          · intro n h
            simp only [Option.some.injEq] at h
            subst h
            refine ⟨fun h => absurd rfl h, fun _ => ⟨rfl, ?_⟩⟩
            have := NBNodeCont.retrieveAt_append_new nc [] pos (env.getFreeID nc) hn
            simpa using this
    · rw [insertNodeChecking_missing env nc pos hg]
      refine ⟨?_, fun _ _ => rfl, ?_⟩
      · simp [hg]
      · intro n h
        simp at h
  · refine ⟨?_, fun h => absurd h hname, ?_⟩
    · rw [insertNodeChecking_named env nc pos name hname]
      unfold NBNodeCont.insertNamed
      by_cases hg : Spec.positionGiven pos
      · cases hr : nc.retrieve name with
        | some m =>
          by_cases hp : m.position = pos <;> simp [hg, hr, hp, hname]
        | none => simp [hg, hr, hname, NBNodeCont.retrieve_append_new nc name pos hr]
      · simp [hg, hname]
    · intro n h
      refine ⟨fun _ => ?_, fun h => absurd h hname⟩
      rw [insertNodeChecking_named env nc pos name hname] at h ⊢
      unfold NBNodeCont.insertNamed at h ⊢
      by_cases hg : Spec.positionGiven pos
      · cases hr : nc.retrieve name with
        | some m =>
          by_cases hp : m.position = pos
          · simp only [hg, hr, hp, if_true, decide_True] at h ⊢
            exact ⟨NBNodeCont.retrieve_node_id nc name n (hr.trans h), h⟩
          · simp [hg, hr, hp] at h
        | none =>
          simp only [hg, hr, if_true] at h ⊢
          exact ⟨NBNodeCont.retrieve_node_id _ name n h, h⟩
      · simp only [hg, if_false] at h ⊢
        exact ⟨NBNodeCont.retrieve_node_id nc name n h, h⟩

theorem insertNodeChecking_failure_witness :
    (insertNodeChecking Sample.env Sample.nodes ⟨5, 5⟩ "n1").2 = none ∧
    (insertNodeChecking Sample.env Sample.nodes ⟨SUMOXML_INVALID_POSITION, 0⟩ "ghost").2 = none ∧
    (insertNodeChecking Sample.env Sample.nodes ⟨SUMOXML_INVALID_POSITION, 0⟩ "").2 = none ∧
    ((insertNodeChecking Sample.env Sample.nodes ⟨5, 5⟩ "ghost").2 = some ⟨"ghost", ⟨5, 5⟩⟩ →
      (⟨"ghost", ⟨5, 5⟩⟩ : NBNode).id = "ghost" ∧
      (insertNodeChecking Sample.env Sample.nodes ⟨5, 5⟩ "ghost").1.retrieve "ghost"
        = some ⟨"ghost", ⟨5, 5⟩⟩) ∧
    (insertNodeChecking Sample.env Sample.nodes ⟨5, 5⟩ "ghost").2 = some ⟨"ghost", ⟨5, 5⟩⟩ :=
  ⟨(insertNodeChecking_failure Sample.env Sample.nodes ⟨5, 5⟩ "n1").1.mpr
      (Or.inr (Or.inl ⟨by decide, by decide!, by decide!⟩)),
    (insertNodeChecking_failure Sample.env Sample.nodes ⟨SUMOXML_INVALID_POSITION, 0⟩
      "ghost").1.mpr (Or.inr (Or.inr (Or.inl ⟨by decide, by decide!, by decide!⟩))),
    (insertNodeChecking_failure Sample.env Sample.nodes ⟨SUMOXML_INVALID_POSITION, 0⟩ "").1.mpr
      (Or.inl ⟨rfl, by decide!⟩),
    fun h => ((insertNodeChecking_failure Sample.env Sample.nodes ⟨5, 5⟩ "ghost").2.2
      ⟨"ghost", ⟨5, 5⟩⟩ h).1 (by decide),
    by decide!⟩

/-! ## The end nodes, the shape and the permissions of a completed record -/

/-- The method `setNodes`, with the pairs it reads written as projections. -/
theorem setNodes_eq (env : Env) (h : Handler) (sh : PositionVector) (attrs : EdgeAttrs) :
    setNodes env h sh attrs =
      if !(nodeIDs h attrs).2.2 then
        ({ h with myHaveWarnedAboutDeprecatedFromTo := h.myHaveWarnedAboutDeprecatedFromTo ||
            attrs.fromNodeDeprecated.hasAttribute || attrs.toNodeDeprecated.hasAttribute },
          sh, none)
      else
        match (insertNodeChecking env h.myNodeCont
            (transformIfGiven env (tryGetPosition attrs.xfrom) (tryGetPosition attrs.yfrom))
            (nodeIDs h attrs).1).2,
          (insertNodeChecking env
            (insertNodeChecking env h.myNodeCont
              (transformIfGiven env (tryGetPosition attrs.xfrom) (tryGetPosition attrs.yfrom))
              (nodeIDs h attrs).1).1
            (transformIfGiven env (tryGetPosition attrs.xto) (tryGetPosition attrs.yto))
            (nodeIDs h attrs).2.1).2 with
        | some f, some t =>
          if endsChanged h f t then
            ({ h with
                myNodeCont := (insertNodeChecking env
                  (insertNodeChecking env h.myNodeCont
                    (transformIfGiven env (tryGetPosition attrs.xfrom)
                      (tryGetPosition attrs.yfrom))
                    (nodeIDs h attrs).1).1
                  (transformIfGiven env (tryGetPosition attrs.xto) (tryGetPosition attrs.yto))
                  (nodeIDs h attrs).2.1).1,
                myHaveWarnedAboutDeprecatedFromTo :=
                  h.myHaveWarnedAboutDeprecatedFromTo ||
                  attrs.fromNodeDeprecated.hasAttribute ||
                  attrs.toNodeDeprecated.hasAttribute ||
                  (decide (tryGetPosition attrs.xfrom ≠ SUMOXML_INVALID_POSITION) &&
                    decide (tryGetPosition attrs.yfrom ≠ SUMOXML_INVALID_POSITION)) ||
                  (decide (tryGetPosition attrs.xto ≠ SUMOXML_INVALID_POSITION) &&
                    decide (tryGetPosition attrs.yto ≠ SUMOXML_INVALID_POSITION)) },
              PositionVector.empty, some (f, t))
          else
            ({ h with
                myNodeCont := (insertNodeChecking env
                  (insertNodeChecking env h.myNodeCont
                    (transformIfGiven env (tryGetPosition attrs.xfrom)
                      (tryGetPosition attrs.yfrom))
                    (nodeIDs h attrs).1).1
                  (transformIfGiven env (tryGetPosition attrs.xto) (tryGetPosition attrs.yto))
                  (nodeIDs h attrs).2.1).1,
                myHaveWarnedAboutDeprecatedFromTo :=
                  h.myHaveWarnedAboutDeprecatedFromTo ||
                  attrs.fromNodeDeprecated.hasAttribute ||
                  attrs.toNodeDeprecated.hasAttribute ||
                  (decide (tryGetPosition attrs.xfrom ≠ SUMOXML_INVALID_POSITION) &&
                    decide (tryGetPosition attrs.yfrom ≠ SUMOXML_INVALID_POSITION)) ||
                  (decide (tryGetPosition attrs.xto ≠ SUMOXML_INVALID_POSITION) &&
                    decide (tryGetPosition attrs.yto ≠ SUMOXML_INVALID_POSITION)) },
              sh, some (f, t))
        | _, _ =>
          ({ h with
              myNodeCont := (insertNodeChecking env
                (insertNodeChecking env h.myNodeCont
                  (transformIfGiven env (tryGetPosition attrs.xfrom)
                    (tryGetPosition attrs.yfrom))
                  (nodeIDs h attrs).1).1
                (transformIfGiven env (tryGetPosition attrs.xto) (tryGetPosition attrs.yto))
                (nodeIDs h attrs).2.1).1,
              myHaveWarnedAboutDeprecatedFromTo :=
                h.myHaveWarnedAboutDeprecatedFromTo ||
                attrs.fromNodeDeprecated.hasAttribute ||
                attrs.toNodeDeprecated.hasAttribute ||
                (decide (tryGetPosition attrs.xfrom ≠ SUMOXML_INVALID_POSITION) &&
                  decide (tryGetPosition attrs.yfrom ≠ SUMOXML_INVALID_POSITION)) ||
                (decide (tryGetPosition attrs.xto ≠ SUMOXML_INVALID_POSITION) &&
                  decide (tryGetPosition attrs.yto ≠ SUMOXML_INVALID_POSITION)) },
            sh, none) := by
  rfl

/-- The method `finishEdge`, with the tuples it reads written as projections. -/
theorem finishEdge_eq (env : Env) (h : Handler) (attrs : EdgeAttrs) (s : Scratch) (ok : Bool) :
    finishEdge env h attrs s ok =
      match (nodesOf env h attrs s ok).2.2 with
      | none => ((nodesOf env h attrs s ok).1, .nodesFailed)
      | some ft =>
        if !(attrs.length.getOptReporting (-1)
            (readFields env h.myOptions attrs s ok
              h.myHaveWarnedAboutDeprecatedNoLanes).1.myLength
            (readFields env h.myOptions attrs s ok
              h.myHaveWarnedAboutDeprecatedNoLanes).2.1).2 then
          (handlerAtBuild env h attrs s ok, .notOk)
        else
          match (handlerAtBuild env h attrs s ok).myCurrentEdge with
          | some _ =>
            ((((handlerAtBuild env h attrs s ok).modifyCurrent (fun e => NBEdge.reinit env e
                  ((membersAtBuild env h attrs s ok).toArgs
                    (handlerAtBuild env h attrs s ok).myCurrentID ft.1 ft.2
                    (handlerAtBuild env h attrs s ok).myOptions.keepEdgeShape))).modifyCurrent
                (fun e => e.setLoadedLength (membersAtBuild env h attrs s ok).myLength)).modifyCurrent
                (fun e => e.setPermissions (membersAtBuild env h attrs s ok).myPermissions (-1)),
              .reinit ((membersAtBuild env h attrs s ok).toArgs
                (handlerAtBuild env h attrs s ok).myCurrentID ft.1 ft.2
                (handlerAtBuild env h attrs s ok).myOptions.keepEdgeShape))
          | none =>
            ((({ handlerAtBuild env h attrs s ok with
                  myCurrentEdge := some (.pending (NBEdge.construct env
                    ((membersAtBuild env h attrs s ok).toArgs
                      (handlerAtBuild env h attrs s ok).myCurrentID ft.1 ft.2
                      (if (membersAtBuild env h attrs s ok).myShape.size == 0 then false
                        else (handlerAtBuild env h attrs s ok).myOptions.keepEdgeShape)))) }
                : Handler).modifyCurrent
                (fun e => e.setLoadedLength (membersAtBuild env h attrs s ok).myLength)).modifyCurrent
                (fun e => e.setPermissions (membersAtBuild env h attrs s ok).myPermissions (-1)),
              .constructed ((membersAtBuild env h attrs s ok).toArgs
                (handlerAtBuild env h attrs s ok).myCurrentID ft.1 ft.2
                (if (membersAtBuild env h attrs s ok).myShape.size == 0 then false
                  else (handlerAtBuild env h attrs s ok).myOptions.keepEdgeShape))) := by
  unfold finishEdge
  simp only []
  split
  · rename_i h1 x hx
    have hx1 : nodesOf env h attrs s ok = (h1, x, none) := hx
    simp only [hx1]
  · rename_i h1 sh f t hx
    have hx1 : nodesOf env h attrs s ok = (h1, sh, some (f, t)) := hx
    simp only [handlerAtBuild, membersAtBuild, hx1]

/-- The method `setNodes` writes the node registry and a warning flag only. -/
theorem setNodes_frame (env : Env) (h : Handler) (sh : PositionVector) (attrs : EdgeAttrs) :
    (setNodes env h sh attrs).1.myEdgeCont = h.myEdgeCont ∧
    (setNodes env h sh attrs).1.myCurrentEdge = h.myCurrentEdge ∧
    (setNodes env h sh attrs).1.myCurrentID = h.myCurrentID ∧
    (setNodes env h sh attrs).1.myOptions = h.myOptions ∧
    (setNodes env h sh attrs).1.myIsUpdate = h.myIsUpdate := by
  rw [setNodes_eq]
  split
  · exact ⟨rfl, rfl, rfl, rfl, rfl⟩
  · split
    · split <;> exact ⟨rfl, rfl, rfl, rfl, rfl⟩
    · exact ⟨rfl, rfl, rfl, rfl, rfl⟩

/-- The shape member after `setNodes` succeeded: emptied when an update names
an end node other than the one of the registered edge. -/
theorem setNodes_shape (env : Env) (h : Handler) (sh : PositionVector) (attrs : EdgeAttrs)
    (f t : NBNode) (hs : (setNodes env h sh attrs).2.2 = some (f, t)) :
    (setNodes env h sh attrs).2.1 = if endsChanged h f t then PositionVector.empty else sh := by
  rw [setNodes_eq] at hs ⊢
  split at hs
  · simp at hs
  · rename_i hok
    rw [if_neg hok]
    split at hs
    · rename_i f1 t1 hf ht
      split at hs
      · rename_i hc
        simp only [Option.some.injEq, Prod.mk.injEq] at hs
        obtain ⟨rfl, rfl⟩ := hs
        rw [if_pos hc, if_pos hc]
      · rename_i hc
        simp only [Option.some.injEq, Prod.mk.injEq] at hs
        obtain ⟨rfl, rfl⟩ := hs
        rw [if_neg hc, if_neg hc]
    · simp at hs

/-- A completed record: the end nodes and the shape handed over are those
`setNodes` and `tryGetShape` return. -/
theorem finishEdge_nodes (env : Env) (h : Handler) (attrs : EdgeAttrs) (s : Scratch) (ok : Bool)
    (a : EdgeArgs)
    (hdone : (finishEdge env h attrs s ok).2 = .reinit a ∨
      (finishEdge env h attrs s ok).2 = .constructed a) :
    (nodesOf env h attrs s ok).2.2 = some (a.fromNode, a.toNode) ∧
    a.shape = tryGetShape env (nodesOf env h attrs s ok).2.1 attrs := by
  rw [finishEdge_eq] at hdone
  split at hdone
  · simp at hdone
  · rename_i ft hft
    split at hdone
    · simp at hdone
    · split at hdone <;>
        · simp only [EdgeOutcome.reinit.injEq, EdgeOutcome.constructed.injEq, reduceCtorEq,
            or_false, false_or] at hdone
          subst hdone
          exact ⟨hft, rfl⟩

theorem handlerAtBuild_currentEdge (env : Env) (h : Handler) (attrs : EdgeAttrs) (s : Scratch)
    (ok : Bool) :
    (handlerAtBuild env h attrs s ok).myCurrentEdge = h.myCurrentEdge ∧
    (handlerAtBuild env h attrs s ok).currentEdge = h.currentEdge := by
  obtain ⟨h1, h2, -⟩ := setNodes_frame env
    { h with myHaveWarnedAboutDeprecatedNoLanes :=
        (readFields env h.myOptions attrs s ok h.myHaveWarnedAboutDeprecatedNoLanes).2.2 }
    (readFields env h.myOptions attrs s ok h.myHaveWarnedAboutDeprecatedNoLanes).1.myShape attrs
  have e1 : (handlerAtBuild env h attrs s ok).myCurrentEdge = h.myCurrentEdge := h2
  have e2 : (handlerAtBuild env h attrs s ok).myEdgeCont = h.myEdgeCont := h1
  refine ⟨e1, ?_⟩
  unfold Handler.currentEdge
  rw [e1, e2]

theorem NBEdge.reinit_id (env : Env) (e : NBEdge) (a : EdgeArgs) :
    (NBEdge.reinit env e a).id = e.id := rfl

theorem NBEdge.setPermissions_all (e : NBEdge) (p : SVCPermissions) :
    (e.setPermissions p (-1)).id = e.id ∧
    ∀ l ∈ (e.setPermissions p (-1)).lanes, l.permissions = p := by
  unfold NBEdge.setPermissions NBEdge.modifyLane
  rw [if_pos (by decide)]
  refine ⟨rfl, ?_⟩
  intro l hl
  simp only [List.mem_map] at hl
  obtain ⟨l0, -, rfl⟩ := hl
  rfl

/-- A completed record: every lane of the current edge has the permission set
in the member `myPermissions` after the fields were read. -/
theorem finishEdge_permissions (env : Env) (h : Handler) (attrs : EdgeAttrs) (s : Scratch)
    (ok : Bool) (a : EdgeArgs)
    (hdone : (finishEdge env h attrs s ok).2 = .reinit a ∨
      (finishEdge env h attrs s ok).2 = .constructed a)
    (hcur : h.myCurrentEdge = none ∨ ∃ e, h.currentEdge = some e) :
    ∃ e1, (finishEdge env h attrs s ok).1.currentEdge = some e1 ∧
      ∀ l ∈ e1.lanes, l.permissions =
        (readFields env h.myOptions attrs s ok
          h.myHaveWarnedAboutDeprecatedNoLanes).1.myPermissions := by
  obtain ⟨hc1, hc2⟩ := handlerAtBuild_currentEdge env h attrs s ok
  rw [finishEdge_eq] at hdone ⊢
  split at hdone
  · simp at hdone
  · rename_i ft hft
    split at hdone
    · simp at hdone
    · rename_i hok
      rw [if_neg hok]
      split at hdone
      · rename_i r hr
        rcases hcur with hn | ⟨e, he⟩
        · rw [hc1, hn] at hr
          simp at hr
        · have k1 := Handler.currentEdge_modifyCurrent (handlerAtBuild env h attrs s ok)
            (fun e => NBEdge.reinit env e ((membersAtBuild env h attrs s ok).toArgs
              (handlerAtBuild env h attrs s ok).myCurrentID ft.1 ft.2
              (handlerAtBuild env h attrs s ok).myOptions.keepEdgeShape)) e (fun _ => rfl)
            (hc2.trans he)
          have k2 := Handler.currentEdge_modifyCurrent _
            (fun e => e.setLoadedLength (membersAtBuild env h attrs s ok).myLength) _
            (fun _ => rfl) k1
          have k3 := Handler.currentEdge_modifyCurrent _
            (fun e => e.setPermissions (membersAtBuild env h attrs s ok).myPermissions (-1)) _
            (fun x => (NBEdge.setPermissions_all x _).1) k2
          exact ⟨_, k3, (NBEdge.setPermissions_all _ _).2⟩
      · rename_i hr
        have k2 := Handler.currentEdge_modifyCurrent
          ({ handlerAtBuild env h attrs s ok with
              myCurrentEdge := some (.pending (NBEdge.construct env
                ((membersAtBuild env h attrs s ok).toArgs
                  (handlerAtBuild env h attrs s ok).myCurrentID ft.1 ft.2
                  (if (membersAtBuild env h attrs s ok).myShape.size == 0 then false
                    else (handlerAtBuild env h attrs s ok).myOptions.keepEdgeShape)))) } : Handler)
          (fun e => e.setLoadedLength (membersAtBuild env h attrs s ok).myLength) _
          (fun _ => rfl) rfl
        have k3 := Handler.currentEdge_modifyCurrent _
          (fun e => e.setPermissions (membersAtBuild env h attrs s ok).myPermissions (-1)) _
          (fun x => (NBEdge.setPermissions_all x _).1) k2
        exact ⟨_, k3, (NBEdge.setPermissions_all _ _).2⟩

/-- A record that completes: `addEdge` ends in `finishEdge`, called on the
defaults overwritten by the named type and then by the registered edge. -/
theorem addEdge_completes (env : Env) (h : Handler) (attrs : EdgeAttrs) (a : EdgeArgs)
    (hdone : (addEdge env h attrs).2 = .reinit a ∨ (addEdge env h attrs).2 = .constructed a) :
    ∃ id, attrs.id = .value id ∧ ∃ (h1 : Handler) (s0 : Scratch) (ok : Bool),
      addEdge env h attrs = finishEdge env h1 attrs
        (((h.myEdgeCont.retrieve id).map s0.usePrior).getD s0) ok ∧
      h1.myEdgeCont = h.myEdgeCont ∧ h1.myOptions = h.myOptions ∧
      h1.myCurrentEdge = (h.myEdgeCont.retrieve id).map (fun _ => EdgeRef.registered id) ∧
      h1.myIsUpdate = (h.myEdgeCont.retrieve id).isSome ∧
      s0.myShape = PositionVector.empty ∧
      s0.myPermissions =
        h.myTypeCont.getPermissions ((Spec.namedType h.myTypeCont attrs).getD "") := by
  unfold addEdge at hdone ⊢
  cases hid : attrs.id with
  | absent => simp [hid, Field.getReporting] at hdone
  | malformed => simp [hid, Field.getReporting] at hdone
  | value id =>
    refine ⟨id, rfl, ?_⟩
    simp only [hid, Field.getReporting, Bool.not_true, Bool.false_eq_true, if_false] at hdone ⊢
    cases hty : attrs.type with
    | malformed => simp [hty, Field.hasAttribute, Field.getReporting] at hdone
    | absent =>
      simp only [hty, Field.hasAttribute, Bool.false_eq_true, if_false] at hdone ⊢
      unfold updateOrCreate at hdone ⊢
      cases hp : h.myEdgeCont.retrieve id with
      | none =>
        simp only [hp] at hdone ⊢
        exact ⟨_, Scratch.defaults h.myTypeCont, _, rfl, rfl, rfl, rfl, rfl, rfl,
          by simp [Spec.namedType, hty, Scratch.defaults]⟩
      | some e =>
        simp only [hp] at hdone ⊢
        split at hdone
        · simp at hdone
        · rename_i hrem
          rw [if_neg hrem]
          exact ⟨_, Scratch.defaults h.myTypeCont, _, rfl, rfl, rfl, rfl, rfl, rfl,
            by simp [Spec.namedType, hty, Scratch.defaults]⟩
    | value t =>
      simp only [hty, Field.hasAttribute, if_true, Field.getReporting, Bool.not_true,
        Bool.false_eq_true, if_false] at hdone ⊢
      split at hdone
      · simp at hdone
      · rename_i hk
        rw [if_neg hk]
        simp only [Bool.not_eq_true, Bool.not_eq_false'] at hk
        unfold updateOrCreate at hdone ⊢
        cases hp : h.myEdgeCont.retrieve id with
        | none =>
          simp only [hp] at hdone ⊢
          exact ⟨_, (Scratch.defaults h.myTypeCont).useType h.myTypeCont t, _,
            rfl, rfl, rfl, rfl, rfl, rfl,
            by simp [Spec.namedType, hty, hk, Scratch.defaults, Scratch.useType]⟩
        | some e =>
          simp only [hp] at hdone ⊢
          split at hdone
          · simp at hdone
          · rename_i hrem
            rw [if_neg hrem]
            exact ⟨_, (Scratch.defaults h.myTypeCont).useType h.myTypeCont t, _,
              rfl, rfl, rfl, rfl, rfl, rfl,
              by simp [Spec.namedType, hty, hk, Scratch.defaults, Scratch.useType]⟩

theorem NBEdge.getPermissions_uniform (e : NBEdge) (p : SVCPermissions)
    (h : ∀ l ∈ e.lanes, l.permissions = p) (hne : e.lanes ≠ []) : e.getPermissions = p := by
  unfold NBEdge.getPermissions
  have key : ∀ (ls : List Lane) (acc : SVCPermissions), (∀ l ∈ ls, l.permissions = p) →
      acc ||| p = p → ls ≠ [] → ls.foldl (fun acc l => acc ||| l.permissions) acc = p := by
    intro ls
    induction ls with
    | nil => intro _ _ _ hn; exact absurd rfl hn
    | cons l rest ih =>
      intro acc hall hacc _
      simp only [List.foldl_cons]
      have hl : l.permissions = p := hall l (List.mem_cons_self _ _)
      rw [hl, hacc]
      by_cases hr : rest = []
      · subst hr
        rfl
      · exact ih p (fun x hx => hall x (List.mem_cons_of_mem _ hx)) (Nat.or_self p) hr
  exact key e.lanes 0 h (Nat.zero_or p) hne

theorem Spec.classList_eq (f : Field String) :
    (if f.hasAttribute then f.getStringSecure "" else "") = Spec.classList f := by
  cases f <;> rfl

/-- **C16.** Whenever `addEdge` completes, every lane of the resulting current
edge (and so the edge, when it has a lane) has the permission set
`Spec.recordPermissions`: the value of `parseVehicleClasses` on the record's
`allow` and `disallow` texts when the record carries either field, whatever the
named type or the registered edge allow; and when it carries neither, the
permissions of the registered edge on an update, else those of the named type,
else the default ones. -/
theorem addEdge_permissions_replace (env : Env) (h : Handler) (attrs : EdgeAttrs) (a : EdgeArgs)
    (hdone : (addEdge env h attrs).2 = .reinit a ∨ (addEdge env h attrs).2 = .constructed a) :
    ∃ id e1, attrs.id = .value id ∧ (addEdge env h attrs).1.currentEdge = some e1 ∧
      (∀ l ∈ e1.lanes, l.permissions = Spec.recordPermissions env h attrs id) ∧
      (e1.lanes ≠ [] → e1.getPermissions = Spec.recordPermissions env h attrs id) := by
  obtain ⟨id, hid, h1, s0, ok, heq, hec, -, hcur, -, -, hperm⟩ :=
    addEdge_completes env h attrs a hdone
  rw [heq] at hdone ⊢
  have hc : h1.myCurrentEdge = none ∨ ∃ e, h1.currentEdge = some e := by
    cases hp : h.myEdgeCont.retrieve id with
    | none => left; rw [hcur, hp]; rfl
    | some e =>
      right
      refine ⟨e, ?_⟩
      unfold Handler.currentEdge
      rw [hcur, hp, hec]
      exact hp
  obtain ⟨e1, he1, hl⟩ := finishEdge_permissions env h1 attrs _ ok a hdone hc
  have hP : (readFields env h1.myOptions attrs
      (((h.myEdgeCont.retrieve id).map s0.usePrior).getD s0) ok
      h1.myHaveWarnedAboutDeprecatedNoLanes).1.myPermissions
        = Spec.recordPermissions env h attrs id := by
    unfold Spec.recordPermissions
    simp only [readFields, Spec.classList_eq]
    split_ifs
    · rfl
    · cases hp : h.myEdgeCont.retrieve id with
      | none =>
        simp only [Option.map_none', Option.getD_none, hperm]
        cases Spec.namedType h.myTypeCont attrs <;> rfl
      | some e => rfl
  rw [hP] at hl
  exact ⟨id, e1, hid, he1, hl, fun hne => NBEdge.getPermissions_uniform e1 _ hl hne⟩

theorem addEdge_permissions_replace_witness :
    (∃ id e1, Sample.recordBusA.id = .value id ∧
      (addEdge Sample.env Sample.handler Sample.recordBusA).1.currentEdge = some e1 ∧
      (∀ l ∈ e1.lanes, l.permissions
        = Spec.recordPermissions Sample.env Sample.handler Sample.recordBusA id) ∧
      (e1.lanes ≠ [] → e1.getPermissions
        = Spec.recordPermissions Sample.env Sample.handler Sample.recordBusA id)) ∧
    Spec.recordPermissions Sample.env Sample.handler Sample.recordBusA "A" = 1300 ∧
    Sample.lanePermissions (addEdge Sample.env Sample.handler Sample.recordBusA).1
      = some [1300, 1300] ∧
    Sample.lanePermissions (addEdge Sample.env Sample.handler Sample.recordHighwayA).1
      = some [1023, 1023] ∧
    Sample.lanePermissions (addEdge Sample.env Sample.handler Sample.recordHighwayH).1
      = some [7, 7, 7] :=
  ⟨addEdge_permissions_replace Sample.env Sample.handler Sample.recordBusA
      (Sample.argsOf (addEdge Sample.env Sample.handler Sample.recordBusA).2)
      (Or.inl (by decide!)),
    by decide!, by decide!, by decide!, by decide!⟩

/-- **C17.** An update record without a shape field that completes (the
registered edge `e` is re-initialised with the arguments `a`): when a resolved
end node differs in its identifier from the one `e` has, the shape handed to
`reinit` is empty; when both are the ones `e` has and the geometry of `e` is
not the default one, the shape handed to `reinit` is the geometry of `e`. -/
theorem addEdge_update_shape (env : Env) (h : Handler) (attrs : EdgeAttrs) (a : EdgeArgs)
    (id : String) (e : NBEdge) (hid : attrs.id = .value id)
    (hprior : h.myEdgeCont.retrieve id = some e)
    (hshape : attrs.shape.hasAttribute = false)
    (hdone : (addEdge env h attrs).2 = .reinit a) :
    ((a.fromNode.id ≠ e.myFrom.id ∨ a.toNode.id ≠ e.myTo.id) →
      a.shape = PositionVector.empty) ∧
    (a.fromNode.id = e.myFrom.id → a.toNode.id = e.myTo.id → e.hasDefaultGeometry = false →
      a.shape = e.getGeometry) := by
  obtain ⟨id1, hid1, h1, s0, ok, heq, hec, -, hcur, hupd, -, -⟩ :=
    addEdge_completes env h attrs a (Or.inl hdone)
  rw [hid] at hid1
  cases hid1
  rw [heq] at hdone
  obtain ⟨hn, hs⟩ := finishEdge_nodes env h1 attrs _ ok a (Or.inl hdone)
  have hsh := setNodes_shape env _ _ attrs a.fromNode a.toNode hn
  have hts : a.shape = (nodesOf env h1 attrs
      (((h.myEdgeCont.retrieve id).map s0.usePrior).getD s0) ok).2.1 := by
    rw [hs]
    unfold tryGetShape
    simp [hshape]
  have hce : h1.currentEdge = some e := by
    unfold Handler.currentEdge
    rw [hcur, hprior, hec]
    exact hprior
  have hch : endsChanged { h1 with myHaveWarnedAboutDeprecatedNoLanes :=
        (readFields env h1.myOptions attrs (((h.myEdgeCont.retrieve id).map s0.usePrior).getD s0)
          ok h1.myHaveWarnedAboutDeprecatedNoLanes).2.2 } a.fromNode a.toNode
      = (a.fromNode.id != e.myFrom.id || a.toNode.id != e.myTo.id) := by
    have hce1 : Handler.currentEdge { h1 with myHaveWarnedAboutDeprecatedNoLanes :=
        (readFields env h1.myOptions attrs (((h.myEdgeCont.retrieve id).map s0.usePrior).getD s0)
          ok h1.myHaveWarnedAboutDeprecatedNoLanes).2.2 } = some e := hce
    unfold endsChanged
    rw [hce1]
    simp [hupd, hprior]
  have hshape2 : a.shape =
      if (a.fromNode.id != e.myFrom.id || a.toNode.id != e.myTo.id) then PositionVector.empty
      else if !e.hasDefaultGeometry then e.getGeometry else s0.myShape := by
    rw [hts]
    unfold nodesOf
    rw [hsh, hch]
    simp only [hprior, readFields, Option.map_some', Option.getD_some, Scratch.usePrior]
  constructor
  · intro hne
    rw [hshape2, if_pos]
    rcases hne with hne | hne <;> simp [hne]
  · intro hf ht hd
    rw [hshape2, if_neg (by simp [hf, ht]), hd]
    rfl

theorem addEdge_update_shape_witness :
    (Sample.argsOf (addEdge Sample.env Sample.handler Sample.recordMoveA).2).shape
      = PositionVector.empty ∧
    (Sample.argsOf (addEdge Sample.env Sample.handlerG { id := .value "G" }).2).shape
      = Sample.edgeG.getGeometry :=
  ⟨(addEdge_update_shape Sample.env Sample.handler Sample.recordMoveA
      (Sample.argsOf (addEdge Sample.env Sample.handler Sample.recordMoveA).2) "A" Sample.edgeA
      rfl (by decide!) rfl (by decide!)).1 (Or.inr (by decide!)),
    (addEdge_update_shape Sample.env Sample.handlerG { id := .value "G" }
      (Sample.argsOf (addEdge Sample.env Sample.handlerG { id := .value "G" }).2) "G"
      Sample.edgeG rfl (by decide!) rfl (by decide!)).2 (by decide!) (by decide!) (by decide!)⟩

/-! ## The lanes of a split -/

theorem NBEdge.modifyLane_numLanes (e : NBEdge) (lane : Int) (f : Lane → Lane) :
    (e.modifyLane lane f).getNumLanes = e.getNumLanes := by
  unfold NBEdge.modifyLane NBEdge.getNumLanes
  split_ifs
  · simp
  · simp

theorem Handler.modifyCurrent_mySplits (h : Handler) (f : NBEdge → NBEdge) :
    (h.modifyCurrent f).mySplits = h.mySplits := by
  unfold Handler.modifyCurrent
  split
  · rfl
  · rfl
  · rfl

theorem Handler.ite_modifyCurrent_mySplits (h : Handler) (c : Bool) (f : NBEdge → NBEdge) :
    (if c then h.modifyCurrent f else h).mySplits = h.mySplits := by
  cases c
  · rfl
  · exact Handler.modifyCurrent_mySplits h f

theorem Handler.modifyCurrent_keeps (h : Handler) (f : NBEdge → NBEdge) (n : Nat)
    (hf : ∀ x, (f x).id = x.id) (hl : ∀ x, (f x).getNumLanes = x.getNumLanes)
    (hcur : ∃ e, h.currentEdge = some e ∧ e.getNumLanes = n) :
    ∃ e, (h.modifyCurrent f).currentEdge = some e ∧ e.getNumLanes = n := by
  obtain ⟨e, he, hn⟩ := hcur
  exact ⟨f e, Handler.currentEdge_modifyCurrent h f e hf he, (hl e).trans hn⟩

theorem Handler.ite_modifyCurrent_keeps (h : Handler) (c : Bool) (f : NBEdge → NBEdge) (n : Nat)
    (hf : ∀ x, (f x).id = x.id) (hl : ∀ x, (f x).getNumLanes = x.getNumLanes)
    (hcur : ∃ e, h.currentEdge = some e ∧ e.getNumLanes = n) :
    ∃ e, (if c then h.modifyCurrent f else h).currentEdge = some e ∧ e.getNumLanes = n := by
  cases c
  · exact hcur
  · exact Handler.modifyCurrent_keeps h f n hf hl hcur

/-- A lane record leaves the staged splits and the number of lanes of the
current edge as they are. -/
theorem addLane_keeps (env : Env) (h : Handler) (attrs : LaneAttrs) (e : NBEdge)
    (hcur : h.currentEdge = some e) :
    (∃ e1, (addLane env h attrs).1.currentEdge = some e1 ∧
      e1.getNumLanes = e.getNumLanes) ∧
    (addLane env h attrs).1.mySplits = h.mySplits := by
  have hc0 : ∃ e1, ({ h with myHaveWarnedAboutDeprecatedLaneId :=
      h.myHaveWarnedAboutDeprecatedLaneId || attrs.idDeprecated.hasAttribute } :
      Handler).currentEdge = some e1 ∧ e1.getNumLanes = e.getNumLanes := ⟨e, hcur, rfl⟩
  unfold addLane
  simp only [hcur]
  generalize (if attrs.idDeprecated.hasAttribute then attrs.idDeprecated.getReporting (-1) true
    else attrs.index.getReporting (-1) true) = p
  obtain ⟨lane, ok⟩ := p
  simp only []
  split
  · exact ⟨hc0, rfl⟩
  · split
    · exact ⟨hc0, rfl⟩
    · refine ⟨?_, ?_⟩
      · apply Handler.ite_modifyCurrent_keeps _ _ _ _ (fun _ => NBEdge.modifyLane_id _ _ _)
          (fun _ => NBEdge.modifyLane_numLanes _ _ _)
        apply Handler.ite_modifyCurrent_keeps _ _ _ _ (fun _ => NBEdge.modifyLane_id _ _ _)
          (fun _ => NBEdge.modifyLane_numLanes _ _ _)
        apply Handler.ite_modifyCurrent_keeps _ _ _ _ (fun _ => NBEdge.modifyLane_id _ _ _)
          (fun _ => NBEdge.modifyLane_numLanes _ _ _)
        apply Handler.modifyCurrent_keeps _ _ _ (fun _ => NBEdge.modifyLane_id _ _ _)
          (fun _ => NBEdge.modifyLane_numLanes _ _ _)
        apply Handler.modifyCurrent_keeps _ _ _ (fun _ => NBEdge.modifyLane_id _ _ _)
          (fun _ => NBEdge.modifyLane_numLanes _ _ _)
        exact hc0
      · simp only [Handler.ite_modifyCurrent_mySplits, Handler.modifyCurrent_mySplits]

/-- A split record leaves the current edge as it is; when it is staged, one
split is appended whose lanes are those `splitLanes` reads for that edge. -/
theorem addSplit_keeps (env : Env) (h : Handler) (attrs : SplitAttrs) (e : NBEdge)
    (hcur : h.currentEdge = some e) :
    (addSplit env h attrs).1.currentEdge = some e ∧
    (addSplit env h attrs).1.mySplits = h.mySplits ++
      (if (addSplit env h attrs).2 = .added then
        [⟨splitLanes env e attrs.lanes,
          if (attrs.pos.getReporting (-1) true).1 < 0
            then (attrs.pos.getReporting (-1) true).1 + e.getGeometry.length
            else (attrs.pos.getReporting (-1) true).1,
          truncToInt (attrs.pos.getReporting (-1) true).1, ⟨0, 0⟩⟩]
       else []) := by
  unfold addSplit
  simp only [hcur]
  generalize attrs.pos.getReporting (-1) true = p
  obtain ⟨pos, ok⟩ := p
  simp only []
  cases ok
  · simp only [Bool.false_eq_true, if_false]
    exact ⟨hcur, by simp⟩
  · simp only [if_true]
    split
    · exact ⟨hcur, by simp⟩
    · split
      · exact ⟨hcur, by simp⟩
      · exact ⟨hcur, by simp⟩

theorem sorted_range_ofNat (n : Nat) :
    ((List.range n).map Int.ofNat).insertionSort (fun a b => a ≤ b)
      = (List.range n).map Int.ofNat := by
  apply List.Sorted.insertionSort_eq
  unfold List.Sorted
  rw [List.pairwise_map]
  exact (List.pairwise_lt_range n).imp (fun h => by
    simp only [Int.ofNat_eq_coe]
    omega)

theorem prepareSplit_lanes (env : Env) (e e1 : NBEdge) (sp : Split) (f : Field String)
    (h : sp.lanes = splitLanes env e1 f) :
    (prepareSplit env e sp).lanes = Spec.lanesUsed env e1.getNumLanes f := by
  unfold prepareSplit Spec.lanesUsed
  simp only [h, splitLanes]
  by_cases hp : Spec.parsedLanes env f = []
  · have hp1 : (env.parseStringVector (f.getOptReporting "" "" true).1).filterMap env.toInt = [] :=
      hp
    rw [if_pos hp, hp1]
    simp only [List.isEmpty_nil, if_true]
    exact sorted_range_ofNat _
  · have hp1 : ((env.parseStringVector (f.getOptReporting "" "" true).1).filterMap
        env.toInt).isEmpty = false := by
      cases hq : (env.parseStringVector (f.getOptReporting "" "" true).1).filterMap env.toInt with
      | nil => exact absurd hq hp
      | cons a l => rfl
    rw [if_neg hp, hp1]
    rfl

theorem insertCurrent_currentEdge (h : Handler) (e : NBEdge) (hcur : h.currentEdge = some e) :
    (insertCurrent h).currentEdge = some e := by
  unfold insertCurrent
  split
  · split
    · rename_i e1 hc
      have he : e1 = e := by
        unfold Handler.currentEdge at hcur
        rw [hc] at hcur
        exact Option.some.inj hcur
      subst he
      unfold NBEdgeCont.insert
      cases hr : h.myEdgeCont.retrieve e1.id with
      | some x => exact hcur
      | none =>
        unfold Handler.currentEdge
        unfold NBEdgeCont.retrieve at hr ⊢
        simp [List.find?_append, hr]
    · exact hcur
  · exact hcur

/-- Reading nested `lane` and `split` elements keeps the number of lanes of
the current edge; every split staged on the way has the lanes `splitLanes`
reads for an edge with that number of lanes. -/
theorem nested_keeps (env : Env) (n : Nat) (els : List Element) :
    ∀ h : Handler, (∃ e, h.currentEdge = some e ∧ e.getNumLanes = n) →
      (∀ el ∈ els, el.nested = true) →
      (∃ e, (els.foldl (myStartElement env) h).currentEdge = some e ∧ e.getNumLanes = n) ∧
      ∃ new, (els.foldl (myStartElement env) h).mySplits = h.mySplits ++ new ∧
        List.Forall₂ (fun sp a => ∃ e1 : NBEdge, e1.getNumLanes = n ∧
          sp.lanes = splitLanes env e1 a.lanes) new (stagedRecords env h els) := by
  induction els with
  | nil =>
    intro h hcur _
    exact ⟨hcur, [], by simp, by simp [stagedRecords]⟩
  | cons el rest ih =>
    intro h hcur hnested
    obtain ⟨e, he, hn⟩ := hcur
    have hrest : ∀ x ∈ rest, x.nested = true := fun x hx => hnested x (List.mem_cons_of_mem _ hx)
    have hel := hnested el (List.mem_cons_self _ _)
    simp only [List.foldl_cons]
    cases el with
    | edge a => simp [Element.nested] at hel
    | delete a => simp [Element.nested] at hel
    | other => simp [Element.nested] at hel
    | lane a =>
      obtain ⟨⟨e1, he1, hn1⟩, hs⟩ := addLane_keeps env h a e he
      obtain ⟨hc, new, hnew, hall⟩ := ih (myStartElement env h (.lane a))
        ⟨e1, he1, hn1.trans hn⟩ hrest
      refine ⟨hc, new, ?_, ?_⟩
      · rw [hnew]
        simp only [myStartElement, hs]
      · simpa [stagedRecords] using hall
    | split a =>
      obtain ⟨he1, hs⟩ := addSplit_keeps env h a e he
      obtain ⟨hc, new, hnew, hall⟩ := ih (myStartElement env h (.split a)) ⟨e, he1, hn⟩ hrest
      by_cases hadd : (addSplit env h a).2 = .added
      · rw [if_pos hadd] at hs
        obtain ⟨sp, hsp, hl⟩ : ∃ sp : Split, (addSplit env h a).1.mySplits = h.mySplits ++ [sp] ∧
            sp.lanes = splitLanes env e a.lanes := ⟨_, hs, rfl⟩
        refine ⟨hc, sp :: new, ?_, ?_⟩
        · rw [hnew]
          simp only [myStartElement, hsp, List.append_assoc, List.singleton_append]
        · simp only [stagedRecords, if_pos hadd, List.singleton_append]
          exact List.Forall₂.cons ⟨e, hn, hl⟩ hall
      · rw [if_neg hadd, List.append_nil] at hs
        refine ⟨hc, new, ?_, ?_⟩
        · rw [hnew]
          simp only [myStartElement, hs]
        · simp only [stagedRecords, if_neg hadd, List.nil_append]
          exact hall

/-- **C18.** After `lane` and `split` elements nested in an open edge were
read, let `e` be the current edge when the closing of the edge begins and `n`
its number of lanes (the number the edge had all along).  For every staged
split, in the order of the records that staged them, the lanes the closing
works with (after its sorting of the lanes) are `Spec.lanesUsed`: all of
`0 .. n-1` when no declared lane string converts, in particular when the
`lanes` field is absent and the empty text has no entries, and otherwise
exactly the converted indices, ascending.  These prepared splits, ordered by
position, are what the closing iterates over. -/
theorem nested_split_lanes (env : Env) (h0 : Handler) (e0 : NBEdge) (els : List Element)
    (hcur : h0.currentEdge = some e0) (hempty : h0.mySplits = [])
    (hnested : ∀ el ∈ els, el.nested = true) :
    ∃ e, (els.foldl (myStartElement env) h0).currentEdge = some e ∧
      (insertCurrent (els.foldl (myStartElement env) h0)).currentEdge = some e ∧
      e.getNumLanes = e0.getNumLanes ∧
      List.Forall₂
        (fun sp a => (prepareSplit env e sp).lanes = Spec.lanesUsed env e.getNumLanes a.lanes)
        (els.foldl (myStartElement env) h0).mySplits (stagedRecords env h0 els) ∧
      (∀ I, (insertCurrent (els.foldl (myStartElement env) h0)).myCurrentEdge
          = some (.registered I) →
        (els.foldl (myStartElement env) h0).mySplits ≠ [] →
        (myEndElement env (els.foldl (myStartElement env) h0)).1.mySplits
          = (sortSplits (els.foldl (myStartElement env) h0).mySplits).map (prepareSplit env e)) ∧
      (env.parseStringVector "" = [] →
        Spec.lanesUsed env e.getNumLanes .absent = (List.range e.getNumLanes).map Int.ofNat) := by
  obtain ⟨⟨e, he, hn⟩, new, hnew, hall⟩ :=
    nested_keeps env e0.getNumLanes els h0 ⟨e0, hcur, rfl⟩ hnested
  rw [hempty, List.nil_append] at hnew
  have hins := insertCurrent_currentEdge _ e he
  refine ⟨e, he, hins, hn, ?_, ?_, ?_⟩
  · rw [hnew]
    refine hall.imp ?_
    rintro sp a ⟨e1, hn1, hl⟩
    rw [hn, ← hn1]
    exact prepareSplit_lanes env e e1 sp a.lanes hl
  · intro I hI hne
    have hreg : (insertCurrent (els.foldl (myStartElement env) h0)).myEdgeCont.retrieve I
        = some e := by
      unfold Handler.currentEdge at hins
      rw [hI] at hins
      exact hins
    rw [myEndElement_registered env _ I e hI hreg, (insertCurrent_fields _).1,
      if_pos (by simpa using hne)]
    simp only [applySplits, (insertCurrent_fields _).1]
  · intro hp
    unfold Spec.lanesUsed Spec.parsedLanes
    simp [Field.getOptReporting, hp]

theorem nested_split_lanes_witness :
    (∃ e, (Sample.nestedInA.foldl (myStartElement Sample.env) Sample.openA).currentEdge
        = some e ∧
      (insertCurrent (Sample.nestedInA.foldl (myStartElement Sample.env)
        Sample.openA)).currentEdge = some e ∧
      e.getNumLanes = Sample.edgeA.getNumLanes ∧
      List.Forall₂
        (fun sp a => (prepareSplit Sample.env e sp).lanes
          = Spec.lanesUsed Sample.env e.getNumLanes a.lanes)
        (Sample.nestedInA.foldl (myStartElement Sample.env) Sample.openA).mySplits
        (stagedRecords Sample.env Sample.openA Sample.nestedInA) ∧
      (∀ I, (insertCurrent (Sample.nestedInA.foldl (myStartElement Sample.env)
            Sample.openA)).myCurrentEdge = some (.registered I) →
        (Sample.nestedInA.foldl (myStartElement Sample.env) Sample.openA).mySplits ≠ [] →
        (myEndElement Sample.env (Sample.nestedInA.foldl (myStartElement Sample.env)
            Sample.openA)).1.mySplits
          = (sortSplits (Sample.nestedInA.foldl (myStartElement Sample.env)
              Sample.openA).mySplits).map (prepareSplit Sample.env e)) ∧
      (Sample.env.parseStringVector "" = [] →
        Spec.lanesUsed Sample.env e.getNumLanes .absent
          = (List.range e.getNumLanes).map Int.ofNat)) ∧
    (stagedRecords Sample.env Sample.openA Sample.nestedInA).length = 3 ∧
    (myEndElement Sample.env (Sample.nestedInA.foldl (myStartElement Sample.env)
        Sample.openA)).1.mySplits.map (fun sp => (sp.pos, sp.lanes))
      = [(30, [1]), (50, [0, 1]), (70, [0, 1])] :=
  ⟨nested_split_lanes Sample.env Sample.openA Sample.edgeA Sample.nestedInA
      (by decide!) (by decide!) (by decide),
    by decide!, by decide!⟩

/-! ## A split whose boundary node cannot be inserted -/

theorem splitStep_failed (env : Env) (I edgeid : String) (n : Nat) (st : SplitState)
    (exp : Split) (hfail : (splitStep env I edgeid n st exp).2 = .nodeInsertFailed) :
    splitStep env I edgeid n st exp = (st, .nodeInsertFailed) ∧
    ∃ e, st.edgeCont.retrieve st.e = some e ∧
      (exp.pos > 0 ∧ e.getGeometry.length + st.seen > exp.pos ∧ exp.pos > st.seen) ∧
      st.nodeCont.retrieve (edgeid ++ "." ++ toString exp.nameid) ≠ none := by
  unfold splitStep at hfail ⊢
  cases hr : st.edgeCont.retrieve st.e with
  | none => simp [hr] at hfail
  | some e =>
    simp only [hr] at hfail ⊢
    split_ifs at hfail ⊢ with hc h0
    · unfold NBNodeCont.insert at hfail ⊢
      cases hn : st.nodeCont.retrieve (edgeid ++ "." ++ toString exp.nameid) with
      | none => simp [hn] at hfail
      | some x =>
        simp only [hn]
        exact ⟨trivial, e, rfl, hc, by simp⟩

/-- **C21.** When the insertion of the boundary node fails for the split `exp`
in the loop "split the edge", the iteration leaves the loop state as it is: the
edge registry and the node registry, the pointer to the current edge, the
current lane set and `seen`.  The loop goes on with the remaining splits from
that very state; a next split that is applied is applied to the edge that was
current before the failure, with the lane count of that edge, its offset
measured from `seen`, the position of the last split applied before. -/
theorem splitLoop_node_insert_failed (env : Env) (I edgeid : String) (n : Nat)
    (st : SplitState) (exp : Split) (rest : List Split)
    (hfail : (splitStep env I edgeid n st exp).2 = .nodeInsertFailed) :
    (splitStep env I edgeid n st exp).1 = st ∧
    splitLoop env I edgeid n st (exp :: rest)
      = ((splitLoop env I edgeid n st rest).1,
          .nodeInsertFailed :: (splitLoop env I edgeid n st rest).2) ∧
    (∀ exp2 rest2 call conns, rest = exp2 :: rest2 →
      (splitLoop env I edgeid n st (exp :: rest)).2[1]? = some (.applied call conns) →
      ∃ e, st.edgeCont.retrieve st.e = some e ∧ call.edge = e.id ∧
        call.noLanesFirstEdge = e.getNumLanes ∧ call.pos = exp2.pos - st.seen ∧
        conns = (reconnect (NBEdgeCont.splitHalf env e e.id e.myFrom call.node
            (e.geom.splitAt call.pos call.node.position).1 e.getNumLanes)
          call.secondEdgeName st.currLanes exp2.lanes n).connections) := by
  obtain ⟨hstep, -⟩ := splitStep_failed env I edgeid n st exp hfail
  have hloop : splitLoop env I edgeid n st (exp :: rest)
      = ((splitLoop env I edgeid n st rest).1,
          .nodeInsertFailed :: (splitLoop env I edgeid n st rest).2) := by
    have := splitLoop_cons env I edgeid n st exp rest
    rw [this, hstep]
  refine ⟨by rw [hstep], hloop, ?_⟩
  intro exp2 rest2 call conns hrest happ
  subst hrest
  rw [hloop, splitLoop_cons] at happ
  simp only [List.getElem?_cons_succ, List.getElem?_cons_zero, Option.some.injEq] at happ
  obtain ⟨e, hreg, -, hcall, hconns, -⟩ := splitStep_applied env I edgeid n st
    (splitStep env I edgeid n st exp2).1 exp2 call conns (Prod.ext rfl happ)
  refine ⟨e, hreg, ?_, ?_, ?_, hconns⟩
  · rw [hcall]
  · rw [hcall]
  · rw [hcall]

theorem splitLoop_node_insert_failed_witness :
    ((splitStep Sample.env "A" "A" 2 Sample.loopStartTaken ⟨[0, 1], 30, 30, ⟨30, 0⟩⟩).1
        = Sample.loopStartTaken ∧
      splitLoop Sample.env "A" "A" 2 Sample.loopStartTaken
          (⟨[0, 1], 30, 30, ⟨30, 0⟩⟩ :: [⟨[0, 1], 70, 70, ⟨70, 0⟩⟩])
        = ((splitLoop Sample.env "A" "A" 2 Sample.loopStartTaken
              [⟨[0, 1], 70, 70, ⟨70, 0⟩⟩]).1,
            .nodeInsertFailed :: (splitLoop Sample.env "A" "A" 2 Sample.loopStartTaken
              [⟨[0, 1], 70, 70, ⟨70, 0⟩⟩]).2) ∧
      (∀ exp2 rest2 call conns, [(⟨[0, 1], 70, 70, ⟨70, 0⟩⟩ : Split)] = exp2 :: rest2 →
        (splitLoop Sample.env "A" "A" 2 Sample.loopStartTaken
          (⟨[0, 1], 30, 30, ⟨30, 0⟩⟩ :: [⟨[0, 1], 70, 70, ⟨70, 0⟩⟩])).2[1]?
            = some (.applied call conns) →
        ∃ e, Sample.loopStartTaken.edgeCont.retrieve Sample.loopStartTaken.e = some e ∧
          call.edge = e.id ∧ call.noLanesFirstEdge = e.getNumLanes ∧
          call.pos = exp2.pos - Sample.loopStartTaken.seen ∧
          conns = (reconnect (NBEdgeCont.splitHalf Sample.env e e.id e.myFrom call.node
              (e.geom.splitAt call.pos call.node.position).1 e.getNumLanes)
            call.secondEdgeName Sample.loopStartTaken.currLanes exp2.lanes 2).connections)) ∧
    (myEndElement Sample.env Sample.openATaken).2.map SplitStep.call?
      = [none, some ("A", 70, "A.70")] ∧
    (myEndElement Sample.env Sample.openATaken).2[0]? = some .nodeInsertFailed :=
  ⟨splitLoop_node_insert_failed Sample.env "A" "A" 2 Sample.loopStartTaken
      ⟨[0, 1], 30, 30, ⟨30, 0⟩⟩ [⟨[0, 1], 70, 70, ⟨70, 0⟩⟩] (by decide!),
    by decide!, by decide!⟩

/-! ## The type named by an update -/

theorem finishEdge_type_irrelevant (env : Env) (h : Handler) (attrs : EdgeAttrs)
    (ty1 ty2 : Field String) (s : Scratch) (ok : Bool) :
    finishEdge env h { attrs with type := ty1 } s ok
      = finishEdge env h { attrs with type := ty2 } s ok := by
  rfl

theorem addEdge_accepted_type (env : Env) (h : Handler) (attrs : EdgeAttrs) (id : String)
    (e : NBEdge) (ty : Field String) (hid : attrs.id = .value id)
    (hprior : h.myEdgeCont.retrieve id = some e) (hty : Spec.typeAccepted h.myTypeCont ty) :
    addEdge env h { attrs with type := ty } = addEdge env h { attrs with type := .absent } := by
  rcases hty with rfl | ⟨t, rfl, hk⟩
  · rfl
  · unfold addEdge
    simp only [hid, Field.getReporting, Field.hasAttribute, hprior, hk, Bool.not_true,
      Bool.false_eq_true, if_false, if_true]
    rfl

/-- **C24.** For a record whose identifier is registered (edge `e`), any two
type fields that pass the type check (absent, or naming a known type) give the
same result of `addEdge`: the same handler state, with the same permissions of
the edge, and the same outcome, in particular the same arguments handed to
`reinit`.  The type identifier handed to `reinit` is the one of `e`. -/
theorem addEdge_update_type_irrelevant (env : Env) (h : Handler) (attrs : EdgeAttrs)
    (id : String) (e : NBEdge) (ty1 ty2 : Field String) (hid : attrs.id = .value id)
    (hprior : h.myEdgeCont.retrieve id = some e)
    (h1 : Spec.typeAccepted h.myTypeCont ty1) (h2 : Spec.typeAccepted h.myTypeCont ty2) :
    addEdge env h { attrs with type := ty1 } = addEdge env h { attrs with type := ty2 } ∧
    ∀ a, (addEdge env h { attrs with type := ty1 }).2 = .reinit a →
      (addEdge env h { attrs with type := ty2 }).2 = .reinit a ∧ a.typeID = e.typeID := by
  have heq := (addEdge_accepted_type env h attrs id e ty1 hid hprior h1).trans
    (addEdge_accepted_type env h attrs id e ty2 hid hprior h2).symm
  refine ⟨heq, ?_⟩
  intro a ha
  refine ⟨by rw [← heq]; exact ha, ?_⟩
  rw [addEdge_accepted_type env h attrs id e ty1 hid hprior h1] at ha
  unfold addEdge at ha
  simp only [hid, Field.getReporting, Field.hasAttribute, hprior, Bool.not_true,
    Bool.false_eq_true, if_false] at ha
  unfold updateOrCreate at ha
  simp only [] at ha
  split at ha
  · simp at ha
  · exact (finishEdge_args env _ _ _ _ a (Or.inl ha)).2.2.2.2.2.2

theorem addEdge_update_type_irrelevant_witness :
    (addEdge Sample.env Sample.handler { Sample.recordWidthA with type := .value "highway" }
        = addEdge Sample.env Sample.handler { Sample.recordWidthA with type := .absent } ∧
      ∀ a, (addEdge Sample.env Sample.handler
          { Sample.recordWidthA with type := .value "highway" }).2 = .reinit a →
        (addEdge Sample.env Sample.handler
          { Sample.recordWidthA with type := .absent }).2 = .reinit a ∧
        a.typeID = Sample.edgeA.typeID) ∧
    (addEdge Sample.env Sample.handler
        { Sample.recordWidthA with type := .value "highway" }).2
      = .reinit { id := "A", fromNode := Sample.n1, toNode := Sample.n2, typeID := "",
                  speed := 10, numLanes := 2, priority := 3, width := 5, offset := 1,
                  shape := PositionVector.empty, streetName := "Main",
                  laneSpread := .LANESPREAD_RIGHT, keepShape := false } ∧
    Sample.lanePermissions (addEdge Sample.env Sample.handler
        { Sample.recordWidthA with type := .value "highway" }).1 = some [1023, 1023] :=
  ⟨addEdge_update_type_irrelevant Sample.env Sample.handler Sample.recordWidthA "A" Sample.edgeA
      (.value "highway") .absent rfl (by decide!) (Or.inr ⟨"highway", rfl, by decide⟩)
      (Or.inl rfl),
    by decide!, by decide!⟩

/-! ## The tags of the splits applied in one closing -/

theorem String.append_left_cancel_data (a b c : String) (h : a ++ b = a ++ c) : b = c := by
  have hd := congrArg String.data h
  simp only [String.data_append] at hd
  exact String.ext (List.append_cancel_left hd)

theorem NBNodeCont.retrieve_append_isSome (nc : NBNodeCont) (n : NBNode) (id : String)
    (h : nc.retrieve id ≠ none) : NBNodeCont.retrieve (nc ++ [n]) id ≠ none := by
  unfold NBNodeCont.retrieve at h ⊢
  rw [List.find?_append]
  cases hf : List.find? (fun n => n.id == id) nc with
  | none => exact absurd hf h
  | some x => simp

/-- A node registered before an iteration of the split loop is registered
after it. -/
theorem splitStep_nodes_kept (env : Env) (I edgeid : String) (n : Nat) (st : SplitState)
    (exp : Split) (id : String) (h : st.nodeCont.retrieve id ≠ none) :
    (splitStep env I edgeid n st exp).1.nodeCont.retrieve id ≠ none := by
  unfold splitStep
  cases hr : st.edgeCont.retrieve st.e with
  | none => exact h
  | some e =>
    simp only []
    split_ifs
    · unfold NBNodeCont.insert
      cases hn : st.nodeCont.retrieve (edgeid ++ "." ++ toString exp.nameid) with
      | none => exact NBNodeCont.retrieve_append_isSome _ _ _ h
      | some x => exact h
    all_goals exact h

/-- An applied split: the identifiers of its boundary node and of its
successor carry its tag, and the node was not registered when the loop
reached the split nor before. -/
theorem splitLoop_applied_fresh (env : Env) (I edgeid : String) (n : Nat) :
    ∀ (splits : List Split) (st : SplitState) (j : Nat) (sj : Split) (cj : SplitAtCall)
      (kj : List Connection), splits[j]? = some sj →
      (splitLoop env I edgeid n st splits).2[j]? = some (.applied cj kj) →
      st.nodeCont.retrieve (edgeid ++ "." ++ toString sj.nameid) = none ∧
      cj.node.id = edgeid ++ "." ++ toString sj.nameid ∧
      cj.secondEdgeName = I ++ "." ++ toString sj.nameid := by
  intro splits
  induction splits with
  | nil => intro st j sj cj kj hs; simp at hs
  | cons exp rest ih =>
    intro st j sj cj kj hs happ
    rw [splitLoop_cons] at happ
    cases j with
    | zero =>
      simp only [List.getElem?_cons_zero, Option.some.injEq] at hs happ
      subst hs
      obtain ⟨e, -, hfresh, -, -⟩ := splitStep_applied_state env I edgeid n st
        (splitStep env I edgeid n st exp).1 exp cj kj (Prod.ext rfl happ)
      obtain ⟨e1, -, -, hcall, -⟩ := splitStep_applied env I edgeid n st
        (splitStep env I edgeid n st exp).1 exp cj kj (Prod.ext rfl happ)
      exact ⟨hfresh, by rw [hcall], by rw [hcall]⟩
    | succ j =>
      simp only [List.getElem?_cons_succ] at hs happ
      obtain ⟨h1, h2, h3⟩ := ih _ j sj cj kj hs happ
      refine ⟨?_, h2, h3⟩
      by_contra hcon
      exact splitStep_nodes_kept env I edgeid n st exp _ hcon h1

/-- Two splits applied in one run of the split loop have different tags. -/
theorem splitLoop_applied_tags (env : Env) (I edgeid : String) (n : Nat) :
    ∀ (splits : List Split) (st : SplitState) (i j : Nat) (si sj : Split)
      (ci cj : SplitAtCall) (ki kj : List Connection), i < j →
      splits[i]? = some si → splits[j]? = some sj →
      (splitLoop env I edgeid n st splits).2[i]? = some (.applied ci ki) →
      (splitLoop env I edgeid n st splits).2[j]? = some (.applied cj kj) →
      edgeid ++ "." ++ toString si.nameid ≠ edgeid ++ "." ++ toString sj.nameid := by
  intro splits
  induction splits with
  | nil => intro st i j si sj ci cj ki kj _ hs; simp at hs
  | cons exp rest ih =>
    intro st i j si sj ci cj ki kj hij hsi hsj hi hj
    rw [splitLoop_cons] at hi hj
    cases j with
    | zero => omega
    | succ j =>
      simp only [List.getElem?_cons_succ] at hsj hj
      cases i with
      | zero =>
        simp only [List.getElem?_cons_zero, Option.some.injEq] at hsi hi
        subst hsi
        obtain ⟨e, -, -, hnc, -⟩ := splitStep_applied_state env I edgeid n st
          (splitStep env I edgeid n st exp).1 exp ci ki (Prod.ext rfl hi)
        obtain ⟨hfresh, -, -⟩ := splitLoop_applied_fresh env I edgeid n rest _ j sj cj kj hsj hj
        intro heq
        rw [hnc, ← heq] at hfresh
        unfold NBNodeCont.retrieve at hfresh
        simp [List.find?_append] at hfresh
      | succ i =>
        simp only [List.getElem?_cons_succ] at hsi hi
        exact ih _ i j si sj ci cj ki kj (by omega) hsi hsj hi hj

theorem splitLoop_length (env : Env) (I edgeid : String) (n : Nat) :
    ∀ (splits : List Split) (st : SplitState),
      (splitLoop env I edgeid n st splits).2.length = splits.length := by
  intro splits
  induction splits with
  | nil => intro st; rfl
  | cons exp rest ih =>
    intro st
    rw [splitLoop_cons]
    simp [ih]

theorem splitLoop_nodes_kept (env : Env) (I edgeid : String) (n : Nat) (id : String) :
    ∀ (splits : List Split) (st : SplitState), st.nodeCont.retrieve id ≠ none →
      (splitLoop env I edgeid n st splits).1.nodeCont.retrieve id ≠ none := by
  intro splits
  induction splits with
  | nil => intro st h; exact h
  | cons exp rest ih =>
    intro st h
    rw [splitLoop_cons]
    exact ih _ (splitStep_nodes_kept env I edgeid n st exp id h)

/-- The boundary node of an applied split is registered when the loop ends. -/
theorem splitLoop_applied_registered (env : Env) (I edgeid : String) (n : Nat) :
    ∀ (splits : List Split) (st : SplitState) (i : Nat) (ci : SplitAtCall)
      (ki : List Connection),
      (splitLoop env I edgeid n st splits).2[i]? = some (.applied ci ki) →
      (splitLoop env I edgeid n st splits).1.nodeCont.retrieve ci.node.id ≠ none := by
  intro splits
  induction splits with
  | nil => intro st i ci ki hi; simp [splitLoop] at hi
  | cons exp rest ih =>
    intro st i ci ki hi
    rw [splitLoop_cons] at hi ⊢
    cases i with
    | zero =>
      simp only [List.getElem?_cons_zero, Option.some.injEq] at hi
      obtain ⟨e, -, -, hnc, -⟩ := splitStep_applied_state env I edgeid n st
        (splitStep env I edgeid n st exp).1 exp ci ki (Prod.ext rfl hi)
      obtain ⟨e1, -, -, hcall, -⟩ := splitStep_applied env I edgeid n st
        (splitStep env I edgeid n st exp).1 exp ci ki (Prod.ext rfl hi)
      apply splitLoop_nodes_kept
      rw [hnc, hcall]
      unfold NBNodeCont.retrieve
      simp [List.find?_append]
    | succ i =>
      simp only [List.getElem?_cons_succ] at hi
      exact ih _ i ci ki hi

/-- The steps of a closing are those of one run of the split loop over the
splits the closing leaves in `mySplits`; the node registry it leaves is the one
of the loop. -/
theorem myEndElement_steps (env : Env) (h : Handler) :
    (myEndElement env h).2 = [] ∨
    ∃ (I edgeid : String) (n : Nat) (st : SplitState),
      (myEndElement env h).2
        = (splitLoop env I edgeid n st (myEndElement env h).1.mySplits).2 ∧
      (myEndElement env h).1.myNodeCont
        = (splitLoop env I edgeid n st (myEndElement env h).1.mySplits).1.nodeCont := by
  unfold myEndElement
  split
  · exact Or.inl rfl
  · simp only []
    split
    · split
      · split
        · rename_i e0 _
          right
          exact ⟨(insertCurrent h).myCurrentID, e0.id, _, _, rfl, rfl⟩
        · exact Or.inl rfl
      · exact Or.inl rfl
    · exact Or.inl rfl

/-- **C23, as stated, fails.** The edge `A` is closed with splits at the
distinct positions 0 and 1/2, which both truncate to the tag 0.  The first one
changes the number of lanes in place and creates no node; the second one is
applied, with the boundary node and the successor `A.0`: it is not skipped. -/
theorem myEndElement_same_tag_second_applied :
    (myEndElement Sample.env Sample.openAWithZeroTagSplits).1.mySplits.map
        (fun s => (s.pos, s.nameid)) = [(0, 0), (1 / 2, 0)] ∧
    (myEndElement Sample.env Sample.openAWithZeroTagSplits).2[0]? = some .resized ∧
    (myEndElement Sample.env Sample.openAWithZeroTagSplits).2.map SplitStep.call?
      = [none, some ("A", 1 / 2, "A.0")] ∧
    ((myEndElement Sample.env Sample.openAWithZeroTagSplits).1.myNodeCont.retrieve "A.0").isSome
      = true := by
  refine ⟨by decide!, by decide!, by decide!, by decide!⟩

/-- **C23, amended.** Within one closing of an edge, two applied splits (splits
for which the edge is split) never have the same boundary node nor the same
successor edge identifier.  Once a split is applied, no later split whose
position truncates to the same tag is applied: its boundary node identifier is
registered by then. -/
theorem myEndElement_distinct_successors (env : Env) (h : Handler) (i j : Nat)
    (ci : SplitAtCall) (ki : List Connection) (hij : i < j)
    (hi : (myEndElement env h).2[i]? = some (.applied ci ki)) :
    (∀ cj kj, (myEndElement env h).2[j]? = some (.applied cj kj) →
      ci.secondEdgeName ≠ cj.secondEdgeName ∧ ci.node.id ≠ cj.node.id) ∧
    (∀ si sj, (myEndElement env h).1.mySplits[i]? = some si →
      (myEndElement env h).1.mySplits[j]? = some sj → si.nameid = sj.nameid →
      (∀ cj kj, (myEndElement env h).2[j]? ≠ some (.applied cj kj)) ∧
      (myEndElement env h).1.myNodeCont.retrieve ci.node.id ≠ none) := by
  rcases myEndElement_steps env h with hnil | ⟨I, edgeid, n, st, hsteps, hnc⟩
  · rw [hnil] at hi
    simp at hi
  · rw [hsteps] at hi
    have hlen := splitLoop_length env I edgeid n (myEndElement env h).1.mySplits st
    have hsi : ∃ si, (myEndElement env h).1.mySplits[i]? = some si := by
      have hlt : i < (myEndElement env h).1.mySplits.length := by
        rw [← hlen]
        exact (List.getElem?_eq_some_iff.mp hi).1
      exact ⟨_, List.getElem?_eq_getElem hlt⟩
    obtain ⟨si, hsi⟩ := hsi
    obtain ⟨-, hni, hsi2⟩ := splitLoop_applied_fresh env I edgeid n _ st i si ci ki hsi hi
    have key : ∀ sj cj kj, (myEndElement env h).1.mySplits[j]? = some sj →
        (myEndElement env h).2[j]? = some (.applied cj kj) →
        toString si.nameid ≠ toString sj.nameid ∧ ci.secondEdgeName ≠ cj.secondEdgeName ∧
          ci.node.id ≠ cj.node.id := by
      intro sj cj kj hsj hj
      rw [hsteps] at hj
      have hne := splitLoop_applied_tags env I edgeid n _ st i j si sj ci cj ki kj hij hsi hsj
        hi hj
      obtain ⟨-, hnj, hsj2⟩ := splitLoop_applied_fresh env I edgeid n _ st j sj cj kj hsj hj
      have htag : toString si.nameid ≠ toString sj.nameid := by
        intro heq
        exact hne (by rw [heq])
      refine ⟨htag, ?_, ?_⟩
      · rw [hsi2, hsj2]
        intro heq
        exact htag (String.append_left_cancel_data _ _ _ heq)
      · rw [hni, hnj]
        exact hne
    refine ⟨?_, ?_⟩
    · intro cj kj hj
      have hsj : ∃ sj, (myEndElement env h).1.mySplits[j]? = some sj := by
        have hlt : j < (myEndElement env h).1.mySplits.length := by
          rw [← hlen, ← hsteps]
          exact (List.getElem?_eq_some_iff.mp hj).1
        exact ⟨_, List.getElem?_eq_getElem hlt⟩
      obtain ⟨sj, hsj⟩ := hsj
      exact (key sj cj kj hsj hj).2
    · intro si1 sj hsi1 hsj htag
      rw [hsi] at hsi1
      cases hsi1
      refine ⟨?_, ?_⟩
      · intro cj kj hj
        exact (key sj cj kj hsj hj).1 (by rw [htag])
      · rw [hnc]
        exact splitLoop_applied_registered env I edgeid n _ st i ci ki hi

theorem myEndElement_distinct_successors_witness :
    ((∀ cj kj, (myEndElement Sample.env Sample.openAWithSameTagSplits).2[1]?
          = some (.applied cj kj) →
        (⟨"A", 151 / 5, ⟨"A.30", ⟨151 / 5, 0⟩⟩, "A", "A.30", 2, 2⟩ : SplitAtCall).secondEdgeName
            ≠ cj.secondEdgeName ∧
          (⟨"A", 151 / 5, ⟨"A.30", ⟨151 / 5, 0⟩⟩, "A", "A.30", 2, 2⟩ : SplitAtCall).node.id
            ≠ cj.node.id) ∧
      (∀ si sj, (myEndElement Sample.env Sample.openAWithSameTagSplits).1.mySplits[0]? = some si →
        (myEndElement Sample.env Sample.openAWithSameTagSplits).1.mySplits[1]? = some sj →
        si.nameid = sj.nameid →
        (∀ cj kj, (myEndElement Sample.env Sample.openAWithSameTagSplits).2[1]?
          ≠ some (.applied cj kj)) ∧
        (myEndElement Sample.env Sample.openAWithSameTagSplits).1.myNodeCont.retrieve
          (⟨"A", 151 / 5, ⟨"A.30", ⟨151 / 5, 0⟩⟩, "A", "A.30", 2, 2⟩ : SplitAtCall).node.id
            ≠ none)) ∧
    (myEndElement Sample.env Sample.openAWithSameTagSplits).1.mySplits.map
        (fun s => (s.pos, s.nameid)) = [(151 / 5, 30), (307 / 10, 30)] ∧
    (myEndElement Sample.env Sample.openAWithSameTagSplits).2.map SplitStep.call?
      = [some ("A", 151 / 5, "A.30"), none] ∧
    (myEndElement Sample.env Sample.openAWithSameTagSplits).2[1]? = some .nodeInsertFailed :=
  ⟨myEndElement_distinct_successors Sample.env Sample.openAWithSameTagSplits 0 1
      ⟨"A", 151 / 5, ⟨"A.30", ⟨151 / 5, 0⟩⟩, "A", "A.30", 2, 2⟩
      [⟨0, "A.30", 0⟩, ⟨1, "A.30", 1⟩] (by decide) (by decide!),
    by decide!, by decide!, by decide!⟩

/-! ## The connections across a split between contiguous lane sets -/

theorem foldl_addLane_const (ne : String) (f g : Nat → Nat) (l : List Nat) (pe : NBEdge) :
    (l.foldl (fun pe x => pe.addLane2LaneConnection (f x) ne (g x)) pe).connections
      = pe.connections ++ l.map (fun x => ⟨f x, ne, g x⟩) := by
  induction l generalizing pe with
  | nil => simp
  | cons a l ih =>
    simp only [List.foldl_cons]
    rw [ih]
    simp [NBEdge.addLane2LaneConnection]

theorem foldl_addLane_last (ne : String) (g : Nat → Nat) (l : List Nat) (pe : NBEdge) :
    (l.foldl (fun pe x => pe.addLane2LaneConnection (usub pe.getNumLanes 1) ne (g x))
      pe).connections
      = pe.connections ++ l.map (fun x => ⟨usub pe.getNumLanes 1, ne, g x⟩) := by
  induction l generalizing pe with
  | nil => simp
  | cons a l ih =>
    simp only [List.foldl_cons]
    rw [ih]
    simp [NBEdge.addLane2LaneConnection, NBEdge.getNumLanes]

/-- The connections `reconnect` gives the predecessor: those for the lanes new
on the right, those for the lanes new on the left, those for the lanes that
continue. -/
theorem reconnect_connections (pe : NBEdge) (ne : String) (currLanes newLanes : List Int)
    (n : Nat) :
    (reconnect pe ne currLanes newLanes n).connections =
      ((List.range (toSigned (toUnsigned (currLanes.headD 0))
          - toSigned (toUnsigned (newLanes.headD 0))).toNat).map
        (fun l => (⟨0, ne, l⟩ : Connection)) ++
      (List.range (toSigned (toUnsigned (newLanes.getLastD 0))
          - toSigned (toUnsigned (currLanes.getLastD 0))).toNat).map
        (fun l => (⟨usub pe.getNumLanes 1, ne,
          usub (usub (toUnsigned (newLanes.getLastD 0)) l)
            (toUnsigned (newLanes.headD 0))⟩ : Connection))) ++
      ((List.range n).filter (fun l => currLanes.any (fun c => toUnsigned c == l) &&
          newLanes.any (fun c => toUnsigned c == l))).map
        (fun l => (⟨usub l (toUnsigned (currLanes.headD 0)), ne,
          usub l (toUnsigned (newLanes.headD 0))⟩ : Connection)) := by
  have hloop : (fun (pe : NBEdge) (x : Nat) =>
      if !(currLanes.any (fun c => toUnsigned c == x)) then pe
      else if !(newLanes.any (fun c => toUnsigned c == x)) then pe
      else pe.addLane2LaneConnection (usub x (toUnsigned (currLanes.headD 0))) ne
        (usub x (toUnsigned (newLanes.headD 0))))
      = (fun pe x =>
          if (currLanes.any (fun c => toUnsigned c == x) &&
              newLanes.any (fun c => toUnsigned c == x)) then
            pe.addLane2LaneConnection (usub x (toUnsigned (currLanes.headD 0))) ne
              (usub x (toUnsigned (newLanes.headD 0)))
          else pe) := by
    funext pe x
    cases currLanes.any (fun c => toUnsigned c == x) <;>
      cases newLanes.any (fun c => toUnsigned c == x) <;> simp
  unfold reconnect
  simp only [hloop]
  rw [connections_foldl_addLane, foldl_addLane_last, foldl_addLane_const
    ne (fun _ => 0) (fun l => l)]
  have hn : (List.foldl (fun pe x => pe.addLane2LaneConnection ((fun _ => 0) x) ne
      ((fun l => l) x)) pe.invalidateConnections
      (List.range (toSigned (toUnsigned (currLanes.headD 0))
          - toSigned (toUnsigned (newLanes.headD 0))).toNat)).getNumLanes = pe.getNumLanes := by
    rw [foldl_proj_preserved NBEdge.getNumLanes]
    · rfl
    · intro pe x; rfl
  rw [hn]
  simp [NBEdge.invalidateConnections]

theorem laneRange_headD (a b : Nat) : (Spec.laneRange a b).headD 0 = (a : Int) := by
  unfold Spec.laneRange
  rw [List.range_succ_eq_map]
  simp

theorem laneRange_getLastD (a b : Nat) (hab : a ≤ b) :
    (Spec.laneRange a b).getLastD 0 = (b : Int) := by
  unfold Spec.laneRange
  rw [List.range_succ]
  simp only [List.map_append, List.map_cons, List.map_nil]
  rw [List.getLastD_concat]
  congr 1
  omega

theorem laneRange_any (a b l : Nat) (hab : a ≤ b) (hb : b < 4294967296) :
    (Spec.laneRange a b).any (fun c => toUnsigned c == l) = decide (a ≤ l ∧ l ≤ b) := by
  rw [Bool.eq_iff_iff]
  simp only [Spec.laneRange, List.any_eq_true, List.mem_map, List.mem_range, beq_iff_eq,
    decide_eq_true_eq]
  constructor
  · rintro ⟨x, ⟨i, hi, rfl⟩, hx⟩
    rw [toUnsigned_of_range _ (by omega) (by omega)] at hx
    omega
  · rintro ⟨h1, h2⟩
    refine ⟨((a + (l - a) : Nat) : Int), ⟨l - a, by omega, rfl⟩, ?_⟩
    rw [toUnsigned_of_range _ (by omega) (by omega)]
    omega

/-- The connections of `reconnect` between the contiguous, overlapping lane
sets `[a..b]` and `[c..d]`. -/
theorem reconnect_contiguous (pe : NBEdge) (ne : String) (a b c d n : Nat)
    (hab : a ≤ b) (hcd : c ≤ d) (had : a ≤ d) (hcb : c ≤ b)
    (hb : b < 2147483648) (hd : d < 2147483648) (hlanes : pe.getNumLanes = b - a + 1) :
    (reconnect pe ne (Spec.laneRange a b) (Spec.laneRange c d) n).connections =
      ((List.range (a - c)).map (fun l => (⟨0, ne, l⟩ : Connection)) ++
        (List.range (d - b)).map (fun l => (⟨b - a, ne, d - l - c⟩ : Connection))) ++
      ((List.range n).filter (fun l => decide (a ≤ l ∧ l ≤ b) && decide (c ≤ l ∧ l ≤ d))).map
        (fun l => (⟨l - a, ne, l - c⟩ : Connection)) := by
  have hUa : toUnsigned (a : Int) = a := by
    rw [toUnsigned_of_range _ (by omega) (by omega)]; omega
  have hUb : toUnsigned (b : Int) = b := by
    rw [toUnsigned_of_range _ (by omega) (by omega)]; omega
  have hUc : toUnsigned (c : Int) = c := by
    rw [toUnsigned_of_range _ (by omega) (by omega)]; omega
  have hUd : toUnsigned (d : Int) = d := by
    rw [toUnsigned_of_range _ (by omega) (by omega)]; omega
  have hS : ∀ x : Nat, x < 2147483648 → toSigned x = (x : Int) := by
    intro x hx
    unfold toSigned
    rw [if_pos hx]
  rw [reconnect_connections, laneRange_headD, laneRange_headD, laneRange_getLastD a b hab,
    laneRange_getLastD c d hcd, hUa, hUb, hUc, hUd, hS a (by omega), hS b hb, hS c (by omega),
    hS d hd, hlanes]
  have hR : ((a : Int) - (c : Int)).toNat = a - c := by omega
  have hL : ((d : Int) - (b : Int)).toNat = d - b := by omega
  rw [hR, hL]
  have hfilter : (fun l => (Spec.laneRange a b).any (fun c => toUnsigned c == l) &&
      (Spec.laneRange c d).any (fun c => toUnsigned c == l))
      = (fun l => decide (a ≤ l ∧ l ≤ b) && decide (c ≤ l ∧ l ≤ d)) := by
    funext l
    rw [laneRange_any a b l hab (by omega), laneRange_any c d l hcd (by omega)]
  rw [hfilter]
  have hB : (List.range (d - b)).map (fun l => (⟨usub (b - a + 1) 1, ne,
      usub (usub d l) c⟩ : Connection))
      = (List.range (d - b)).map (fun l => (⟨b - a, ne, d - l - c⟩ : Connection)) := by
    apply List.map_congr_left
    intro l hl
    rw [List.mem_range] at hl
    have h1 : usub (b - a + 1) 1 = b - a := by
      rw [usub_of_le _ _ (by omega) (by omega)]; omega
    have h2 : usub d l = d - l := usub_of_le _ _ (by omega) (by omega)
    have h3 : usub (d - l) c = d - l - c := usub_of_le _ _ (by omega) (by omega)
    rw [h1, h2, h3]
  have hC : ((List.range n).filter
      (fun l => decide (a ≤ l ∧ l ≤ b) && decide (c ≤ l ∧ l ≤ d))).map
        (fun l => (⟨usub l a, ne, usub l c⟩ : Connection))
      = ((List.range n).filter
      (fun l => decide (a ≤ l ∧ l ≤ b) && decide (c ≤ l ∧ l ≤ d))).map
        (fun l => (⟨l - a, ne, l - c⟩ : Connection)) := by
    apply List.map_congr_left
    intro l hl
    simp only [List.mem_filter, List.mem_range, Bool.and_eq_true, decide_eq_true_eq] at hl
    rw [usub_of_le _ _ (by omega) (by omega), usub_of_le _ _ (by omega) (by omega)]
  rw [hB, hC]

/-- **C22.** For an applied split of a current edge with `b - a + 1` lanes whose
lane set is the contiguous range `[a..b]`, the split keeping the contiguous
range `[c..d]`, the two ranges overlapping and the indices of the current lane
set below `noLanesMax`:
the predecessor has `b - a + 1` lanes and the successor `d - c + 1`; every
connection added leads to the successor, from a lane below `b - a + 1` to a
lane below `d - c + 1`; every successor lane `0 .. d - c` is the target of
exactly one connection (the targets are a permutation of `0 .. d - c`), and its
source is lane 0 for a lane new on the right, the last lane of the predecessor
for a lane new on the left, and the same lane for a lane that continues. -/
theorem splitStep_contiguous_lanes (env : Env) (myCurrentID edgeid : String) (noLanesMax : Nat)
    (st st' : SplitState) (exp : Split) (call : SplitAtCall) (conns : List Connection)
    (e : NBEdge) (a b c d : Nat)
    (hstep : splitStep env myCurrentID edgeid noLanesMax st exp = (st', .applied call conns))
    (hreg : st.edgeCont.retrieve st.e = some e)
    (hcur : st.currLanes = Spec.laneRange a b) (hnew : exp.lanes = Spec.laneRange c d)
    (hab : a ≤ b) (hcd : c ≤ d) (had : a ≤ d) (hcb : c ≤ b)
    (hbn : b < noLanesMax)
    (hb : b < 2147483648) (hd : d < 2147483648) (hlanes : e.getNumLanes = b - a + 1) :
    call.noLanesFirstEdge = b - a + 1 ∧ call.noLanesSecondEdge = d - c + 1 ∧
    (∀ k ∈ conns, k.toEdge = call.secondEdgeName ∧ k.fromLane < b - a + 1 ∧
      k.toLane < d - c + 1 ∧ k.fromLane = Spec.sourceLane a b c k.toLane) ∧
    (conns.map (fun k => k.toLane)).Perm (List.range (d - c + 1)) := by
  obtain ⟨e1, hreg1, -, hcall, hconns, -⟩ := splitStep_applied _ _ _ _ _ _ _ _ _ hstep
  have he1 : e1 = e := Option.some.inj (hreg1.symm.trans hreg)
  rw [he1] at hcall hconns
  have hlen : exp.lanes.length = d - c + 1 := by
    rw [hnew]
    simp [Spec.laneRange]
  have hpe : (NBEdgeCont.splitHalf env e e.id e.myFrom call.node
      (e.geom.splitAt call.pos call.node.position).1 e.getNumLanes).getNumLanes
      = b - a + 1 := by
    simp [NBEdgeCont.splitHalf, NBEdge.getNumLanes]
    exact hlanes
  rw [hcur, hnew, reconnect_contiguous _ _ a b c d noLanesMax hab hcd had hcb hb hd hpe] at hconns
  refine ⟨by rw [hcall]; exact hlanes, by rw [hcall, hlen]; exact Nat.mod_eq_of_lt (by omega),
    ?_, ?_⟩
  · intro k hk
    rw [hconns] at hk
    simp only [List.mem_append, List.mem_map, List.mem_range, List.mem_filter,
      Bool.and_eq_true, decide_eq_true_eq] at hk
    unfold Spec.sourceLane
    rcases hk with (⟨l, hl, rfl⟩ | ⟨l, hl, rfl⟩) | ⟨l, hl, rfl⟩
    · dsimp only
      refine ⟨rfl, by omega, by omega, ?_⟩
      rw [if_pos (by omega)]
    · dsimp only
      refine ⟨rfl, by omega, by omega, ?_⟩
      rw [if_neg (by omega), if_pos (by omega)]
    · dsimp only
      refine ⟨rfl, by omega, by omega, ?_⟩
      rw [if_neg (by omega), if_neg (by omega)]
      omega
  · have ht : conns.map (fun k => k.toLane)
        = ((List.range (a - c)).map (fun l => l) ++
            (List.range (d - b)).map (fun l => d - l - c)) ++
          ((List.range noLanesMax).filter
            (fun l => decide (a ≤ l ∧ l ≤ b) && decide (c ≤ l ∧ l ≤ d))).map
              (fun l => l - c) := by
      rw [hconns]
      simp only [List.map_append, List.map_map]
      rfl
    rw [ht]
    refine (List.perm_ext_iff_of_nodup ?_ (List.nodup_range _)).mpr ?_
    · rw [List.nodup_append, List.nodup_append]
      refine ⟨⟨?_, ?_, ?_⟩, ?_, ?_⟩
      · exact (List.nodup_range _).map_on (fun x _ y _ hxy => hxy)
      · refine (List.nodup_range _).map_on ?_
        intro x hx y hy hxy
        rw [List.mem_range] at hx hy
        simp only at hxy
        omega
      · intro x hx1 hx2
        simp only [List.mem_map, List.mem_range] at hx1 hx2
        obtain ⟨l1, hl1, rfl⟩ := hx1
        obtain ⟨l2, hl2, h2⟩ := hx2
        omega
      · refine ((List.nodup_range _).filter _).map_on ?_
        intro x hx y hy hxy
        simp only [List.mem_filter, List.mem_range, Bool.and_eq_true,
          decide_eq_true_eq] at hx hy
        simp only at hxy
        omega
      · intro x hx1 hx2
        simp only [List.mem_append, List.mem_map, List.mem_range, List.mem_filter,
          Bool.and_eq_true, decide_eq_true_eq] at hx1 hx2
        obtain ⟨l2, hl2, h2⟩ := hx2
        rcases hx1 with ⟨l1, hl1, rfl⟩ | ⟨l1, hl1, rfl⟩
        · omega
        · omega
    · intro j
      simp only [List.mem_append, List.mem_map, List.mem_range, List.mem_filter,
        Bool.and_eq_true, decide_eq_true_eq]
      constructor
      · rintro ((⟨l, hl, rfl⟩ | ⟨l, hl, rfl⟩) | ⟨l, hl, rfl⟩) <;> omega
      · intro hj
        by_cases h1 : j + c < a
        · exact Or.inl (Or.inl ⟨j, by omega, rfl⟩)
        · by_cases h2 : b < j + c
          · exact Or.inl (Or.inr ⟨d - c - j, by omega, by omega⟩)
          · exact Or.inr ⟨j + c, ⟨by omega, by omega, by omega⟩, by omega⟩

theorem splitStep_contiguous_lanes_witness :
    (2 : Nat) = 1 - 0 + 1 ∧ (2 : Nat) = 2 - 1 + 1 ∧
    (∀ k ∈ ([⟨1, "A.30", 1⟩, ⟨1, "A.30", 0⟩] : List Connection),
      k.toEdge = "A.30" ∧ k.fromLane < 1 - 0 + 1 ∧ k.toLane < 2 - 1 + 1 ∧
        k.fromLane = Spec.sourceLane 0 1 1 k.toLane) ∧
    (([⟨1, "A.30", 1⟩, ⟨1, "A.30", 0⟩] : List Connection).map (fun k => k.toLane)).Perm
      (List.range (2 - 1 + 1)) :=
  splitStep_contiguous_lanes Sample.env "A" "A" 2 Sample.loopStart
    (splitStep Sample.env "A" "A" 2 Sample.loopStart ⟨[1, 2], 30, 30, ⟨30, 0⟩⟩).1
    ⟨[1, 2], 30, 30, ⟨30, 0⟩⟩
    ⟨"A", 30, ⟨"A.30", ⟨30, 0⟩⟩, "A", "A.30", 2, 2⟩
    [⟨1, "A.30", 1⟩, ⟨1, "A.30", 0⟩]
    Sample.edgeA 0 1 1 2
    (Prod.ext rfl (by decide!)) (by decide!) (by decide) (by decide) (by decide) (by decide)
    (by decide) (by decide) (by decide) (by decide) (by decide) (by decide!)

end NIXMLEdgesHandler
